import Mathlib

/-!
# power: a proof-of-work gateway

A shallow embedding of the Go packages `internal/message`, `pkg/hashcash` and
`internal/server`, together with the parts of the Go standard library they call
(`strings`, `strconv`, `time`, `encoding/base64`, `crypto/sha1`).

Conventions.
* A Go `string` or `[]byte` is a `Bytes`: the list of its bytes, each a natural
  number (below 256 for every value a Go program can hold).
* A Go `int` is an `Int` between `strconv.minInt` and `strconv.maxInt`; where the
  source can overflow the wrap-around is written out (`hashcash.wrapInt`,
  `message.toInt8`).
* A Go `(value, error)` result is an `Except`, or an `Option` where the caller
  only tests `err != nil`.
-/

/-- Go `string` and `[]byte`: the sequence of bytes. -/
abbrev Bytes := List Nat

/-- The bytes of an ASCII string literal of the source. -/
def str (s : String) : Bytes := s.data.map Char.toNat

/-- Equality of Go results is decidable when it is for values and errors. -/
instance instDecidableEqExcept {ε α : Type} [DecidableEq ε] [DecidableEq α] :
    DecidableEq (Except ε α)
  | .ok a, .ok b =>
    if h : a = b then isTrue (by rw [h]) else isFalse (fun h' => h (Except.ok.inj h'))
  | .error a, .error b =>
    if h : a = b then isTrue (by rw [h]) else isFalse (fun h' => h (Except.error.inj h'))
  | .ok _, .error _ => isFalse (fun h => by cases h)
  | .error _, .ok _ => isFalse (fun h => by cases h)

/-! ## `strings` -/

namespace strings

/-- The six ASCII bytes `unicode.IsSpace` accepts: `\t \n \v \f \r` and the blank. -/
def isAsciiSpace (b : Nat) : Bool :=
  b == 9 || b == 10 || b == 11 || b == 12 || b == 13 || b == 32

/-- The two-byte UTF-8 encodings of white space: U+0085 and U+00A0. -/
def isSpace2 (b0 b1 : Nat) : Bool :=
  b0 == 0xC2 && (b1 == 0x85 || b1 == 0xA0)

/-- The three-byte UTF-8 encodings of white space: U+1680, U+2000..U+200A,
U+2028, U+2029, U+202F, U+205F and U+3000. -/
def isSpace3 (b0 b1 b2 : Nat) : Bool :=
  (b0 == 0xE1 && b1 == 0x9A && b2 == 0x80) ||
  (b0 == 0xE2 && b1 == 0x80 &&
    ((0x80 ≤ b2 && b2 ≤ 0x8A) || b2 == 0xA8 || b2 == 0xA9 || b2 == 0xAF)) ||
  (b0 == 0xE2 && b1 == 0x81 && b2 == 0x9F) ||
  (b0 == 0xE3 && b1 == 0x80 && b2 == 0x80)

/-- Number of bytes of the white-space rune that `utf8.DecodeRuneInString`
finds at the head of `s`; `0` when the first rune is not white space (or `s` is
empty, or its head is not valid UTF-8). -/
def spaceWidth : Bytes → Nat
  | [] => 0
  | b0 :: r0 =>
    if isAsciiSpace b0 then 1
    else match r0 with
      | [] => 0
      | b1 :: r1 =>
        if isSpace2 b0 b1 then 2
        else match r1 with
          | [] => 0
          | b2 :: _ => if isSpace3 b0 b1 b2 then 3 else 0

/-- Number of bytes of the white-space rune that `utf8.DecodeLastRuneInString`
finds at the end of a string, given the string reversed (last byte first). -/
def spaceWidthEnd : Bytes → Nat
  | [] => 0
  | b0 :: r0 =>
    if isAsciiSpace b0 then 1
    else match r0 with
      | [] => 0
      | b1 :: r1 =>
        if isSpace2 b1 b0 then 2
        else match r1 with
          | [] => 0
          | b2 :: _ => if isSpace3 b2 b1 b0 then 3 else 0

/-- The loop of `strings.TrimLeftFunc(s, unicode.IsSpace)`: drop white-space
runes from the head; one unit of fuel per rune dropped. -/
def trimLeftLoop : Nat → Bytes → Bytes
  | 0, s => s
  | fuel + 1, s =>
    if spaceWidth s = 0 then s else trimLeftLoop fuel (s.drop (spaceWidth s))

/-- The loop of `strings.TrimRightFunc(s, unicode.IsSpace)` on the reversed string. -/
def trimRightLoop : Nat → Bytes → Bytes
  | 0, r => r
  | fuel + 1, r =>
    if spaceWidthEnd r = 0 then r else trimRightLoop fuel (r.drop (spaceWidthEnd r))

/-- `strings.TrimLeftFunc(s, unicode.IsSpace)`. -/
def TrimLeftSpace (s : Bytes) : Bytes := trimLeftLoop s.length s

/-- `strings.TrimRightFunc(s, unicode.IsSpace)`. -/
def TrimRightSpace (s : Bytes) : Bytes := (trimRightLoop s.length s.reverse).reverse

/-- `strings.TrimSpace`: all leading and trailing white space, as defined by
Unicode, removed. -/
def TrimSpace (s : Bytes) : Bytes := TrimRightSpace (TrimLeftSpace s)

/-- `strings.Split(s, sep)` for a one-byte separator: the fields between the
separators, `[""]` for the empty string. -/
def Split (sep : Nat) : Bytes → List Bytes
  | [] => [[]]
  | c :: cs =>
    if c = sep then [] :: Split sep cs
    else match Split sep cs with
      | [] => [[c]]
      | f :: fs => (c :: f) :: fs

/-- `strings.Join(elems, sep)` for a one-byte separator. -/
def Join (sep : Nat) : List Bytes → Bytes
  | [] => []
  | [a] => a
  | a :: b :: rest => a ++ sep :: Join sep (b :: rest)

end strings

/-! ## `strconv` -/

namespace strconv

/-- Largest Go `int` (64-bit). -/
def maxInt : Int := 9223372036854775807

/-- Smallest Go `int` (64-bit). -/
def minInt : Int := -9223372036854775808

/-- An ASCII decimal digit. -/
def isDigit (b : Nat) : Bool := 48 ≤ b && b ≤ 57

/-- Value of a string of decimal digits, most significant first. -/
def digitsVal (ds : Bytes) : Nat := ds.foldl (fun a d => 10 * a + (d - 48)) 0

/-- A non-empty string of decimal digits, read as a natural number. -/
def parseDigits (ds : Bytes) : Option Nat :=
  if ds ≠ [] ∧ ds.all isDigit = true then some (digitsVal ds) else none

/-- `strconv.Atoi`, success or failure only: an optional sign, then one or more
decimal digits, the value within the range of `int`. -/
def Atoi (s : Bytes) : Option Int :=
  match s with
  | [] => none
  | c :: r =>
    if c = 45 then
      match parseDigits r with
      | none => none
      | some n => if -(n : Int) < minInt then none else some (-(n : Int))
    else
      match parseDigits (if c = 43 then r else s) with
      | none => none
      | some n => if maxInt < (n : Int) then none else some (n : Int)

/-- Decimal digits of `n`, most significant first, put in front of `acc`. -/
def formatLoop : Nat → Nat → Bytes → Bytes
  | 0, _, acc => acc
  | fuel + 1, n, acc =>
    if n < 10 then (48 + n) :: acc
    else formatLoop fuel (n / 10) ((48 + n % 10) :: acc)

/-- Decimal form of a natural number. -/
def formatNat (n : Nat) : Bytes := formatLoop (n + 1) n []

/-- `strconv.Itoa`, which is also what `fmt` prints for `%d`. -/
def Itoa (i : Int) : Bytes :=
  if i < 0 then 45 :: formatNat (-i).toNat else formatNat i.toNat

end strconv

/-! ## `internal/message` -/

namespace message

/-- `DelimiterEndOfMessage`, the newline. -/
def DelimiterEndOfMessage : Nat := 10

/-- `DelimiterMessage`, the character `#`. -/
def DelimiterMessage : Nat := 35

/-- `MessageError` -/
def MessageError : Int := 0
/-- `MessageTypeRequestTask` -/
def MessageTypeRequestTask : Int := 1
/-- `MessageTypeResponseTask` -/
def MessageTypeResponseTask : Int := 2
/-- `MessageTypeRequestWisdom` -/
def MessageTypeRequestWisdom : Int := 3
/-- `MessageTypeResponseWisdom` -/
def MessageTypeResponseWisdom : Int := 4

/-- The conversion `MessageType(n)` of an `int` to the `int8` type: the low
eight bits, read as a signed number. -/
def toInt8 (n : Int) : Int := (n + 128) % 256 - 128

/-- `Message`; `Type'` is the field `Type`, an `int8`. -/
structure Message where
  Type' : Int
  Payload : Bytes
  deriving DecidableEq, Repr

/-- The error values of the package; the only one is `ErrIncorrectMessageFormat`. -/
inductive Error where
  | ErrIncorrectMessageFormat
  deriving DecidableEq, Repr

/-- `NewMessageFromString`. -/
def NewMessageFromString (msg : Bytes) : Except Error Message :=
  let msg := strings.TrimSpace msg
  let parts := strings.Split DelimiterMessage msg
  if parts.length < 2 then .error .ErrIncorrectMessageFormat
  else
    match strconv.Atoi (parts.getD 0 []) with
    | none => .error .ErrIncorrectMessageFormat
    | some msgType =>
      let t := toInt8 msgType
      if t = MessageError ∨ t = MessageTypeRequestTask ∨ t = MessageTypeResponseTask ∨
          t = MessageTypeRequestWisdom ∨ t = MessageTypeResponseWisdom then
        .ok { Type' := t, Payload := parts.getD 1 [] }
      else .error .ErrIncorrectMessageFormat

/-- `Message.String`: `fmt.Sprintf("%d%c%s%c", m.Type, '#', m.Payload, '\n')`. -/
def Message.String (m : Message) : Bytes :=
  strconv.Itoa m.Type' ++ DelimiterMessage :: (m.Payload ++ [DelimiterEndOfMessage])

/-- `Message.Bytes`. -/
def Message.Bytes (m : Message) : Bytes := m.String

end message

/-! ## `time` -/

namespace time

/-- A `time.Time` in the UTC location, held as its calendar fields. -/
structure Time where
  year : Int
  month : Nat
  day : Nat
  hour : Nat
  minute : Nat
  second : Nat
  nsec : Nat
  deriving DecidableEq, Repr

/-- Leap years of the Gregorian calendar. -/
def isLeap (year : Int) : Bool :=
  year % 4 == 0 && (year % 100 != 0 || year % 400 == 0)

/-- `daysIn(month, year)`. -/
def daysIn (month : Nat) (year : Int) : Nat :=
  if month = 2 then (if isLeap year then 29 else 28)
  else if month = 4 ∨ month = 6 ∨ month = 9 ∨ month = 11 then 30
  else 31

/-- The fields of a `Time` are those of a real instant: what `time.Now().UTC()`
and `time.Date` return. -/
def Time.Valid (t : Time) : Prop :=
  1 ≤ t.month ∧ t.month ≤ 12 ∧ 1 ≤ t.day ∧ t.day ≤ daysIn t.month t.year ∧
  t.hour < 24 ∧ t.minute < 60 ∧ t.second < 60 ∧ t.nsec < 1000000000

instance (t : Time) : Decidable t.Valid := by
  unfold Time.Valid; infer_instance

/-- Days from 1970-01-01 to the given day of the proleptic Gregorian calendar. -/
def daysFromCivil (year : Int) (month day : Nat) : Int :=
  let y : Int := if month ≤ 2 then year - 1 else year
  let era : Int := y / 400
  let yoe : Int := y - era * 400
  let mp : Int := if month ≤ 2 then (month : Int) + 9 else (month : Int) - 3
  let doy : Int := (153 * mp + 2) / 5 + (day : Int) - 1
  let doe : Int := yoe * 365 + yoe / 4 - yoe / 100 + doy
  era * 146097 + doe - 719468

/-- `Time.UnixNano` without the 64-bit limit: nanoseconds since 1970-01-01T00:00:00Z. -/
def Time.unixNano (t : Time) : Int :=
  (daysFromCivil t.year t.month t.day * 86400 +
    (t.hour : Int) * 3600 + (t.minute : Int) * 60 + (t.second : Int)) * 1000000000 +
  (t.nsec : Int)

/-- `Time.Truncate(time.Second)`. -/
def Time.truncateSecond (t : Time) : Time := { t with nsec := 0 }

/-- `t.Add(d).Before(u)`, with `d` a `time.Duration` in nanoseconds. -/
def addBefore (t : Time) (d : Int) (u : Time) : Bool :=
  decide (t.unixNano + d < u.unixNano)

/-- `getnum`: one or two leading digits; exactly two when `fixed`. -/
def getnum : Bytes → Bool → Option (Nat × Bytes)
  | [], _ => none
  | [a], fixed =>
    if strconv.isDigit a then (if fixed then none else some (a - 48, [])) else none
  | a :: b :: rest, fixed =>
    if strconv.isDigit a then
      if strconv.isDigit b then some ((a - 48) * 10 + (b - 48), rest)
      else if fixed then none else some (a - 48, b :: rest)
    else none

/-- The `stdLongYear` chunk: exactly four digits. -/
def parseYear : Bytes → Option (Nat × Bytes)
  | a :: b :: c :: d :: rest =>
    if strconv.isDigit a && strconv.isDigit b && strconv.isDigit c && strconv.isDigit d then
      some (strconv.digitsVal [a, b, c, d], rest)
    else none
  | _ => none

/-- The fractional second `Parse` accepts after the seconds although the layout
has none: a comma or period and a maximal run of digits, of which the first
nine count. Gives the nanoseconds and the text left. -/
def parseFraction : Bytes → Nat × Bytes
  | c :: d :: rest =>
    if (c == 46 || c == 44) && strconv.isDigit d then
      let ds := (d :: rest).takeWhile strconv.isDigit
      let ds9 := ds.take 9
      (strconv.digitsVal ds9 * 10 ^ (9 - ds9.length), (d :: rest).drop ds.length)
    else (0, c :: d :: rest)
  | v => (0, v)

/-- `time.ParseInLocation(timeFormat, value, time.UTC)` for the layout
`timeFormat = "20060102150405"`; `none` when it returns an error. -/
def ParseInLocation (value : Bytes) : Option Time :=
  match parseYear value with
  | none => none
  | some (year, v1) =>
    match getnum v1 true with
    | none => none
    | some (month, v2) =>
      if month = 0 ∨ 12 < month then none
      else match getnum v2 true with
        | none => none
        | some (day, v3) =>
          match getnum v3 false with
          | none => none
          | some (hour, v4) =>
            if 24 ≤ hour then none
            else match getnum v4 true with
              | none => none
              | some (minute, v5) =>
                if 60 ≤ minute then none
                else match getnum v5 true with
                  | none => none
                  | some (second, v6) =>
                    if 60 ≤ second then none
                    else if (parseFraction v6).2 ≠ [] then none
                    else if day < 1 ∨ daysIn month year < day then none
                    else some
                      { year := year, month := month, day := day, hour := hour,
                        minute := minute, second := second, nsec := (parseFraction v6).1 }

/-- `appendInt`: the decimal form, padded with zeros to `width` digits, after a
minus sign when negative. -/
def appendInt (x : Int) (width : Nat) : Bytes :=
  let ds := strconv.formatNat x.natAbs
  let padded := List.replicate (width - ds.length) 48 ++ ds
  if x < 0 then 45 :: padded else padded

/-- `t.Format(timeFormat)` for the layout `timeFormat = "20060102150405"`. -/
def Time.Format (t : Time) : Bytes :=
  appendInt t.year 4 ++ appendInt t.month 2 ++ appendInt t.day 2 ++
    appendInt t.hour 2 ++ appendInt t.minute 2 ++ appendInt t.second 2

end time

/-! ## `encoding/base64` -/

namespace base64

/-- The character of the standard alphabet for a six-bit value. -/
def encodeStd (v : Nat) : Nat :=
  if v < 26 then 65 + v
  else if v < 52 then 71 + v
  else if v < 62 then v - 4
  else if v = 62 then 43
  else 47

/-- The six-bit value of a character of the standard alphabet. -/
def decodeMap (c : Nat) : Option Nat :=
  if 65 ≤ c ∧ c ≤ 90 then some (c - 65)
  else if 97 ≤ c ∧ c ≤ 122 then some (c - 71)
  else if 48 ≤ c ∧ c ≤ 57 then some (c + 4)
  else if c = 43 then some 62
  else if c = 47 then some 63
  else none

/-- The padding character `=`. -/
def padChar : Nat := 61

/-- `base64.StdEncoding.EncodeToString`. -/
def EncodeToString : Bytes → Bytes
  | [] => []
  | [a] => [encodeStd (a / 4), encodeStd (a % 4 * 16), padChar, padChar]
  | [a, b] =>
    [encodeStd (a / 4), encodeStd (a % 4 * 16 + b / 16), encodeStd (b % 16 * 4), padChar]
  | a :: b :: c :: rest =>
    encodeStd (a / 4) :: encodeStd (a % 4 * 16 + b / 16) ::
      encodeStd (b % 16 * 4 + c / 64) :: encodeStd (c % 64) :: EncodeToString rest

/-- Decoding of a text without line breaks, four characters at a time; padding
is accepted only as `xx==` or `xxx=` at the very end. -/
def decodeQuanta : Bytes → Option Bytes
  | [] => some []
  | a :: b :: c :: d :: rest =>
    match decodeMap a, decodeMap b with
    | some x, some y =>
      if c = padChar then
        if d = padChar ∧ rest = [] then some [x * 4 + y / 16] else none
      else match decodeMap c with
        | none => none
        | some z =>
          if d = padChar then
            if rest = [] then some [x * 4 + y / 16, y % 16 * 16 + z / 4] else none
          else match decodeMap d with
            | none => none
            | some w =>
              match decodeQuanta rest with
              | none => none
              | some t => some ((x * 4 + y / 16) :: (y % 16 * 16 + z / 4) :: (z % 4 * 64 + w) :: t)
    | _, _ => none
  | _ => none

/-- `base64.StdEncoding.DecodeString`, `none` when it returns an error: carriage
returns and line feeds are skipped, the rest is decoded. -/
def DecodeString (s : Bytes) : Option Bytes :=
  decodeQuanta (s.filter (fun c => c != 10 && c != 13))

/-- A character of an encoding: of the alphabet or the padding, so neither a
line break nor a colon nor a hash sign. -/
def plain (c : Nat) : Prop := c ≠ 10 ∧ c ≠ 13 ∧ c ≠ 58 ∧ c ≠ 35

end base64

/-! ## `crypto/sha1` -/

namespace sha1

/-- Rotation of a 32-bit word to the left. -/
def rotl (n x : Nat) : Nat := ((x <<< n) ||| (x >>> (32 - n))) % 4294967296

/-- The message followed by the bit `1`, zeros up to 56 modulo 64 bytes, and the
length in bits as eight bytes. -/
def pad (msg : Bytes) : Bytes :=
  msg ++ 128 :: List.replicate ((119 - msg.length % 64) % 64) 0 ++
    (List.range 8).map (fun i => ((8 * msg.length) >>> (8 * (7 - i))) % 256)

/-- Big-endian 32-bit words of a byte sequence. -/
def words : Bytes → List Nat
  | a :: b :: c :: d :: rest => (a * 16777216 + b * 65536 + c * 256 + d) :: words rest
  | _ => []

/-- The first `n` blocks of sixteen words. -/
def blocks : Nat → List Nat → List (List Nat)
  | 0, _ => []
  | n + 1, ws => ws.take 16 :: blocks n (ws.drop 16)

/-- The message schedule, newest word first: `k` more words after those given. -/
def expand : Nat → List Nat → List Nat
  | 0, ws => ws
  | k + 1, ws =>
    expand k (rotl 1 (ws.getD 2 0 ^^^ ws.getD 7 0 ^^^ ws.getD 13 0 ^^^ ws.getD 15 0) :: ws)

/-- The five chaining words. -/
structure State where
  a : Nat
  b : Nat
  c : Nat
  d : Nat
  e : Nat

/-- The round function and round constant of round `t`. -/
def fk (t b c d : Nat) : Nat × Nat :=
  if t < 20 then ((b &&& c) ||| ((4294967295 - b) &&& d), 0x5A827999)
  else if t < 40 then (b ^^^ c ^^^ d, 0x6ED9EBA1)
  else if t < 60 then ((b &&& c) ||| (b &&& d) ||| (c &&& d), 0x8F1BBCDC)
  else (b ^^^ c ^^^ d, 0xCA62C1D6)

/-- One round. -/
def round (s : State) (t w : Nat) : State :=
  ⟨(rotl 5 s.a + (fk t s.b s.c s.d).1 + s.e + (fk t s.b s.c s.d).2 + w) % 4294967296,
    s.a, rotl 30 s.b, s.c, s.d⟩

/-- The rounds over the schedule, numbered from `t`. -/
def rounds : State → Nat → List Nat → State
  | s, _, [] => s
  | s, t, w :: ws => rounds (round s t w) (t + 1) ws

/-- The compression of one block into the chaining words. -/
def compress (h : State) (block : List Nat) : State :=
  let s := rounds h 0 (expand 64 block.reverse).reverse
  ⟨(h.a + s.a) % 4294967296, (h.b + s.b) % 4294967296, (h.c + s.c) % 4294967296,
    (h.d + s.d) % 4294967296, (h.e + s.e) % 4294967296⟩

/-- The initial chaining words. -/
def init : State := ⟨0x67452301, 0xEFCDAB89, 0x98BADCFE, 0x10325476, 0xC3D2E1F0⟩

/-- The four bytes of a 32-bit word, most significant first. -/
def wordBytes (w : Nat) : Bytes := [w / 16777216, w / 65536 % 256, w / 256 % 256, w % 256]

/-- `sha1.Sum`: the 20-byte digest. -/
def Sum (msg : Bytes) : Bytes :=
  let s := (blocks ((pad msg).length / 64) (words (pad msg))).foldl compress init
  wordBytes s.a ++ wordBytes s.b ++ wordBytes s.c ++ wordBytes s.d ++ wordBytes s.e

/-- A lowercase hexadecimal digit. -/
def hexDigit (n : Nat) : Nat := if n < 10 then 48 + n else 87 + n

/-- `fmt.Sprintf("%x", bs)`: two lowercase hexadecimal digits per byte. -/
def hex : Bytes → Bytes
  | [] => []
  | b :: bs => hexDigit (b / 16) :: hexDigit (b % 16) :: hex bs

end sha1

/-! ## `math/big` -/

namespace big

/-- The bytes of `n`, most significant first, put in front of `acc`. -/
def bytesLoop : Nat → Nat → Bytes → Bytes
  | 0, _, acc => acc
  | fuel + 1, n, acc => if n = 0 then acc else bytesLoop fuel (n / 256) (n % 256 :: acc)

/-- `(*big.Int).Bytes` of a number that is not negative: its big-endian bytes
without a leading zero byte, none at all for 0. -/
def IntBytes (n : Nat) : Bytes := bytesLoop n n []

end big

/-! ## `pkg/hashcash` -/

namespace hashcash

/-- `version1` -/
def version1 : Bytes := str "1"

/-- `delimiter`, the colon. -/
def delimiter : Nat := 58

/-- `zeroBit`, the character `0`. -/
def zeroBit : Nat := 48

/-- The errors the package returns: its eight named values, the unnamed ones
made by `fmt.Errorf` (told apart by their fixed text), and `runtimePanic`, which
is no error value but the run-time panic of a slice bound out of range. -/
inductive Error where
  | ErrIncorrectVersion
  | ErrIncorrectHeaderFormat
  | ErrHashLengthLessThanZeroBits
  | ErrZeroBitsMustBeMoreThanZero
  | ErrZeroBitsMustBeNumber
  | ErrMaxTriesExceeded
  | ErrIncorrectDate
  | ErrCounterMustBePositiveNumber
  | unnamed (text : String)
  | runtimePanic
  deriving DecidableEq, Repr

/-- One of the eight named error values of the package. -/
def Error.isNamed : Error → Bool
  | .unnamed _ => false
  | .runtimePanic => false
  | _ => true

/-- `HashCash` -/
structure HashCash where
  zeroBits : Int
  date : time.Time
  senderData : Bytes
  extension : Bytes
  randomSeed : Bytes
  counter : Int
  deriving DecidableEq, Repr

/-- `NewHashCash`. `now` is what `time.Now().UTC()` returns and `random` what
`rand.Int(rand.Reader, big.NewInt(math.MaxInt32))` returns: a number, or `none`
for an error, which is handed on as it is (an unnamed error for this package). -/
def NewHashCash (zeroBits : Int) (sender : Bytes) (now : time.Time) (random : Option Nat) :
    Except Error HashCash :=
  if zeroBits ≤ 0 then .error .ErrZeroBitsMustBeMoreThanZero
  else
    match random with
    | none => .error (.unnamed "crypto/rand")
    | some rand =>
      .ok
        { zeroBits := zeroBits
          date := now.truncateSecond
          senderData := sender
          extension := []
          randomSeed := big.IntBytes rand
          counter := 0 }

/-- `NewHashCashFromString` -/
def NewHashCashFromString (data : Bytes) : Except Error HashCash :=
  let parts := strings.Split delimiter data
  if parts.length < 7 then .error .ErrIncorrectHeaderFormat
  else if parts.getD 0 [] ≠ version1 then .error .ErrIncorrectVersion
  else
    match strconv.Atoi (parts.getD 1 []) with
    | none => .error .ErrZeroBitsMustBeNumber
    | some zeroBits =>
      if zeroBits ≤ 0 then .error .ErrZeroBitsMustBeMoreThanZero
      else
        match time.ParseInLocation (parts.getD 2 []) with
        | none => .error .ErrIncorrectDate
        | some date =>
          match base64.DecodeString (parts.getD (parts.length - 1) []) with
          | none => .error (.unnamed "read counter error")
          | some counterString =>
            match strconv.Atoi counterString with
            | none => .error .ErrCounterMustBePositiveNumber
            | some counter =>
              if counter < 0 then .error .ErrCounterMustBePositiveNumber
              else
                match base64.DecodeString (parts.getD (parts.length - 2) []) with
                | none => .error (.unnamed "read random seed error")
                | some randomSeed =>
                  .ok
                    { zeroBits := zeroBits
                      senderData :=
                        strings.Join delimiter ((parts.take (parts.length - 3)).drop 3)
                      date := date
                      extension := parts.getD (parts.length - 3) []
                      randomSeed := randomSeed
                      counter := counter }

/-- `HashCash.String`: `fmt.Sprintf("1:%d:%s:%s::%s:%s", ...)`. -/
def HashCash.String (h : HashCash) : Bytes :=
  str "1:" ++ strconv.Itoa h.zeroBits ++ delimiter :: h.date.Format ++
    delimiter :: h.senderData ++ str "::" ++ base64.EncodeToString h.randomSeed ++
    delimiter :: base64.EncodeToString (strconv.Itoa h.counter)

/-- `HashCash.Hash`; writing to a hash never fails, so no error is returned. -/
def HashCash.Hash (h : HashCash) : Except Error Bytes :=
  .ok (sha1.hex (sha1.Sum h.String))

/-- `HashCash.Validate`. The slice `hash[:h.zeroBits]` panics for a negative
`zeroBits`. -/
def HashCash.Validate (h : HashCash) : Except Error Bool :=
  match h.Hash with
  | .error err => .error err
  | .ok hash =>
    if (hash.length : Int) < h.zeroBits then .error .ErrHashLengthLessThanZeroBits
    else if h.zeroBits < 0 then .error .runtimePanic
    else .ok ((hash.take h.zeroBits.toNat).all (fun s => s == zeroBit))

/-- The increment `h.counter++` of a 64-bit `int`. -/
def wrapInt (i : Int) : Int := (i + 9223372036854775808) % 18446744073709551616 - 9223372036854775808

/-- The `for h.counter <= maxTries` loop of `Calculate`, one unit of fuel per
iteration: the challenge as left by the loop and the error returned, or `none`
when the fuel does not suffice. -/
def calculateLoop (maxTries : Int) : Nat → HashCash → Option (HashCash × Option Error)
  | 0, _ => none
  | fuel + 1, h =>
    if h.counter ≤ maxTries then
      match h.Validate with
      | .error err => some (h, some err)
      | .ok true => some (h, none)
      | .ok false => calculateLoop maxTries fuel { h with counter := wrapInt (h.counter + 1) }
    else some (h, some .ErrMaxTriesExceeded)

/-- `HashCash.Calculate`: the challenge afterwards and the error returned (`none`
for `nil`); the outer `none` when `fuel` iterations do not end the loop. -/
def HashCash.Calculate (h : HashCash) (maxTries : Int) (fuel : Nat) :
    Option (HashCash × Option Error) :=
  if maxTries > 0 then calculateLoop maxTries fuel { h with counter := 0 }
  else some (h, some .ErrMaxTriesExceeded)

/-- The loop of `Calculate` with the calls of `h.Validate()` counted: what
`calculateLoop` returns and, third, `evals` plus the number of calls made. -/
def calculateLoopEvals (maxTries : Int) :
    Nat → HashCash → Nat → Option (HashCash × Option Error × Nat)
  | 0, _, _ => none
  | fuel + 1, h, evals =>
    if h.counter ≤ maxTries then
      match h.Validate with
      | .error err => some (h, some err, evals + 1)
      | .ok true => some (h, none, evals + 1)
      | .ok false =>
        calculateLoopEvals maxTries fuel { h with counter := wrapInt (h.counter + 1) } (evals + 1)
    else some (h, some .ErrMaxTriesExceeded, evals)

/-- `HashCash.Calculate` with the calls of `h.Validate()` counted: what
`HashCash.Calculate` returns and, third, the number of calls made. -/
def HashCash.CalculateEvals (h : HashCash) (maxTries : Int) (fuel : Nat) :
    Option (HashCash × Option Error × Nat) :=
  if maxTries > 0 then calculateLoopEvals maxTries fuel { h with counter := 0 } 0
  else some (h, some .ErrMaxTriesExceeded, 0)

/-- `HashCash.Counter` -/
def HashCash.Counter (h : HashCash) : Int := h.counter

/-- `HashCash.CheckSender` -/
def HashCash.CheckSender (h : HashCash) (clientID : Bytes) : Bool :=
  decide (h.senderData = clientID)

/-- `HashCash.Expired`, with `now` the value of `time.Now().UTC()` and `ttl` in
nanoseconds. -/
def HashCash.Expired (h : HashCash) (ttl : Int) (now : time.Time) : Bool :=
  time.addBefore h.date ttl now

/-- Modelled from the spec: the method `HashCash.Key`, which `pool.go` and
`server.go` call and no source file declares. The spec derives the registry key
from `senderIdentity` alone. The pool and the server below take the key
function as a parameter; this one is used where a concrete one is needed. -/
def HashCash.Key (h : HashCash) : Bytes := h.senderData

/-- `HashCashPool`: the map `items`. -/
structure HashCashPool where
  items : Bytes → Option HashCash

/-- `NewHashCashPool` -/
def NewHashCashPool : HashCashPool := { items := fun _ => none }

/-- `HashCashPool.AddHashCash` -/
def HashCashPool.AddHashCash (key : HashCash → Bytes) (cp : HashCashPool) (hc : HashCash) :
    HashCashPool :=
  { items := fun k => if k = key hc then some hc else cp.items k }

/-- `HashCashPool.RemoveHashCash` -/
def HashCashPool.RemoveHashCash (key : HashCash → Bytes) (cp : HashCashPool) (hc : HashCash) :
    HashCashPool :=
  { items := fun k => if k = key hc then none else cp.items k }

/-- `HashCashPool.GetHashCash`: `none` when `exists` is false. -/
def HashCashPool.GetHashCash (cp : HashCashPool) (key : Bytes) : Option HashCash :=
  cp.items key

/-- A call that changes the pool: `AddHashCash(hc)` or `RemoveHashCash(hc)`. -/
inductive PoolCall where
  | add (hc : HashCash)
  | remove (hc : HashCash)
  deriving DecidableEq, Repr

/-- The pool after one call. -/
def HashCashPool.call (key : HashCash → Bytes) (cp : HashCashPool) : PoolCall → HashCashPool
  | .add hc => cp.AddHashCash key hc
  | .remove hc => cp.RemoveHashCash key hc

/-- The pool after a sequence of calls, the first call first. -/
def HashCashPool.calls (key : HashCash → Bytes) (cp : HashCashPool) (cs : List PoolCall) :
    HashCashPool :=
  cs.foldl (HashCashPool.call key) cp

/-- Every entry of the pool is stored under its own key: what `AddHashCash`,
the only writer of `items`, establishes. -/
def HashCashPool.Consistent (key : HashCash → Bytes) (cp : HashCashPool) : Prop :=
  ∀ k hc, cp.items k = some hc → key hc = k

/-- The registry as the spec words it, for a sequence of calls given newest
first: `get(k)` is the challenge of the most recent `put` whose key is `k` if no
`remove` of a challenge with key `k` came after it, and absent otherwise. -/
def registrySpecNewestFirst (key : HashCash → Bytes) : List PoolCall → Bytes → Option HashCash
  | [], _ => none
  | .add hc :: older, k => if key hc = k then some hc else registrySpecNewestFirst key older k
  | .remove hc :: older, k => if key hc = k then none else registrySpecNewestFirst key older k

/-- The registry as the spec words it, for a sequence of calls on an empty
registry, the first call first. -/
def registrySpec (key : HashCash → Bytes) (cs : List PoolCall) (k : Bytes) : Option HashCash :=
  registrySpecNewestFirst key cs.reverse k

end hashcash

/-! ## `internal/config` -/

namespace config

/-- `ServerConfig` -/
structure ServerConfig where
  ZeroBits : Int
  Address : Bytes
  ShutdownTimeout : Int
  HashCashTTL : Int
  deriving DecidableEq, Repr

/-- `NewServerConfig`, as a function of what viper reads from the environment:
`serverAddr` is `viper.GetString("SERVER_ADDRESS")`, empty when the variable is
absent; `zeroBits`, `shutdownTimeout` and `hashCashTTL` are
`viper.GetInt` of `SERVER_ZERO_BITS_COUNT`, `SERVER_SHUTDOWN_TIMEOUT` and
`SERVER_HASHCASH_TTL`, 0 when the variable is absent or no number. The error is
the text given to `fmt.Errorf`. -/
def NewServerConfig (serverAddr : Bytes) (zeroBits shutdownTimeout hashCashTTL : Int) :
    Except String ServerConfig :=
  if serverAddr = [] then .error "server address is empty"
  else if zeroBits = 0 then .error "zero bits is empty"
  else if shutdownTimeout = 0 then .error "shutdown timeout is empty"
  else if shutdownTimeout = 0 then .error "hashcash ttl is empty"
  else
    .ok
      { Address := serverAddr
        ZeroBits := zeroBits
        ShutdownTimeout := shutdownTimeout
        HashCashTTL := hashCashTTL }

end config

/-! ## `internal/server` -/

namespace server

open hashcash message

/-- `ErrIncorrectMessageFormat.Error()` -/
def ErrIncorrectMessageFormat : Bytes := str "incorrect message format"
/-- `ErrUnknownMessageType.Error()` -/
def ErrUnknownMessageType : Bytes := str "unknown message type"
/-- `ErrClientNotFound.Error()` -/
def ErrClientNotFound : Bytes := str "client not found in task requester list"
/-- `ErrHashcashHeaderNotCorrect.Error()` -/
def ErrHashcashHeaderNotCorrect : Bytes := str "hashcash header not correct"
/-- `ErrHashcashExpirationExceeded.Error()` -/
def ErrHashcashExpirationExceeded : Bytes := str "hashcash expiration exceeded"
/-- `ErrInternalError.Error()` -/
def ErrInternalError : Bytes := str "internal error"

/-- What a handler reads of the `Server` and what it changes around it:
`ZeroBits`, `hashCashTTL` (nanoseconds) and `hashCashPool` are the fields of
`Server`; `written` holds the argument of every `conn.Write`, oldest first;
`storeCalls` counts the calls of `wisdomCache.GetRandom`. -/
structure Server where
  ZeroBits : Int
  hashCashTTL : Int
  hashCashPool : HashCashPool
  written : List Bytes
  storeCalls : Nat

/-- `Server.writeMessage` (a failed write is only logged). -/
def Server.writeMessage (s : Server) (msg : Message) : Server :=
  { s with written := s.written ++ [msg.Bytes] }

/-- `Server.writeError` -/
def Server.writeError (s : Server) (sendErr : Bytes) : Server :=
  { s with written := s.written ++ [Message.Bytes { Type' := MessageError, Payload := sendErr }] }

/-- `Server.responseTask`: the server afterwards and the error returned (`none`
for `nil`). `key` is the method `HashCash.Key`, `now` what `time.Now().UTC()`
returns and `random` what `rand.Int` returns inside `NewHashCash`. -/
def Server.responseTask (key : HashCash → Bytes) (now : time.Time) (random : Option Nat)
    (s : Server) (clientID : Bytes) : Server × Option hashcash.Error :=
  match NewHashCash s.ZeroBits clientID now random with
  | .error err => (s.writeError ErrInternalError, some err)
  | .ok hc =>
    let msg : Message := { Type' := MessageTypeResponseTask, Payload := hc.String }
    let s1 : Server := { s with hashCashPool := s.hashCashPool.AddHashCash key hc }
    (s1.writeMessage msg, none)

/-- `Server.responseWisdom`: the server afterwards and whether an error was
returned (`none` for `nil`, else the fixed part of its text). `key` is the
method `HashCash.Key`, `now` what `time.Now().UTC()` returns, `getRandom` what
`s.wisdomCache.GetRandom()` returns when called. -/
def Server.responseWisdom (key : HashCash → Bytes) (now : time.Time) (getRandom : Bytes × Bool)
    (s : Server) (clientID payload : Bytes) : Server × Option String :=
  match NewHashCashFromString payload with
  | .error _ => (s.writeError ErrHashcashHeaderNotCorrect, some "NewHashCashFromString")
  | .ok hc =>
    if !hc.CheckSender clientID then (s.writeError ErrClientNotFound, none)
    else
      let s1 : Server :=
        match s.hashCashPool.GetHashCash (key hc) with
        | none => s.writeError ErrClientNotFound
        | some internalHC =>
          { s with hashCashPool := s.hashCashPool.RemoveHashCash key internalHC }
      if hc.Expired s.hashCashTTL now then (s1.writeError ErrHashcashExpirationExceeded, none)
      else
        match hc.Validate with
        | .error _ => (s1.writeError ErrInternalError, some "hc.Validate")
        | .ok isHashCorrect =>
          if !isHashCorrect then (s1.writeError ErrHashcashHeaderNotCorrect, none)
          else
            let s2 : Server := { s1 with storeCalls := s1.storeCalls + 1 }
            if !getRandom.2 then
              (s2.writeError ErrInternalError, some "wisdomCache.GetRandom: no records")
            else
              (s2.writeMessage { Type' := MessageTypeResponseWisdom, Payload := getRandom.1 },
                none)

/-- What one turn of the loop of `handleMessages` takes from around it when its
`ReadString` succeeds: `rawMessage` is the line read, `now` and `random` are
what `time.Now().UTC()` and `rand.Int` return should the turn call them, and
`getRandom` is what `s.wisdomCache.GetRandom()` returns should the turn call
it. -/
structure Turn where
  rawMessage : Bytes
  now : time.Time
  random : Option Nat
  getRandom : Bytes × Bool

/-- How one turn of the loop of `handleMessages` ends: the loop goes `again` to
its `ReadString`, or `handleMessages` has `returned` (`none` for `nil`, else the
fixed part of the text of the error). -/
inductive LoopStep where
  | again
  | returned (err : Option String)
  deriving DecidableEq, Repr

/-- The body of the loop of `handleMessages` from the line read on: the server
afterwards and how the turn ends. An error of `responseTask` is only logged. -/
def Server.handleLine (key : HashCash → Bytes) (s : Server) (clientID : Bytes) (t : Turn) :
    Server × LoopStep :=
  match NewMessageFromString t.rawMessage with
  | .error _ => (s.writeError ErrIncorrectMessageFormat, .returned (some "NewMessageFromString"))
  | .ok msg =>
    if msg.Type' = MessageTypeRequestTask then
      ((s.responseTask key t.now t.random clientID).1, .again)
    else if msg.Type' = MessageTypeRequestWisdom then
      ((s.responseWisdom key t.now t.getRandom clientID msg.Payload).1,
        .returned (s.responseWisdom key t.now t.getRandom clientID msg.Payload).2)
    else (s.writeError ErrUnknownMessageType, .returned (some "unknown message type"))

/-- `Server.handleMessages`, for a connection on which the calls of `ReadString`
return the lines of `turns` in this order and the call after the last of them
fails (the input ends, or the read deadline passes): the server afterwards, the
error returned, and the number of calls of `ReadString` made. -/
def Server.handleMessages (key : HashCash → Bytes) (clientID : Bytes) :
    Server → List Turn → Server × Option String × Nat
  | s, [] => (s.writeError ErrInternalError, some "bufio.NewReader", 1)
  | s, t :: rest =>
    match s.handleLine key clientID t with
    | (s1, .again) =>
      match handleMessages key clientID s1 rest with
      | (s2, err, reads) => (s2, err, reads + 1)
    | (s1, .returned err) => (s1, err, 1)

end server

/-! # Theorems -/

set_option maxRecDepth 100000

/-! ## Lemmas -/

/-! ## Lemmas on `strings` -/

namespace strings

theorem Split_ne_nil (sep : Nat) (s : Bytes) : Split sep s ≠ [] := by
  cases s with
  | nil => simp [Split]
  | cons c cs =>
    simp only [Split]
    split
    · simp
    · split <;> simp

theorem Split_cons_ne {sep c : Nat} (h : c ≠ sep) (cs : Bytes) :
    Split sep (c :: cs) = (c :: (Split sep cs).headD []) :: (Split sep cs).tail := by
  simp only [Split, if_neg h]
  split
  · rename_i h'
    exact absurd h' (Split_ne_nil sep cs)
  · rename_i f fs h'
    simp [h']

theorem Split_cons_eq (sep : Nat) (cs : Bytes) :
    Split sep (sep :: cs) = [] :: Split sep cs := by
  simp [Split]

theorem Split_of_not_mem {sep : Nat} {s : Bytes} (h : sep ∉ s) : Split sep s = [s] := by
  induction s with
  | nil => rfl
  | cons c cs ih =>
    have hc : c ≠ sep := fun e => h (by simp [e])
    have hcs : sep ∉ cs := fun e => h (List.mem_cons_of_mem _ e)
    rw [Split_cons_ne hc, ih hcs]
    rfl

theorem Split_append (sep : Nat) (a b : Bytes) :
    Split sep (a ++ sep :: b) = Split sep a ++ Split sep b := by
  induction a with
  | nil => simp [Split]
  | cons c cs ih =>
    by_cases hc : c = sep
    · subst hc
      rw [List.cons_append, Split_cons_eq, Split_cons_eq, ih]
      rfl
    · rw [List.cons_append, Split_cons_ne hc, Split_cons_ne hc, ih]
      obtain ⟨f, fs, hf⟩ := List.exists_cons_of_ne_nil (Split_ne_nil sep cs)
      simp [hf]

theorem not_mem_of_mem_Split {sep : Nat} {s f : Bytes} (h : f ∈ Split sep s) : sep ∉ f := by
  induction s generalizing f with
  | nil =>
    simp [Split] at h
    simp [h]
  | cons c cs ih =>
    by_cases hc : c = sep
    · subst hc
      rw [Split_cons_eq] at h
      rcases List.mem_cons.1 h with h | h
      · simp [h]
      · exact ih h
    · rw [Split_cons_ne hc] at h
      obtain ⟨g, gs, hg⟩ := List.exists_cons_of_ne_nil (Split_ne_nil sep cs)
      rw [hg] at h
      simp only [List.headD_cons, List.tail_cons, List.mem_cons] at h
      rcases h with h | h
      · subst h
        have := @ih g (by simp [hg])
        simp only [List.mem_cons, not_or]
        exact ⟨fun e => hc e.symm, this⟩
      · exact ih (by simp [hg, h])

theorem Join_cons_cons (sep : Nat) (a b : Bytes) (rest : List Bytes) :
    Join sep (a :: b :: rest) = a ++ sep :: Join sep (b :: rest) := rfl

theorem Join_cons_of_ne_nil (sep : Nat) (a : Bytes) {l : List Bytes} (h : l ≠ []) :
    Join sep (a :: l) = a ++ sep :: Join sep l := by
  obtain ⟨b, rest, rfl⟩ := List.exists_cons_of_ne_nil h
  rfl

theorem Join_append (sep : Nat) {l₁ l₂ : List Bytes} (h₁ : l₁ ≠ []) (h₂ : l₂ ≠ []) :
    Join sep (l₁ ++ l₂) = Join sep l₁ ++ sep :: Join sep l₂ := by
  induction l₁ with
  | nil => exact absurd rfl h₁
  | cons a l ih =>
    by_cases hl : l = []
    · subst hl
      simp only [List.singleton_append]
      rw [Join_cons_of_ne_nil sep a h₂]
      rfl
    · rw [List.cons_append, Join_cons_of_ne_nil sep a (by simp [hl]), ih hl,
        Join_cons_of_ne_nil sep a hl]
      simp

theorem Join_Split (sep : Nat) (s : Bytes) : Join sep (Split sep s) = s := by
  induction s with
  | nil => rfl
  | cons c cs ih =>
    obtain ⟨g, gs, hg⟩ := List.exists_cons_of_ne_nil (Split_ne_nil sep cs)
    by_cases hc : c = sep
    · subst hc
      rw [Split_cons_eq, Join_cons_of_ne_nil _ _ (Split_ne_nil _ _), ih]
      rfl
    · rw [Split_cons_ne hc, hg]
      rw [hg] at ih
      simp only [List.headD_cons, List.tail_cons]
      cases gs with
      | nil =>
        simp only [Join] at ih ⊢
        rw [ih]
      | cons g' gs' =>
        rw [Join_cons_cons] at ih ⊢
        rw [List.cons_append, ih]

/-- Splitting a joined list gives the list back when no field holds the separator. -/
theorem Split_Join (sep : Nat) {l : List Bytes} (hl : l ≠ []) (h : ∀ f ∈ l, sep ∉ f) :
    Split sep (Join sep l) = l := by
  induction l with
  | nil => exact absurd rfl hl
  | cons a l ih =>
    by_cases hl' : l = []
    · subst hl'
      simpa [Join] using Split_of_not_mem (h a (by simp))
    · rw [Join_cons_of_ne_nil sep a hl', Split_append, ih hl' (fun f hf => h f (by simp [hf])),
        Split_of_not_mem (h a (by simp))]
      rfl

end strings

namespace strconv

theorem formatLoop_acc (fuel n : Nat) (acc : Bytes) :
    formatLoop fuel n acc = formatLoop fuel n [] ++ acc := by
  induction fuel generalizing n acc with
  | zero => simp [formatLoop]
  | succ f ih =>
    simp only [formatLoop]
    split
    · simp
    · rw [ih (n / 10) ((48 + n % 10) :: acc), ih (n / 10) [48 + n % 10]]
      simp

theorem formatLoop_fuel (fuel fuel' n : Nat) (h : n < fuel) (h' : n < fuel') :
    formatLoop fuel n [] = formatLoop fuel' n [] := by
  induction fuel generalizing fuel' n with
  | zero => omega
  | succ f ih =>
    cases fuel' with
    | zero => omega
    | succ f' =>
      simp only [formatLoop]
      split
      · rfl
      · rw [formatLoop_acc f, formatLoop_acc f', ih f' (n / 10) (by omega) (by omega)]

theorem formatNat_lt {n : Nat} (h : n < 10) : formatNat n = [48 + n] := by
  simp [formatNat, formatLoop, h]

theorem formatNat_ge {n : Nat} (h : 10 ≤ n) :
    formatNat n = formatNat (n / 10) ++ [48 + n % 10] := by
  have h' : ¬ n < 10 := by omega
  have e : formatNat n = formatLoop n (n / 10) [48 + n % 10] := by
    simp only [formatNat, formatLoop, if_neg h']
  rw [e, formatLoop_acc, formatLoop_fuel n (n / 10 + 1) (n / 10) (by omega) (by omega)]
  rfl

theorem digitsVal_append (a : Bytes) (d : Nat) :
    digitsVal (a ++ [d]) = 10 * digitsVal a + (d - 48) := by
  simp [digitsVal, List.foldl_append]

theorem formatNat_spec (n : Nat) :
    formatNat n ≠ [] ∧ (formatNat n).all isDigit = true ∧ digitsVal (formatNat n) = n := by
  induction n using Nat.strong_induction_on with
  | _ n ih =>
    by_cases h : n < 10
    · rw [formatNat_lt h]
      refine ⟨by simp, ?_, ?_⟩
      · simp [isDigit]; omega
      · simp [digitsVal]
    · have h10 : 10 ≤ n := by omega
      obtain ⟨h1, h2, h3⟩ := ih (n / 10) (by omega)
      rw [formatNat_ge h10]
      refine ⟨by simp, ?_, ?_⟩
      · rw [List.all_append, h2]
        simp [isDigit]; omega
      · rw [digitsVal_append, h3]
        omega

theorem parseDigits_formatNat (n : Nat) : parseDigits (formatNat n) = some n := by
  obtain ⟨h1, h2, h3⟩ := formatNat_spec n
  simp [parseDigits, h1, h2, h3]

theorem formatNat_head_isDigit (n : Nat) :
    ∃ c r, formatNat n = c :: r ∧ isDigit c = true := by
  obtain ⟨h1, h2, _⟩ := formatNat_spec n
  obtain ⟨c, r, hc⟩ := List.exists_cons_of_ne_nil h1
  refine ⟨c, r, hc, ?_⟩
  rw [hc] at h2
  simp only [List.all_cons, Bool.and_eq_true] at h2
  exact h2.1

/-- `Atoi` reads back what `Itoa` prints, for every value of the type `int`. -/
theorem Atoi_Itoa (i : Int) (h₁ : minInt ≤ i) (h₂ : i ≤ maxInt) : Atoi (Itoa i) = some i := by
  unfold Itoa
  split
  · rename_i hneg
    simp only [Atoi, if_true]
    rw [parseDigits_formatNat]
    have : ((-i).toNat : Int) = -i := Int.toNat_of_nonneg (by omega)
    simp only [this, neg_neg]
    rw [if_neg (by unfold minInt at *; omega)]
  · rename_i hpos
    obtain ⟨c, r, hc, hd⟩ := formatNat_head_isDigit i.toNat
    have h45 : c ≠ 45 := by
      intro e; subst e; simp [isDigit] at hd
    have h43 : c ≠ 43 := by
      intro e; subst e; simp [isDigit] at hd
    have hp := parseDigits_formatNat i.toNat
    rw [hc] at hp ⊢
    simp only [Atoi, if_neg h45, if_neg h43, hp]
    have : (i.toNat : Int) = i := Int.toNat_of_nonneg (by omega)
    rw [this, if_neg (by omega)]

end strconv

namespace strconv

theorem isDigit_add {k : Nat} (h : k < 10) : isDigit (48 + k) = true := by
  simp [isDigit]; omega

theorem isDigit_iff {b : Nat} : isDigit b = true ↔ 48 ≤ b ∧ b ≤ 57 := by
  simp [isDigit]

theorem formatNat_two {n : Nat} (h : 10 ≤ n) (h' : n < 100) :
    formatNat n = [48 + n / 10, 48 + n % 10] := by
  rw [formatNat_ge h, formatNat_lt (by omega)]
  rfl

theorem formatNat_three {n : Nat} (h : 100 ≤ n) (h' : n < 1000) :
    formatNat n = [48 + n / 100, 48 + n / 10 % 10, 48 + n % 10] := by
  rw [formatNat_ge (by omega), formatNat_two (by omega) (by omega)]
  have : n / 10 / 10 = n / 100 := by omega
  simp [this]

theorem formatNat_four {n : Nat} (h : 1000 ≤ n) (h' : n < 10000) :
    formatNat n = [48 + n / 1000, 48 + n / 100 % 10, 48 + n / 10 % 10, 48 + n % 10] := by
  rw [formatNat_ge (by omega), formatNat_three (by omega) (by omega)]
  have h1 : n / 10 / 100 = n / 1000 := by omega
  have h2 : n / 10 / 10 % 10 = n / 100 % 10 := by omega
  simp [h1, h2]

end strconv

namespace time

open strconv

theorem appendInt_two {n : Nat} (h : n < 100) :
    appendInt (n : Int) 2 = [48 + n / 10, 48 + n % 10] := by
  have hneg : ¬ ((n : Int) < 0) := by omega
  simp only [appendInt, Int.natAbs_ofNat, if_neg hneg]
  by_cases h10 : n < 10
  · rw [formatNat_lt h10]
    have h1 : n / 10 = 0 := by omega
    have h2 : n % 10 = n := by omega
    simp [h1, h2, List.replicate]
  · rw [formatNat_two (by omega) h]
    simp

theorem appendInt_four {y : Int} (h0 : 0 ≤ y) (h : y ≤ 9999) :
    appendInt y 4 =
      [48 + y.toNat / 1000, 48 + y.toNat / 100 % 10, 48 + y.toNat / 10 % 10,
        48 + y.toNat % 10] := by
  obtain ⟨n, rfl⟩ := Int.eq_ofNat_of_zero_le h0
  have hn : n ≤ 9999 := by omega
  have hneg : ¬ ((n : Int) < 0) := by omega
  simp only [appendInt, Int.natAbs_ofNat, if_neg hneg, Int.toNat_ofNat]
  by_cases h10 : n < 10
  · rw [formatNat_lt h10]
    have h1 : n / 1000 = 0 := by omega
    have h2 : n / 100 % 10 = 0 := by omega
    have h3 : n / 10 % 10 = 0 := by omega
    have h4 : n % 10 = n := by omega
    simp [h1, h2, h3, h4, List.replicate]
  · by_cases h100 : n < 100
    · rw [formatNat_two (by omega) h100]
      have h1 : n / 1000 = 0 := by omega
      have h2 : n / 100 % 10 = 0 := by omega
      have h3 : n / 10 % 10 = n / 10 := by omega
      simp [h1, h2, h3, List.replicate]
    · by_cases h1000 : n < 1000
      · rw [formatNat_three (by omega) h1000]
        have h1 : n / 1000 = 0 := by omega
        have h2 : n / 100 % 10 = n / 100 := by omega
        simp [h1, h2, List.replicate]
      · rw [formatNat_four (by omega) (by omega)]
        simp

theorem Format_eq (t : Time) (hv : t.Valid) (hy0 : 0 ≤ t.year) (hy : t.year ≤ 9999) :
    t.Format =
      [48 + t.year.toNat / 1000, 48 + t.year.toNat / 100 % 10, 48 + t.year.toNat / 10 % 10,
        48 + t.year.toNat % 10, 48 + t.month / 10, 48 + t.month % 10, 48 + t.day / 10,
        48 + t.day % 10, 48 + t.hour / 10, 48 + t.hour % 10, 48 + t.minute / 10,
        48 + t.minute % 10, 48 + t.second / 10, 48 + t.second % 10] := by
  obtain ⟨h1, h2, h3, h4, h5, h6, h7, _⟩ := hv
  have hd : t.day < 100 := by
    have : daysIn t.month t.year ≤ 31 := by
      unfold daysIn; split
      · split <;> omega
      · split <;> omega
    omega
  simp only [Time.Format]
  rw [appendInt_four hy0 hy, appendInt_two (show t.month < 100 by omega), appendInt_two hd,
    appendInt_two (show t.hour < 100 by omega), appendInt_two (show t.minute < 100 by omega),
    appendInt_two (show t.second < 100 by omega)]
  rfl

/-- Parsing reads back what `Format` prints, for a date with a four-digit year
and no fraction of a second. -/
theorem ParseInLocation_Format (t : Time) (hv : t.Valid) (hy0 : 0 ≤ t.year) (hy : t.year ≤ 9999)
    (hn : t.nsec = 0) : ParseInLocation t.Format = some t := by
  rw [Format_eq t hv hy0 hy]
  obtain ⟨h1, h2, h3, h4, h5, h6, h7, _⟩ := hv
  have hd : t.day ≤ 31 := by
    have : daysIn t.month t.year ≤ 31 := by
      unfold daysIn; split
      · split <;> omega
      · split <;> omega
    omega
  obtain ⟨y, hyy⟩ := Int.eq_ofNat_of_zero_le hy0
  have hy' : y ≤ 9999 := by omega
  have hty : t.year.toNat = y := by rw [hyy]; rfl
  rw [hty]
  have dv : digitsVal [48 + y / 1000, 48 + y / 100 % 10, 48 + y / 10 % 10, 48 + y % 10] = y := by
    simp only [digitsVal, List.foldl]
    omega
  simp only [ParseInLocation, parseYear, getnum, isDigit_add (show y / 1000 < 10 by omega),
    isDigit_add (show y / 100 % 10 < 10 by omega), isDigit_add (show y / 10 % 10 < 10 by omega),
    isDigit_add (show y % 10 < 10 by omega), isDigit_add (show t.month / 10 < 10 by omega),
    isDigit_add (show t.month % 10 < 10 by omega), isDigit_add (show t.day / 10 < 10 by omega),
    isDigit_add (show t.day % 10 < 10 by omega), isDigit_add (show t.hour / 10 < 10 by omega),
    isDigit_add (show t.hour % 10 < 10 by omega), isDigit_add (show t.minute / 10 < 10 by omega),
    isDigit_add (show t.minute % 10 < 10 by omega),
    isDigit_add (show t.second / 10 < 10 by omega),
    isDigit_add (show t.second % 10 < 10 by omega), dv, Bool.and_self, if_true,
    Nat.add_sub_cancel_left, parseFraction]
  have e1 : t.month / 10 * 10 + t.month % 10 = t.month := by omega
  have e2 : t.day / 10 * 10 + t.day % 10 = t.day := by omega
  have e3 : t.hour / 10 * 10 + t.hour % 10 = t.hour := by omega
  have e4 : t.minute / 10 * 10 + t.minute % 10 = t.minute := by omega
  have e5 : t.second / 10 * 10 + t.second % 10 = t.second := by omega
  rw [e1, e2, e3, e4, e5]
  rw [if_neg (by omega), if_neg (by omega), if_neg (by omega), if_neg (by omega),
    if_neg (by simp), if_neg (by rw [← hyy]; omega)]
  cases t
  simp_all

end time

namespace base64

theorem decodeMap_encodeStd : ∀ v, v < 64 → decodeMap (encodeStd v) = some v := by
  decide

theorem encodeStd_plain : ∀ v, v < 64 →
    encodeStd v ≠ 61 ∧ encodeStd v ≠ 10 ∧ encodeStd v ≠ 13 ∧ encodeStd v ≠ 58 ∧
      encodeStd v ≠ 35 := by
  decide

theorem plain_encodeStd {v : Nat} (h : v < 64) : plain (encodeStd v) := by
  obtain ⟨_, h2, h3, h4, h5⟩ := encodeStd_plain v h
  exact ⟨h2, h3, h4, h5⟩

theorem plain_padChar : plain padChar := by
  unfold plain padChar; decide

theorem EncodeToString_plain (bs : Bytes) (hb : ∀ b ∈ bs, b < 256) :
    ∀ c ∈ EncodeToString bs, plain c := by
  induction bs using EncodeToString.induct with
  | case1 => simp [EncodeToString]
  | case2 a =>
    have ha : a < 256 := hb a (by simp)
    intro c hc
    simp only [EncodeToString, List.mem_cons, List.mem_singleton, List.not_mem_nil,
      or_false] at hc
    rcases hc with rfl | rfl | rfl | rfl
    · exact plain_encodeStd (by omega)
    · exact plain_encodeStd (by omega)
    · exact plain_padChar
    · exact plain_padChar
  | case3 a b =>
    have ha : a < 256 := hb a (by simp)
    have hb' : b < 256 := hb b (by simp)
    intro c hc
    simp only [EncodeToString, List.mem_cons, List.mem_singleton, List.not_mem_nil,
      or_false] at hc
    rcases hc with rfl | rfl | rfl | rfl
    · exact plain_encodeStd (by omega)
    · exact plain_encodeStd (by omega)
    · exact plain_encodeStd (by omega)
    · exact plain_padChar
  | case4 a b c rest ih =>
    have ha : a < 256 := hb a (by simp)
    have hb' : b < 256 := hb b (by simp)
    have hc' : c < 256 := hb c (by simp)
    intro x hx
    simp only [EncodeToString, List.mem_cons] at hx
    rcases hx with rfl | rfl | rfl | rfl | hx
    · exact plain_encodeStd (by omega)
    · exact plain_encodeStd (by omega)
    · exact plain_encodeStd (by omega)
    · exact plain_encodeStd (by omega)
    · exact ih (fun y hy => hb y (by simp [hy])) x hx

theorem decodeQuanta_EncodeToString (bs : Bytes) (hb : ∀ b ∈ bs, b < 256) :
    decodeQuanta (EncodeToString bs) = some bs := by
  induction bs using EncodeToString.induct with
  | case1 => simp [EncodeToString, decodeQuanta]
  | case2 a =>
    have ha : a < 256 := hb a (by simp)
    have h1 : a / 4 < 64 := by omega
    have h2 : a % 4 * 16 < 64 := by omega
    simp only [EncodeToString, decodeQuanta, decodeMap_encodeStd _ h1, decodeMap_encodeStd _ h2]
    simp
    omega
  | case3 a b =>
    have ha : a < 256 := hb a (by simp)
    have hb' : b < 256 := hb b (by simp)
    have h1 : a / 4 < 64 := by omega
    have h2 : a % 4 * 16 + b / 16 < 64 := by omega
    have h3 : b % 16 * 4 < 64 := by omega
    have p3 : encodeStd (b % 16 * 4) ≠ padChar := (encodeStd_plain _ h3).1
    simp only [EncodeToString, decodeQuanta, decodeMap_encodeStd _ h1, decodeMap_encodeStd _ h2,
      decodeMap_encodeStd _ h3, if_neg p3]
    simp
    omega
  | case4 a b c rest ih =>
    have ha : a < 256 := hb a (by simp)
    have hb' : b < 256 := hb b (by simp)
    have hc' : c < 256 := hb c (by simp)
    have h1 : a / 4 < 64 := by omega
    have h2 : a % 4 * 16 + b / 16 < 64 := by omega
    have h3 : b % 16 * 4 + c / 64 < 64 := by omega
    have h4 : c % 64 < 64 := by omega
    have p3 : encodeStd (b % 16 * 4 + c / 64) ≠ padChar := (encodeStd_plain _ h3).1
    have p4 : encodeStd (c % 64) ≠ padChar := (encodeStd_plain _ h4).1
    simp only [EncodeToString, decodeQuanta, decodeMap_encodeStd _ h1, decodeMap_encodeStd _ h2,
      decodeMap_encodeStd _ h3, decodeMap_encodeStd _ h4, if_neg p3,
      if_neg p4, ih (fun y hy => hb y (by simp [hy]))]
    simp
    omega

/-- Decoding gives back the bytes that were encoded. -/
theorem DecodeString_EncodeToString (bs : Bytes) (hb : ∀ b ∈ bs, b < 256) :
    DecodeString (EncodeToString bs) = some bs := by
  unfold DecodeString
  have : (EncodeToString bs).filter (fun c => c != 10 && c != 13) = EncodeToString bs := by
    rw [List.filter_eq_self]
    intro c hc
    obtain ⟨h1, h2, _⟩ := EncodeToString_plain bs hb c hc
    simp [h1, h2]
  rw [this, decodeQuanta_EncodeToString bs hb]

end base64

namespace strconv

theorem formatNat_bytes (n : Nat) : ∀ b ∈ formatNat n, 48 ≤ b ∧ b ≤ 57 := by
  intro b hb
  have h := (formatNat_spec n).2.1
  rw [List.all_eq_true] at h
  exact isDigit_iff.1 (h b hb)

theorem Itoa_bytes (i : Int) : ∀ b ∈ Itoa i, b = 45 ∨ (48 ≤ b ∧ b ≤ 57) := by
  intro b hb
  unfold Itoa at hb
  split at hb
  · rcases List.mem_cons.1 hb with h | h
    · exact Or.inl h
    · exact Or.inr (formatNat_bytes _ b h)
  · exact Or.inr (formatNat_bytes _ b hb)

end strconv

namespace time

theorem Format_bytes (t : Time) (hv : t.Valid) (hy0 : 0 ≤ t.year) (hy : t.year ≤ 9999) :
    ∀ b ∈ t.Format, 48 ≤ b ∧ b ≤ 57 := by
  intro b hb
  rw [Format_eq t hv hy0 hy] at hb
  obtain ⟨h1, h2, h3, h4, h5, h6, h7, _⟩ := hv
  have hd : t.day ≤ 31 := by
    have : daysIn t.month t.year ≤ 31 := by
      unfold daysIn; split
      · split <;> omega
      · split <;> omega
    omega
  simp only [List.mem_cons, List.mem_singleton, List.not_mem_nil, or_false] at hb
  rcases hb with h | h | h | h | h | h | h | h | h | h | h | h | h | h <;> omega

end time

namespace hashcash

/-- The fields of a text with at least seven of them: three in front, three at
the end, and one or more in between. -/
theorem fields_shape (l : List Bytes) (h : 7 ≤ l.length) :
    ∃ A B C S E F G, l = A :: B :: C :: (S ++ [E, F, G]) ∧ S ≠ [] := by
  match l, h with
  | A :: B :: C :: rest, h =>
    have hr : 4 ≤ rest.length := by simpa using h
    refine ⟨A, B, C, rest.take (rest.length - 3), (rest.drop (rest.length - 3)).getD 0 [],
      (rest.drop (rest.length - 3)).getD 1 [], (rest.drop (rest.length - 3)).getD 2 [], ?_, ?_⟩
    · congr 3
      have hlen : (rest.drop (rest.length - 3)).length = 3 := by
        rw [List.length_drop]; omega
      have : rest.drop (rest.length - 3) =
          [(rest.drop (rest.length - 3)).getD 0 [], (rest.drop (rest.length - 3)).getD 1 [],
            (rest.drop (rest.length - 3)).getD 2 []] := by
        generalize rest.drop (rest.length - 3) = d at hlen
        match d, hlen with
        | [x, y, z], _ => rfl
      rw [← this, List.take_append_drop]
    · intro e
      have := congrArg List.length e
      rw [List.length_take] at this
      simp at this
      omega

/-- Indexing the fields the way `NewHashCashFromString` does. -/
theorem fields_index (A B C E F G : Bytes) (S : List Bytes) :
    (A :: B :: C :: (S ++ [E, F, G])).length = S.length + 6 ∧
    (A :: B :: C :: (S ++ [E, F, G])).getD 0 [] = A ∧
    (A :: B :: C :: (S ++ [E, F, G])).getD 1 [] = B ∧
    (A :: B :: C :: (S ++ [E, F, G])).getD 2 [] = C ∧
    (A :: B :: C :: (S ++ [E, F, G])).getD (S.length + 6 - 1) [] = G ∧
    (A :: B :: C :: (S ++ [E, F, G])).getD (S.length + 6 - 2) [] = F ∧
    (A :: B :: C :: (S ++ [E, F, G])).getD (S.length + 6 - 3) [] = E ∧
    ((A :: B :: C :: (S ++ [E, F, G])).take (S.length + 6 - 3)).drop 3 = S := by
  refine ⟨by simp, rfl, rfl, rfl, ?_, ?_, ?_, ?_⟩
  · have : S.length + 6 - 1 = (S.length + 2) + 3 := by omega
    rw [this]
    simp only [List.getD_cons_succ]
    rw [List.getD_append_right _ _ _ _ (by omega)]
    simp
  · have : S.length + 6 - 2 = (S.length + 1) + 3 := by omega
    rw [this]
    simp only [List.getD_cons_succ]
    rw [List.getD_append_right _ _ _ _ (by omega)]
    simp
  · have : S.length + 6 - 3 = (S.length + 0) + 3 := by omega
    rw [this]
    simp only [List.getD_cons_succ]
    rw [List.getD_append_right _ _ _ _ (by omega)]
    simp
  · have : S.length + 6 - 3 = S.length + 3 := by omega
    rw [this]
    simp

/-- What `NewHashCashFromString` computes, in terms of the fields of the text. -/
theorem NewHashCashFromString_fields (data A B C E F G : Bytes) (S : List Bytes)
    (h : strings.Split delimiter data = A :: B :: C :: (S ++ [E, F, G])) (hS : S ≠ []) :
    NewHashCashFromString data =
      if A ≠ version1 then .error .ErrIncorrectVersion
      else
        match strconv.Atoi B with
        | none => .error .ErrZeroBitsMustBeNumber
        | some zeroBits =>
          if zeroBits ≤ 0 then .error .ErrZeroBitsMustBeMoreThanZero
          else
            match time.ParseInLocation C with
            | none => .error .ErrIncorrectDate
            | some date =>
              match base64.DecodeString G with
              | none => .error (.unnamed "read counter error")
              | some counterString =>
                match strconv.Atoi counterString with
                | none => .error .ErrCounterMustBePositiveNumber
                | some counter =>
                  if counter < 0 then .error .ErrCounterMustBePositiveNumber
                  else
                    match base64.DecodeString F with
                    | none => .error (.unnamed "read random seed error")
                    | some randomSeed =>
                      .ok
                        { zeroBits := zeroBits
                          senderData := strings.Join delimiter S
                          date := date
                          extension := E
                          randomSeed := randomSeed
                          counter := counter } := by
  obtain ⟨h0, h1, h2, h3, h4, h5, h6, h7⟩ := fields_index A B C E F G S
  unfold NewHashCashFromString
  have hlen : ¬ (S.length + 6 < 7) := by
    have := List.length_pos.2 hS
    omega
  simp only [h, h0, h1, h2, h3, h4, h5, h6, h7, if_neg hlen]

end hashcash

namespace hashcash

theorem String_eq (h : HashCash) :
    h.String =
      [49] ++ 58 :: (strconv.Itoa h.zeroBits ++ 58 :: (h.date.Format ++ 58 :: (h.senderData ++
        58 :: ([] ++ 58 :: (base64.EncodeToString h.randomSeed ++
          58 :: base64.EncodeToString (strconv.Itoa h.counter)))))) := by
  have e1 : str "1:" = [49, 58] := rfl
  have e2 : str "::" = [58, 58] := rfl
  simp [HashCash.String, e1, e2, delimiter]

theorem Itoa_lt_256 (i : Int) : ∀ b ∈ strconv.Itoa i, b < 256 := by
  intro b hb
  rcases strconv.Itoa_bytes i b hb with h | h <;> omega

/-- The fields of an encoded challenge, given that the variable fields hold no colon. -/
theorem Split_String (h : HashCash) (hz : 58 ∉ strconv.Itoa h.zeroBits)
    (hd : 58 ∉ h.date.Format) (hs : ∀ b ∈ h.randomSeed, b < 256) :
    strings.Split delimiter h.String =
      [49] :: strconv.Itoa h.zeroBits :: h.date.Format ::
        (strings.Split delimiter h.senderData ++
          [[], base64.EncodeToString h.randomSeed,
            base64.EncodeToString (strconv.Itoa h.counter)]) := by
  have h1 : (58 : Nat) ∉ [49] := by simp
  have h5 : (58 : Nat) ∉ ([] : Bytes) := by simp
  have h6 : 58 ∉ base64.EncodeToString h.randomSeed :=
    fun e => (base64.EncodeToString_plain _ hs 58 e).2.2.1 rfl
  have h7 : 58 ∉ base64.EncodeToString (strconv.Itoa h.counter) :=
    fun e => (base64.EncodeToString_plain _ (Itoa_lt_256 _) 58 e).2.2.1 rfl
  rw [String_eq]
  unfold delimiter
  rw [strings.Split_append, strings.Split_append, strings.Split_append, strings.Split_append,
    strings.Split_append, strings.Split_append, strings.Split_of_not_mem h1,
    strings.Split_of_not_mem hz, strings.Split_of_not_mem hd, strings.Split_of_not_mem h5,
    strings.Split_of_not_mem h6, strings.Split_of_not_mem h7]
  simp

theorem Itoa_no_colon (i : Int) : 58 ∉ strconv.Itoa i := by
  intro e
  rcases strconv.Itoa_bytes i 58 e with h | h <;> omega

theorem Format_no_colon (t : time.Time) (hv : t.Valid) (hy0 : 0 ≤ t.year) (hy : t.year ≤ 9999) :
    58 ∉ t.Format := by
  intro e
  have := time.Format_bytes t hv hy0 hy 58 e
  omega

/-- Parsing reads back an encoded challenge (shared by the round-trip results). -/
theorem NewHashCashFromString_String (c : HashCash)
    (hz : 0 < c.zeroBits) (hzmax : c.zeroBits ≤ strconv.maxInt)
    (hc : 0 ≤ c.counter) (hcmax : c.counter ≤ strconv.maxInt)
    (hext : c.extension = [])
    (hdate : c.date.Valid) (hsec : c.date.nsec = 0)
    (hy0 : 0 ≤ c.date.year) (hy : c.date.year ≤ 9999)
    (hseed : ∀ b ∈ c.randomSeed, b < 256) :
    NewHashCashFromString c.String = .ok c := by
  have hsplit := Split_String c (Itoa_no_colon _) (Format_no_colon _ hdate hy0 hy) hseed
  rw [NewHashCashFromString_fields _ _ _ _ _ _ _ _ hsplit (strings.Split_ne_nil _ _)]
  have hmin : strconv.minInt ≤ c.zeroBits := by unfold strconv.minInt; omega
  have hmin' : strconv.minInt ≤ c.counter := by unfold strconv.minInt; omega
  have e1 : ([49] : Bytes) = version1 := rfl
  simp only [e1, ne_eq, not_true_eq_false, if_false, strconv.Atoi_Itoa _ hmin hzmax,
    if_neg (not_le.2 hz), time.ParseInLocation_Format _ hdate hy0 hy hsec,
    base64.DecodeString_EncodeToString _ (Itoa_lt_256 _),
    base64.DecodeString_EncodeToString _ hseed, strconv.Atoi_Itoa _ hmin' hcmax,
    if_neg (not_lt.2 hc), strings.Join_Split]
  cases c
  simp_all

end hashcash

namespace time

open strconv

theorem parseYear_some {v r : Bytes} {y : Nat} (h : parseYear v = some (y, r)) :
    ∃ a b c d, v = a :: b :: c :: d :: r ∧ isDigit a = true ∧ isDigit b = true ∧
      isDigit c = true ∧ isDigit d = true ∧ y = digitsVal [a, b, c, d] := by
  match v, h with
  | a :: b :: c :: d :: rest, h =>
    simp only [parseYear] at h
    split at h
    · rename_i hd
      simp only [Bool.and_eq_true] at hd
      simp only [Option.some.injEq, Prod.mk.injEq] at h
      obtain ⟨h1, h2⟩ := h
      subst h1 h2
      exact ⟨a, b, c, d, rfl, hd.1.1.1, hd.1.1.2, hd.1.2, hd.2, rfl⟩
    · cases h

theorem getnum_fixed_some {v r : Bytes} {n : Nat} (h : getnum v true = some (n, r)) :
    ∃ a b, v = a :: b :: r ∧ isDigit a = true ∧ isDigit b = true ∧
      n = (a - 48) * 10 + (b - 48) := by
  match v, h with
  | [a], h =>
    simp only [getnum] at h
    split at h <;> simp at h
  | a :: b :: rest, h =>
    simp only [getnum] at h
    split at h
    · rename_i ha
      split at h
      · rename_i hb
        simp only [Option.some.injEq, Prod.mk.injEq] at h
        obtain ⟨h1, h2⟩ := h
        subst h1 h2
        exact ⟨a, b, rfl, ha, hb, rfl⟩
      · simp at h
    · cases h

theorem getnum_fixed_head {v : Bytes} {x : Nat × Bytes} (h : getnum v true = some x) :
    ∃ a r, v = a :: r ∧ isDigit a = true := by
  obtain ⟨n, r⟩ := x
  obtain ⟨a, b, hv, ha, _, _⟩ := getnum_fixed_some h
  exact ⟨a, b :: r, hv, ha⟩

/-- The hour chunk, which may be one digit wide, is two digits wide whenever
the minutes that follow it parse. -/
theorem getnum_free_some {v r : Bytes} {n : Nat} {x : Nat × Bytes}
    (h : getnum v false = some (n, r)) (hnext : getnum r true = some x) :
    ∃ a b, v = a :: b :: r ∧ isDigit a = true ∧ isDigit b = true ∧
      n = (a - 48) * 10 + (b - 48) := by
  obtain ⟨a', r', hr, ha'⟩ := getnum_fixed_head hnext
  match v, h with
  | [a], h =>
    simp only [getnum] at h
    split at h
    · simp only [Bool.false_eq_true, if_false, Option.some.injEq, Prod.mk.injEq] at h
      rw [← h.2] at hr
      cases hr
    · cases h
  | a :: b :: rest, h =>
    simp only [getnum] at h
    split at h
    · rename_i ha
      split at h
      · rename_i hb
        simp only [Option.some.injEq, Prod.mk.injEq] at h
        obtain ⟨h1, h2⟩ := h
        subst h1 h2
        exact ⟨a, b, rfl, ha, hb, rfl⟩
      · rename_i hb
        simp only [Bool.false_eq_true, if_false, Option.some.injEq, Prod.mk.injEq] at h
        rw [← h.2] at hr
        simp only [List.cons.injEq] at hr
        rw [hr.1] at hb
        exact absurd ha' hb
    · cases h

theorem digitsVal_lt (ds : Bytes) (h : ds.all isDigit = true) :
    digitsVal ds < 10 ^ ds.length := by
  induction ds using List.reverseRecOn with
  | nil => simp [digitsVal]
  | append_singleton l d ih =>
    rw [List.all_append, Bool.and_eq_true] at h
    have hd : 48 ≤ d ∧ d ≤ 57 := by
      have := h.2
      simp only [List.all_cons, List.all_nil, Bool.and_true] at this
      exact isDigit_iff.1 this
    have := ih h.1
    rw [digitsVal_append, List.length_append, List.length_singleton, pow_succ]
    omega

theorem parseFraction_lt (v : Bytes) : (parseFraction v).1 < 1000000000 := by
  unfold parseFraction
  split
  · rename_i c d rest
    split
    · simp only []
      have hall : (List.take 9 (List.takeWhile isDigit (d :: rest))).all isDigit = true := by
        rw [List.all_eq_true]
        intro x hx
        have hx' := List.mem_of_mem_take hx
        exact (List.mem_takeWhile_imp hx')
      have hlt := digitsVal_lt _ hall
      have hlen : (List.take 9 (List.takeWhile isDigit (d :: rest))).length ≤ 9 := by
        rw [List.length_take]; omega
      generalize (List.take 9 (List.takeWhile isDigit (d :: rest))).length = k at hlt hlen
      generalize digitsVal (List.take 9 (List.takeWhile isDigit (d :: rest))) = x at hlt
      calc x * 10 ^ (9 - k) < 10 ^ k * 10 ^ (9 - k) :=
            Nat.mul_lt_mul_of_pos_right hlt (by positivity)
        _ = 10 ^ 9 := by rw [← pow_add]; congr 1; omega
        _ = 1000000000 := by norm_num
    · simp
  · simp

/-- What an accepted time text looks like: fourteen digits that are the fields
of the result, and after them nothing or a fraction of a second. -/
theorem ParseInLocation_some {v : Bytes} {t : Time} (h : ParseInLocation v = some t) :
    t.Valid ∧ 0 ≤ t.year ∧ t.year ≤ 9999 ∧ t.Format = v.take 14 ∧ 14 ≤ v.length ∧
      (v.length = 14 → t.nsec = 0) := by
  unfold ParseInLocation at h
  split at h
  · cases h
  · rename_i year v1 hy
    split at h
    · cases h
    · rename_i month v2 hm
      split at h
      · cases h
      · rename_i hmr
        split at h
        · cases h
        · rename_i day v3 hd
          split at h
          · cases h
          · rename_i hour v4 hh
            split at h
            · cases h
            · rename_i hhr
              split at h
              · cases h
              · rename_i minute v5 hmi
                split at h
                · cases h
                · rename_i hmir
                  split at h
                  · cases h
                  · rename_i second v6 hs
                    split at h
                    · cases h
                    · rename_i hsr
                      split at h
                      · cases h
                      · rename_i hfr
                        split at h
                        · cases h
                        · rename_i hdr
                          simp only [Option.some.injEq] at h
                          obtain ⟨y1, y2, y3, y4, e1, dy1, dy2, dy3, dy4, ey⟩ := parseYear_some hy
                          obtain ⟨m1, m2, e2, dm1, dm2, em⟩ := getnum_fixed_some hm
                          obtain ⟨d1, d2, e3, dd1, dd2, ed⟩ := getnum_fixed_some hd
                          obtain ⟨h1, h2, e4, dh1, dh2, eh⟩ := getnum_free_some hh hmi
                          obtain ⟨i1, i2, e5, di1, di2, ei⟩ := getnum_fixed_some hmi
                          obtain ⟨s1, s2, e6, ds1, ds2, es⟩ := getnum_fixed_some hs
                          rw [isDigit_iff] at dy1 dy2 dy3 dy4 dm1 dm2 dd1 dd2 dh1 dh2 di1 di2 ds1 ds2
                          have hyv : year = (y1 - 48) * 1000 + (y2 - 48) * 100 + (y3 - 48) * 10 +
                              (y4 - 48) := by
                            rw [ey]; simp only [digitsVal, List.foldl]; omega
                          have hfl := parseFraction_lt v6
                          have hvalid : t.Valid := by
                            rw [← h]
                            simp only [Time.Valid]
                            refine ⟨by omega, by omega, by omega, by omega, by omega, by omega,
                              by omega, hfl⟩
                          have hy0 : 0 ≤ t.year := by rw [← h]; simp
                          have hy9 : t.year ≤ 9999 := by rw [← h]; simp only []; omega
                          refine ⟨hvalid, hy0, hy9, ?_, ?_, ?_⟩
                          · rw [Format_eq t hvalid hy0 hy9, e1, e2, e3, e4, e5, e6]
                            simp only [List.take_succ_cons, List.take_zero]
                            rw [← h]
                            simp only [Int.toNat_ofNat]
                            simp only [List.cons.injEq, and_true]
                            refine ⟨by omega, by omega, by omega, by omega, by omega, by omega,
                              by omega, by omega, by omega, by omega, by omega, by omega, by omega,
                              by omega⟩
                          · rw [e1, e2, e3, e4, e5, e6]
                            simp only [List.length_cons]
                            omega
                          · intro hl
                            rw [e1, e2, e3, e4, e5, e6] at hl
                            simp only [List.length_cons] at hl
                            have : v6 = [] := List.length_eq_zero.1 (by omega)
                            rw [← h, this]
                            rfl

end time

namespace base64

theorem decodeMap_lt {c x : Nat} (h : decodeMap c = some x) : x < 64 := by
  unfold decodeMap at h
  split at h
  · simp only [Option.some.injEq] at h; omega
  · split at h
    · simp only [Option.some.injEq] at h; omega
    · split at h
      · simp only [Option.some.injEq] at h; omega
      · split at h
        · simp only [Option.some.injEq] at h; omega
        · split at h
          · simp only [Option.some.injEq] at h; omega
          · cases h

theorem decodeQuanta_lt : ∀ (v bs : Bytes), decodeQuanta v = some bs → ∀ b ∈ bs, b < 256
  | [], bs, h => by
    simp only [decodeQuanta, Option.some.injEq] at h
    subst h
    simp
  | [_], _, h => by simp [decodeQuanta] at h
  | [_, _], _, h => by simp [decodeQuanta] at h
  | [_, _, _], _, h => by simp [decodeQuanta] at h
  | a :: b :: c :: d :: rest, bs, h => by
    simp only [decodeQuanta] at h
    split at h
    · rename_i x y hx hy
      have := decodeMap_lt hx
      have := decodeMap_lt hy
      split at h
      · split at h
        · simp only [Option.some.injEq] at h
          subst h
          intro b hb
          simp only [List.mem_singleton] at hb
          omega
        · cases h
      · split at h
        · cases h
        · rename_i z hz
          have := decodeMap_lt hz
          split at h
          · split at h
            · simp only [Option.some.injEq] at h
              subst h
              intro b hb
              simp only [List.mem_cons, List.mem_singleton, List.not_mem_nil, or_false] at hb
              rcases hb with hb | hb <;> omega
            · cases h
          · split at h
            · cases h
            · rename_i w hw
              have := decodeMap_lt hw
              split at h
              · cases h
              · rename_i t ht
                simp only [Option.some.injEq] at h
                subst h
                intro b hb
                simp only [List.mem_cons] at hb
                rcases hb with hb | hb | hb | hb
                · omega
                · omega
                · omega
                · exact decodeQuanta_lt rest t ht b hb
    · cases h

/-- Every decoded byte is below 256. -/
theorem DecodeString_lt {s bs : Bytes} (h : DecodeString s = some bs) : ∀ b ∈ bs, b < 256 :=
  decodeQuanta_lt _ bs h

end base64

namespace hashcash

/-- What acceptance by `NewHashCashFromString` means, field by field. -/
theorem NewHashCashFromString_ok {data : Bytes} {h : HashCash}
    (hok : NewHashCashFromString data = .ok h) :
    7 ≤ (strings.Split delimiter data).length ∧
    (strings.Split delimiter data).getD 0 [] = version1 ∧
    strconv.Atoi ((strings.Split delimiter data).getD 1 []) = some h.zeroBits ∧
    0 < h.zeroBits ∧
    time.ParseInLocation ((strings.Split delimiter data).getD 2 []) = some h.date ∧
    (∃ counterString,
      base64.DecodeString ((strings.Split delimiter data).getD
        ((strings.Split delimiter data).length - 1) []) = some counterString ∧
      strconv.Atoi counterString = some h.counter) ∧
    0 ≤ h.counter ∧
    base64.DecodeString ((strings.Split delimiter data).getD
      ((strings.Split delimiter data).length - 2) []) = some h.randomSeed ∧
    h.extension = (strings.Split delimiter data).getD
      ((strings.Split delimiter data).length - 3) [] ∧
    h.senderData = strings.Join delimiter
      (((strings.Split delimiter data).take ((strings.Split delimiter data).length - 3)).drop 3)
    := by
  unfold NewHashCashFromString at hok
  simp only [] at hok
  split at hok
  · cases hok
  · rename_i hlen
    split at hok
    · cases hok
    · rename_i hver
      split at hok
      · cases hok
      · rename_i zeroBits hz
        split at hok
        · cases hok
        · rename_i hzpos
          split at hok
          · cases hok
          · rename_i date hdate
            split at hok
            · cases hok
            · rename_i counterString hcs
              split at hok
              · cases hok
              · rename_i counter hctr
                split at hok
                · cases hok
                · rename_i hcpos
                  split at hok
                  · cases hok
                  · rename_i randomSeed hseed
                    simp only [Except.ok.injEq] at hok
                    subst hok
                    refine ⟨by omega, by simpa using hver, hz, ?_, hdate,
                      ⟨counterString, hcs, hctr⟩, ?_, hseed, rfl, rfl⟩
                    · show 0 < zeroBits
                      omega
                    · show 0 ≤ counter
                      omega

end hashcash

namespace strconv

theorem Atoi_range {s : Bytes} {i : Int} (h : Atoi s = some i) : minInt ≤ i ∧ i ≤ maxInt := by
  unfold Atoi at h
  split at h
  · cases h
  · rename_i c r
    split at h
    · split at h
      · cases h
      · rename_i n _
        split at h
        · cases h
        · simp only [Option.some.injEq] at h
          subst h
          unfold minInt maxInt at *
          omega
    · split at h
      · cases h
      · rename_i n _
        split at h
        · cases h
        · simp only [Option.some.injEq] at h
          subst h
          unfold minInt maxInt at *
          omega

end strconv

namespace time

theorem Format_length (t : Time) (hv : t.Valid) (hy0 : 0 ≤ t.year) (hy : t.year ≤ 9999) :
    t.Format.length = 14 := by
  rw [Format_eq t hv hy0 hy]
  rfl

theorem Format_truncateSecond (t : Time) : t.truncateSecond.Format = t.Format := rfl

theorem Valid_truncateSecond {t : Time} (h : t.Valid) : t.truncateSecond.Valid := by
  obtain ⟨h1, h2, h3, h4, h5, h6, h7, _⟩ := h
  exact ⟨h1, h2, h3, h4, h5, h6, h7, by simp [Time.truncateSecond]⟩

end time

namespace hashcash

/-- The fields of the re-encoding of an accepted text: those of the text, with
the variable ones in their canonical form. -/
theorem Split_String_of_ok {data : Bytes} {h : HashCash}
    (hok : NewHashCashFromString data = .ok h) :
    ∃ A B C S E F G, strings.Split delimiter data = A :: B :: C :: (S ++ [E, F, G]) ∧
      S ≠ [] ∧ A = [49] ∧
      time.ParseInLocation C = some h.date ∧
      strings.Split delimiter h.String =
        [49] :: strconv.Itoa h.zeroBits :: h.date.Format ::
          (S ++ [[], base64.EncodeToString h.randomSeed,
            base64.EncodeToString (strconv.Itoa h.counter)]) := by
  obtain ⟨hlen, hver, hz, hzpos, hdate, ⟨cs, hcs, hctr⟩, hcpos, hseed, hext, hsender⟩ :=
    NewHashCashFromString_ok hok
  obtain ⟨A, B, C, S, E, F, G, hshape, hS⟩ := fields_shape _ hlen
  obtain ⟨h0, h1, h2, h3, h4, h5, h6, h7⟩ := fields_index A B C E F G S
  rw [hshape] at hver hz hdate hcs hseed hext hsender
  rw [h0] at hcs hseed hext hsender
  rw [h1] at hver
  rw [h3] at hdate
  rw [h7] at hsender
  obtain ⟨hvalid, hy0, hy9, _, _, _⟩ := time.ParseInLocation_some hdate
  refine ⟨A, B, C, S, E, F, G, hshape, hS, hver, hdate, ?_⟩
  rw [Split_String h (Itoa_no_colon _) (Format_no_colon _ hvalid hy0 hy9)
    (base64.DecodeString_lt hseed), hsender, strings.Split_Join _ hS]
  intro f hf
  refine @strings.not_mem_of_mem_Split delimiter data f ?_
  rw [hshape]
  simp [hf]

end hashcash

namespace sha1

theorem hex_length (bs : Bytes) : (hex bs).length = 2 * bs.length := by
  induction bs with
  | nil => rfl
  | cons b bs ih => simp only [hex, List.length_cons, ih]; omega

theorem Sum_length (msg : Bytes) : (Sum msg).length = 20 := by
  simp [Sum, wordBytes]

theorem hex_Sum_length (msg : Bytes) : (hex (Sum msg)).length = 40 := by
  rw [hex_length, Sum_length]

end sha1

namespace hashcash

theorem Validate_eq (c : HashCash) (h0 : 0 ≤ c.zeroBits) (h40 : c.zeroBits ≤ 40) :
    c.Validate =
      .ok (((sha1.hex (sha1.Sum c.String)).take c.zeroBits.toNat).all (fun s => s == zeroBit)) := by
  have hl := sha1.hex_Sum_length c.String
  simp only [HashCash.Validate, HashCash.Hash, hl]
  rw [if_neg (by push_cast; omega), if_neg (by omega)]

theorem take_all_iff (l : Bytes) (k : Nat) :
    (l.take k).all (fun s => s == zeroBit) = true ↔ ∀ i, i < k → i < l.length → l[i]? = some zeroBit := by
  induction l generalizing k with
  | nil => simp
  | cons a l ih =>
    cases k with
    | zero => simp
    | succ k =>
      simp only [List.take_succ_cons, List.all_cons, Bool.and_eq_true, beq_iff_eq, ih,
        List.length_cons]
      constructor
      · rintro ⟨ha, h⟩ i hi hil
        cases i with
        | zero => simp [ha]
        | succ i => simpa using h i (by omega) (by omega)
      · intro h
        refine ⟨by simpa using h 0 (by omega) (by omega), fun i hi hil => ?_⟩
        simpa using h (i + 1) (by omega) (by omega)

end hashcash

namespace hashcash

theorem wrapInt_of_le {i : Int} (h0 : 0 ≤ i) (h : i ≤ strconv.maxInt) : wrapInt i = i := by
  unfold wrapInt
  unfold strconv.maxInt at h
  omega

/-- With a difficulty within the length of the digest, `Validate` returns no error. -/
theorem Validate_ok (c : HashCash) (h0 : 0 ≤ c.zeroBits) (h40 : c.zeroBits ≤ 40) :
    c.Validate = .ok true ∨ c.Validate = .ok false := by
  rw [Validate_eq c h0 h40]
  cases ((sha1.hex (sha1.Sum c.String)).take c.zeroBits.toNat).all (fun s => s == zeroBit)
  · exact Or.inr rfl
  · exact Or.inl rfl

/-- The loop of `Calculate` ends within `maxTries + 1 - counter + 1` iterations. -/
theorem calculateLoop_total (c : HashCash) (maxTries : Int) (hmax : maxTries < strconv.maxInt) :
    ∀ (fuel : Nat) (k : Int), 0 ≤ k → k ≤ maxTries + 1 → maxTries + 1 - k < fuel →
      ∃ r, calculateLoop maxTries fuel { c with counter := k } = some r := by
  intro fuel
  induction fuel with
  | zero => intro k h0 h1 h2; omega
  | succ f ih =>
    intro k h0 h1 h2
    simp only [calculateLoop]
    split
    · rename_i hk
      split
      · exact ⟨_, rfl⟩
      · exact ⟨_, rfl⟩
      · rw [wrapInt_of_le (by omega) (by omega)]
        exact ih (k + 1) (by omega) (by omega) (by omega)
    · exact ⟨_, rfl⟩

/-- When the loop of `Calculate` returns `nil`, it stopped at the first counter
from its start that satisfies `Validate`. -/
theorem calculateLoop_nil (c : HashCash) (maxTries : Int) (hmax : maxTries < strconv.maxInt)
    (c' : HashCash) :
    ∀ (fuel : Nat) (k : Int), 0 ≤ k →
      calculateLoop maxTries fuel { c with counter := k } = some (c', none) →
      c' = { c with counter := c'.counter } ∧ k ≤ c'.counter ∧ c'.counter ≤ maxTries ∧
        c'.Validate = .ok true ∧
        ∀ i, k ≤ i → i < c'.counter → HashCash.Validate { c with counter := i } = .ok false := by
  intro fuel
  induction fuel with
  | zero => intro k h0 h; simp [calculateLoop] at h
  | succ f ih =>
    intro k h0 h
    simp only [calculateLoop] at h
    split at h
    · rename_i hk
      split at h
      · simp at h
      · rename_i hv
        simp only [Option.some.injEq, Prod.mk.injEq, and_true] at h
        subst h
        refine ⟨rfl, le_refl _, hk, hv, fun i h1 h2 => ?_⟩
        have h2' : i < k := h2
        omega
      · rename_i hv
        rw [wrapInt_of_le (by omega) (by omega)] at h
        obtain ⟨e, h1, h2, h3, h4⟩ := ih (k + 1) (by omega) h
        refine ⟨e, by omega, h2, h3, fun i hi1 hi2 => ?_⟩
        by_cases hik : i = k
        · subst hik; exact hv
        · exact h4 i (by omega) hi2
    · simp at h

/-- When the loop of `Calculate` returns `ErrMaxTriesExceeded`, no counter from
its start up to `maxTries` satisfies `Validate`, and the counter is left just
past `maxTries`. -/
theorem calculateLoop_exceeded (c : HashCash) (maxTries : Int)
    (hmax : maxTries < strconv.maxInt) (h0z : 0 ≤ c.zeroBits) (h40 : c.zeroBits ≤ 40)
    (c' : HashCash) :
    ∀ (fuel : Nat) (k : Int), 0 ≤ k → k ≤ maxTries + 1 →
      calculateLoop maxTries fuel { c with counter := k } = some (c', some .ErrMaxTriesExceeded) →
      c' = { c with counter := maxTries + 1 } ∧
        ∀ i, k ≤ i → i ≤ maxTries → HashCash.Validate { c with counter := i } = .ok false := by
  intro fuel
  induction fuel with
  | zero => intro k h0 h1 h; simp [calculateLoop] at h
  | succ f ih =>
    intro k h0 h1 h
    simp only [calculateLoop] at h
    split at h
    · rename_i hk
      split at h
      · rename_i err hv
        rcases Validate_ok { c with counter := k } h0z h40 with hv' | hv' <;>
          rw [hv'] at hv <;> cases hv
      · simp at h
      · rename_i hv
        rw [wrapInt_of_le (by omega) (by omega)] at h
        obtain ⟨e, h4⟩ := ih (k + 1) (by omega) (by omega) h
        refine ⟨e, fun i hi1 hi2 => ?_⟩
        by_cases hik : i = k
        · subst hik; exact hv
        · exact h4 i (by omega) hi2
    · rename_i hk
      simp only [Option.some.injEq, Prod.mk.injEq, and_true] at h
      have hk' : k = maxTries + 1 := by omega
      subst h
      exact ⟨by rw [hk'], fun i hi1 hi2 => by omega⟩

/-- With a difficulty within the length of the digest the loop of `Calculate`
returns `nil` or `ErrMaxTriesExceeded`, nothing else. -/
theorem calculateLoop_result (c : HashCash) (maxTries : Int) (h0z : 0 ≤ c.zeroBits)
    (h40 : c.zeroBits ≤ 40) :
    ∀ (fuel : Nat) (k : Int) (c' : HashCash) (e : Option Error),
      calculateLoop maxTries fuel { c with counter := k } = some (c', e) →
      e = none ∨ e = some .ErrMaxTriesExceeded := by
  intro fuel
  induction fuel with
  | zero => intro k c' e h; simp [calculateLoop] at h
  | succ f ih =>
    intro k c' e h
    simp only [calculateLoop] at h
    split at h
    · split at h
      · rename_i err hv
        rcases Validate_ok { c with counter := k } h0z h40 with hv' | hv' <;>
          rw [hv'] at hv <;> cases hv
      · simp only [Option.some.injEq, Prod.mk.injEq] at h
        exact Or.inl h.2.symm
      · exact ih _ c' e h
    · simp only [Option.some.injEq, Prod.mk.injEq] at h
      exact Or.inr h.2.symm

end hashcash

namespace strings

theorem trimLeftLoop_of_zero {s : Bytes} (h : spaceWidth s = 0) (fuel : Nat) :
    trimLeftLoop fuel s = s := by
  cases fuel with
  | zero => rfl
  | succ f => simp [trimLeftLoop, h]

theorem trimRightLoop_of_zero {r : Bytes} (h : spaceWidthEnd r = 0) (fuel : Nat) :
    trimRightLoop fuel r = r := by
  cases fuel with
  | zero => rfl
  | succ f => simp [trimRightLoop, h]

theorem trimRightLoop_length (fuel : Nat) (r : Bytes) :
    (trimRightLoop fuel r).length ≤ r.length := by
  induction fuel generalizing r with
  | zero => exact le_refl _
  | succ f ih =>
    simp only [trimRightLoop]
    split
    · exact le_refl _
    · exact le_trans (ih _) (by rw [List.length_drop]; omega)

/-- A string that `TrimRightFunc` leaves as it is does not end in white space. -/
theorem spaceWidthEnd_of_TrimRightSpace {s : Bytes} (h : TrimRightSpace s = s) :
    spaceWidthEnd s.reverse = 0 := by
  by_contra hne
  have hlen : s.length ≠ 0 := by
    intro e
    have : s = [] := List.length_eq_zero.1 e
    subst this
    exact hne rfl
  obtain ⟨n, hn⟩ := Nat.exists_eq_succ_of_ne_zero hlen
  have h1 : (trimRightLoop s.length s.reverse).length < s.length := by
    rw [hn]
    simp only [trimRightLoop, if_neg hne]
    refine lt_of_le_of_lt (trimRightLoop_length _ _) ?_
    rw [List.length_drop, List.length_reverse]
    omega
  have h2 := congrArg List.length h
  simp only [TrimRightSpace, List.length_reverse] at h2
  omega

/-- White space at the end of a text is not made by putting a `#` and a digit
in front of it. -/
theorem spaceWidthEnd_append (p : Bytes) (d : Nat) (hd : 48 ≤ d ∧ d ≤ 57)
    (h : spaceWidthEnd p = 0) : spaceWidthEnd (p ++ [35, d]) = 0 := by
  match p, h with
  | [], _ =>
    have : d ≠ 0xC2 := by omega
    simp [spaceWidthEnd, isAsciiSpace, isSpace2, this]
  | [a], h =>
    simp only [spaceWidthEnd] at h
    split at h
    · cases h
    · rename_i ha
      have h1 : d ≠ 0xE1 := by omega
      have h2 : d ≠ 0xE2 := by omega
      have h3 : d ≠ 0xE3 := by omega
      simp [spaceWidthEnd, ha, isSpace2, isSpace3, h1, h2, h3]
  | [a, b], h =>
    simp only [spaceWidthEnd] at h
    split at h
    · cases h
    · rename_i ha
      split at h
      · cases h
      · rename_i hb
        simp [spaceWidthEnd, ha, hb, isSpace3]
  | a :: b :: c :: rest, h =>
    simpa [spaceWidthEnd] using h

/-- Trimming the line of a message of known type whose payload does not end in
white space removes the line feed at its end and nothing else. -/
theorem TrimSpace_line (d : Nat) (hd : 48 ≤ d ∧ d ≤ 57) (p : Bytes)
    (hp : TrimRightSpace p = p) : TrimSpace (d :: 35 :: (p ++ [10])) = d :: 35 :: p := by
  have hl : TrimLeftSpace (d :: 35 :: (p ++ [10])) = d :: 35 :: (p ++ [10]) := by
    apply trimLeftLoop_of_zero
    have h1 : d ≠ 0xC2 := by omega
    have h2 : d ≠ 0xE1 := by omega
    have h3 : d ≠ 0xE2 := by omega
    have h4 : d ≠ 0xE3 := by omega
    have h5 : isAsciiSpace d = false := by
      simp [isAsciiSpace]; omega
    cases p with
    | nil => simp [spaceWidth, h5, isSpace2, isSpace3, h1, h2, h3, h4]
    | cons a p => simp [spaceWidth, h5, isSpace2, isSpace3, h1, h2, h3, h4]
  unfold TrimSpace
  rw [hl]
  unfold TrimRightSpace
  have hrev : (d :: 35 :: (p ++ [10])).reverse = 10 :: (p.reverse ++ [35, d]) := by simp
  have hlen : (d :: 35 :: (p ++ [10])).length = (p.length + 2) + 1 := by simp
  rw [hrev, hlen]
  have h10 : spaceWidthEnd (10 :: (p.reverse ++ [35, d])) = 1 := by
    simp [spaceWidthEnd, isAsciiSpace]
  have step : trimRightLoop (p.length + 2 + 1) (10 :: (p.reverse ++ [35, d])) =
      trimRightLoop (p.length + 2) (p.reverse ++ [35, d]) := by
    rw [trimRightLoop, if_neg (by rw [h10]; omega), h10]
    rfl
  rw [step,
    trimRightLoop_of_zero (spaceWidthEnd_append _ d hd (spaceWidthEnd_of_TrimRightSpace hp))]
  simp

end strings

namespace strings

/-- The fuel `TrimLeftSpace` gives its loop suffices: what it returns starts
with no white space. -/
theorem spaceWidth_trimLeftLoop (fuel : Nat) (s : Bytes) (h : s.length ≤ fuel) :
    spaceWidth (trimLeftLoop fuel s) = 0 := by
  induction fuel generalizing s with
  | zero =>
    have : s = [] := List.length_eq_zero.1 (by omega)
    subst this
    rfl
  | succ f ih =>
    simp only [trimLeftLoop]
    split
    · assumption
    · rename_i hw
      apply ih
      rw [List.length_drop]
      omega

/-- The fuel `TrimRightSpace` gives its loop suffices: what it returns ends
with no white space. -/
theorem spaceWidthEnd_trimRightLoop (fuel : Nat) (r : Bytes) (h : r.length ≤ fuel) :
    spaceWidthEnd (trimRightLoop fuel r) = 0 := by
  induction fuel generalizing r with
  | zero =>
    have : r = [] := List.length_eq_zero.1 (by omega)
    subst this
    rfl
  | succ f ih =>
    simp only [trimRightLoop]
    split
    · assumption
    · rename_i hw
      apply ih
      rw [List.length_drop]
      omega

end strings

namespace hashcash

/-- When `maxTries` is above zero and some counter from 0 to `maxTries`
satisfies `Validate`, `Calculate` returns `nil` and leaves a counter that is not
above it. -/
theorem Calculate_of_valid (c : HashCash) (maxTries j : Int) (fuel : Nat)
    (hz0 : 0 ≤ c.zeroBits) (hz40 : c.zeroBits ≤ 40)
    (hpos : 0 < maxTries) (hmax : maxTries < strconv.maxInt)
    (hfuel : maxTries + 2 ≤ fuel) (hj0 : 0 ≤ j) (hj : j ≤ maxTries)
    (hv : HashCash.Validate { c with counter := j } = .ok true) :
    ∃ c', c.Calculate maxTries fuel = some (c', none) ∧ c'.counter ≤ j ∧
      c'.Validate = .ok true := by
  obtain ⟨⟨c', e⟩, hr⟩ :=
    calculateLoop_total c maxTries hmax fuel 0 (le_refl _) (by omega) (by omega)
  have hgt : maxTries > 0 := hpos
  have hcalc : c.Calculate maxTries fuel = some (c', e) := by
    simp only [HashCash.Calculate, if_pos hgt]; exact hr
  rcases calculateLoop_result c maxTries hz0 hz40 fuel 0 c' e hr with he | he
  · subst he
    obtain ⟨_, _, _, e4, e5⟩ := calculateLoop_nil c maxTries hmax c' fuel 0 (le_refl _) hr
    refine ⟨c', hcalc, ?_, e4⟩
    by_contra hgt
    have := e5 j hj0 (by omega)
    rw [hv] at this
    cases this
  · subst he
    have := (calculateLoop_exceeded c maxTries hmax hz0 hz40 c' fuel 0 (le_refl _)
      (by omega) hr).2 j hj0 hj
    rw [hv] at this
    cases this

/-- The test `TestHashCash_Calculate`, as far as one evaluation of the digest
shows: counter 419882 solves its challenge of difficulty 5, so `Calculate` with
`maxTries` one million returns `nil` and leaves a counter of at most 419882
that satisfies `Validate`. -/
theorem Calculate_test_vector :
    ∃ c',
      HashCash.Calculate
        { zeroBits := 5, date := ⟨2024, 9, 29, 8, 36, 45, 0⟩, senderData := str "127.0.0.1:5040",
          extension := [], randomSeed := [39, 236, 78, 33], counter := 0 } 1000000 1000002 =
        some (c', none) ∧
      c'.counter ≤ 419882 ∧ c'.Validate = .ok true :=
  Calculate_of_valid
    { zeroBits := 5, date := ⟨2024, 9, 29, 8, 36, 45, 0⟩, senderData := str "127.0.0.1:5040",
      extension := [], randomSeed := [39, 236, 78, 33], counter := 0 } 1000000 419882 1000002
    (by decide) (by decide) (by decide) (by decide) (by decide) (by decide) (by decide)
    (by decide)

end hashcash

namespace time

theorem unixNano_truncateSecond (t : Time) :
    t.truncateSecond.unixNano = t.unixNano - (t.nsec : Int) := by
  simp only [Time.unixNano, Time.truncateSecond]
  push_cast
  omega

end time

namespace hashcash

/-- What `NewHashCash` returns when it returns a challenge. -/
theorem NewHashCash_ok {zeroBits : Int} {sender : Bytes} {now : time.Time} {random : Option Nat}
    {h : HashCash} (hnew : NewHashCash zeroBits sender now random = .ok h) :
    0 < zeroBits ∧ ∃ rand, random = some rand ∧
      h = { zeroBits := zeroBits, date := now.truncateSecond, senderData := sender,
            extension := [], randomSeed := big.IntBytes rand, counter := 0 } := by
  unfold NewHashCash at hnew
  split at hnew
  · cases hnew
  · rename_i hz
    split at hnew
    · cases hnew
    · rename_i rand
      simp only [Except.ok.injEq] at hnew
      exact ⟨by omega, rand, rfl, hnew.symm⟩

theorem Expired_iff (h : HashCash) (ttl : Int) (now : time.Time) :
    h.Expired ttl now = true ↔ h.date.unixNano + ttl < now.unixNano := by
  simp [HashCash.Expired, time.addBefore]

end hashcash

namespace hashcash

/-- The encoding of a challenge does not read its extension: two challenges
that agree on the other fields have the same `String()`. -/
theorem String_congr {h₁ h₂ : HashCash} (hz : h₁.zeroBits = h₂.zeroBits)
    (hd : h₁.date = h₂.date) (hs : h₁.senderData = h₂.senderData)
    (hr : h₁.randomSeed = h₂.randomSeed) (hc : h₁.counter = h₂.counter) :
    h₁.String = h₂.String := by
  simp only [HashCash.String, hz, hd, hs, hr, hc]

theorem Validate_congr {h₁ h₂ : HashCash} (hz : h₁.zeroBits = h₂.zeroBits)
    (hd : h₁.date = h₂.date) (hs : h₁.senderData = h₂.senderData)
    (hr : h₁.randomSeed = h₂.randomSeed) (hc : h₁.counter = h₂.counter) :
    h₁.Validate = h₂.Validate := by
  simp only [HashCash.Validate, HashCash.Hash, String_congr hz hd hs hr hc, hz]

/-- The loop of `Calculate` run on two challenges that agree on everything but
the extension ends the same way on both: same error, same counter. -/
theorem calculateLoop_congr (maxTries : Int) :
    ∀ (fuel : Nat) (h₁ h₂ : HashCash), h₁.zeroBits = h₂.zeroBits → h₁.date = h₂.date →
      h₁.senderData = h₂.senderData → h₁.randomSeed = h₂.randomSeed →
      h₁.counter = h₂.counter →
      (calculateLoop maxTries fuel h₁).map (fun r => (r.1.counter, r.2)) =
        (calculateLoop maxTries fuel h₂).map (fun r => (r.1.counter, r.2)) := by
  intro fuel
  induction fuel with
  | zero => intro h₁ h₂ _ _ _ _ _; rfl
  | succ f ih =>
    intro h₁ h₂ hz hd hs hr hc
    simp only [calculateLoop]
    rw [Validate_congr hz hd hs hr hc, hc]
    split
    · split
      · simp [hc]
      · simp [hc]
      · exact ih _ _ hz hd hs hr rfl
    · simp [hc]

end hashcash

namespace server

open hashcash message

/-- An Error message is never the text of a ResponseWisdom message: they start
with different digits. -/
theorem errorBytes_ne_wisdomBytes (e p : Bytes) :
    Message.Bytes { Type' := MessageError, Payload := e } ≠
      Message.Bytes { Type' := MessageTypeResponseWisdom, Payload := p } := by
  intro h
  have h0 : strconv.Itoa MessageError = [48] := by decide
  have h4 : strconv.Itoa MessageTypeResponseWisdom = [52] := by decide
  simp only [Message.Bytes, Message.String, h0, h4, List.singleton_append, List.cons.injEq] at h
  omega

/-- With the submitted challenge bound to the connection and an entry under its
key, `responseWisdom` removes that entry and changes the registry in no other
way, whatever it answers. -/
theorem responseWisdom_pool (key : HashCash → Bytes) (now : time.Time)
    (getRandom : Bytes × Bool) (s : Server) (clientID payload : Bytes) (hc e : HashCash)
    (hparse : NewHashCashFromString payload = .ok hc)
    (hsender : hc.senderData = clientID)
    (hpresent : s.hashCashPool.GetHashCash (key hc) = some e) :
    (Server.responseWisdom key now getRandom s clientID payload).1.hashCashPool =
      s.hashCashPool.RemoveHashCash key e := by
  simp only [Server.responseWisdom, hparse, HashCash.CheckSender, hsender, hpresent,
    decide_True, Bool.not_true, Bool.false_eq_true, if_false]
  split
  · rfl
  · split
    · rfl
    · split
      · rfl
      · split <;> rfl

end server

namespace server

open hashcash message

/-- What makes `responseWisdom` write a ResponseWisdom message. -/
theorem responseWisdom_wisdom_written (key : HashCash → Bytes) (now : time.Time)
    (getRandom : Bytes × Bool) (s : Server) (clientID payload p : Bytes)
    (h : Message.Bytes { Type' := MessageTypeResponseWisdom, Payload := p } ∈
      (Server.responseWisdom key now getRandom s clientID payload).1.written.drop
        s.written.length) :
    ∃ hc, NewHashCashFromString payload = .ok hc ∧ hc.senderData = clientID ∧
      hc.Expired s.hashCashTTL now = false ∧ hc.Validate = .ok true ∧
      getRandom = (p, true) := by
  have hne := fun e => (errorBytes_ne_wisdomBytes e p).symm
  unfold Server.responseWisdom at h
  split at h
  · simp [Server.writeError, hne] at h
  · rename_i hc hparse
    split at h
    · simp [Server.writeError, hne] at h
    · rename_i hsender
      have hs : hc.senderData = clientID := by
        simpa [HashCash.CheckSender] using hsender
      simp only [] at h
      split at h
      · rename_i hexp
        split at h <;> simp [Server.writeError, hne] at h
      · rename_i hexp
        split at h
        · split at h <;> simp [Server.writeError, hne] at h
        · rename_i isHashCorrect hval
          split at h
          · split at h <;> simp [Server.writeError, hne] at h
          · rename_i hcorrect
            split at h
            · split at h <;> simp [Server.writeError, hne] at h
            · rename_i hfound
              have hv : isHashCorrect = true := by simpa using hcorrect
              have hf : getRandom.2 = true := by simpa using hfound
              have hp : getRandom.1 = p := by
                have hinj : ∀ q : Bytes,
                    Message.Bytes { Type' := MessageTypeResponseWisdom, Payload := p } =
                      Message.Bytes { Type' := MessageTypeResponseWisdom, Payload := q } →
                    q = p := by
                  intro q hq
                  simp only [Message.Bytes, Message.String, List.append_cancel_left_eq,
                    List.cons.injEq, true_and, List.append_cancel_right_eq] at hq
                  exact hq.symm
                split at h <;>
                  simp [Server.writeError, Server.writeMessage, hne] at h <;>
                  exact hinj _ h
              refine ⟨hc, hparse, hs, by simpa using hexp, by rw [hval, hv], ?_⟩
              obtain ⟨a, b⟩ := getRandom
              simp only [] at hf hp
              rw [hf, hp]

end server

namespace hashcash

theorem Consistent_NewHashCashPool (key : HashCash → Bytes) :
    NewHashCashPool.Consistent key := by
  intro k hc h
  simp [NewHashCashPool] at h

theorem Consistent_call (key : HashCash → Bytes) (cp : HashCashPool) (c : PoolCall)
    (h : cp.Consistent key) : (cp.call key c).Consistent key := by
  intro k hc hk
  cases c with
  | add a =>
    simp only [HashCashPool.call, HashCashPool.AddHashCash] at hk
    split at hk
    · rename_i e
      simp only [Option.some.injEq] at hk
      rw [← hk, e]
    · exact h k hc hk
  | remove a =>
    simp only [HashCashPool.call, HashCashPool.RemoveHashCash] at hk
    split at hk
    · cases hk
    · exact h k hc hk

/-- Every pool that the calls of the package make from the empty one stores each
entry under its own key. -/
theorem Consistent_calls (key : HashCash → Bytes) (cs : List PoolCall) :
    ∀ cp : HashCashPool, cp.Consistent key → (cp.calls key cs).Consistent key := by
  induction cs with
  | nil => intro cp h; exact h
  | cons c cs ih => intro cp h; exact ih _ (Consistent_call key cp c h)

theorem calls_append (key : HashCash → Bytes) (cp : HashCashPool) (cs : List PoolCall)
    (c : PoolCall) : cp.calls key (cs ++ [c]) = (cp.calls key cs).call key c := by
  simp [HashCashPool.calls, List.foldl_append]

end hashcash

namespace hashcash

/-- Counting the calls of `Validate` does not change what the loop returns. -/
theorem calculateLoopEvals_fst (maxTries : Int) :
    ∀ (fuel : Nat) (h : HashCash) (evals : Nat),
      (calculateLoopEvals maxTries fuel h evals).map (fun r => (r.1, r.2.1)) =
        calculateLoop maxTries fuel h := by
  intro fuel
  induction fuel with
  | zero => intro h evals; rfl
  | succ f ih =>
    intro h evals
    simp only [calculateLoopEvals, calculateLoop]
    by_cases hk : h.counter ≤ maxTries
    · rw [if_pos hk, if_pos hk]
      cases hv : h.Validate with
      | error err => rfl
      | ok b =>
        cases b
        · exact ih _ _
        · rfl
    · rw [if_neg hk, if_neg hk]
      rfl

theorem CalculateEvals_fst (h : HashCash) (maxTries : Int) (fuel : Nat) :
    (h.CalculateEvals maxTries fuel).map (fun r => (r.1, r.2.1)) = h.Calculate maxTries fuel := by
  unfold HashCash.CalculateEvals HashCash.Calculate
  split
  · exact calculateLoopEvals_fst maxTries fuel _ 0
  · rfl

/-- `Validate` never returns `ErrMaxTriesExceeded`. -/
theorem Validate_ne_exceeded (c : HashCash) : c.Validate ≠ .error .ErrMaxTriesExceeded := by
  unfold HashCash.Validate HashCash.Hash
  simp only []
  split
  · intro h; cases h
  · split
    · intro h; cases h
    · intro h; cases h

/-- The loop of `Calculate`, started at a counter `k` from 0 to `maxTries + 1`
with fuel for the iterations left, returns; it changes the counter only and
leaves it between `k` and `maxTries + 1`; it calls `Validate` once for every
counter it passes and once more for the counter it stops at unless it stops
with `ErrMaxTriesExceeded`, which it does at `maxTries + 1`. -/
theorem calculateLoopEvals_spec (c : HashCash) (maxTries : Int)
    (hmax : maxTries < strconv.maxInt) :
    ∀ (fuel : Nat) (k : Int) (evals : Nat), 0 ≤ k → k ≤ maxTries + 1 → maxTries + 1 - k < fuel →
      ∃ c' e n, calculateLoopEvals maxTries fuel { c with counter := k } evals = some (c', e, n) ∧
        c' = { c with counter := c'.counter } ∧ k ≤ c'.counter ∧ c'.counter ≤ maxTries + 1 ∧
        (e = some .ErrMaxTriesExceeded →
          c'.counter = maxTries + 1 ∧ (n : Int) = evals + (maxTries + 1 - k)) ∧
        (e ≠ some .ErrMaxTriesExceeded →
          c'.counter ≤ maxTries ∧ (n : Int) = evals + (c'.counter - k) + 1) := by
  intro fuel
  induction fuel with
  | zero => intro k evals h0 h1 h2; omega
  | succ f ih =>
    intro k evals h0 h1 h2
    simp only [calculateLoopEvals]
    split
    · rename_i hk
      have hk' : k ≤ maxTries := hk
      split
      · rename_i err hv
        refine ⟨_, _, _, rfl, rfl, le_refl _, h1, fun he => ?_, fun _ => ⟨hk', ?_⟩⟩
        · simp only [Option.some.injEq] at he
          subst he
          exact absurd hv (Validate_ne_exceeded _)
        · show ((evals + 1 : Nat) : Int) = evals + (k - k) + 1
          push_cast
          omega
      · refine ⟨_, _, _, rfl, rfl, le_refl _, h1, fun he => ?_, fun _ => ⟨hk', ?_⟩⟩
        · cases he
        show ((evals + 1 : Nat) : Int) = evals + (k - k) + 1
        push_cast
        omega
      · have hw : wrapInt (k + 1) = k + 1 := wrapInt_of_le (by omega) (by omega)
        show ∃ c' e n,
          calculateLoopEvals maxTries f { c with counter := wrapInt (k + 1) } (evals + 1) =
            some (c', e, n) ∧ _
        rw [hw]
        obtain ⟨c', e, n, hr, e1, e2, e3, e4, e5⟩ :=
          ih (k + 1) (evals + 1) (by omega) (by omega) (by omega)
        refine ⟨c', e, n, hr, e1, by omega, e3, fun he => ?_, fun he => ?_⟩
        · obtain ⟨a, b⟩ := e4 he
          refine ⟨a, ?_⟩
          push_cast at b
          omega
        · obtain ⟨a, b⟩ := e5 he
          refine ⟨a, ?_⟩
          push_cast at b
          omega
    · rename_i hk
      have hk' : ¬ k ≤ maxTries := hk
      have hk2 : k = maxTries + 1 := by omega
      refine ⟨_, _, _, rfl, rfl, le_refl _, h1, fun _ => ⟨hk2, ?_⟩, fun he => absurd rfl he⟩
      omega

/-- The loop of `Calculate`, started at a counter `k` from 0 to `maxTries + 1`
with fuel for the iterations left, returns; it changes the counter only and
leaves it between `k` and `maxTries + 1`. -/
theorem calculateLoop_frame (c : HashCash) (maxTries : Int) (hmax : maxTries < strconv.maxInt) :
    ∀ (fuel : Nat) (k : Int), 0 ≤ k → k ≤ maxTries + 1 → maxTries + 1 - k < fuel →
      ∃ c' e, calculateLoop maxTries fuel { c with counter := k } = some (c', e) ∧
        c' = { c with counter := c'.counter } ∧ k ≤ c'.counter ∧ c'.counter ≤ maxTries + 1 := by
  intro fuel
  induction fuel with
  | zero => intro k h0 h1 h2; omega
  | succ f ih =>
    intro k h0 h1 h2
    simp only [calculateLoop]
    split
    · rename_i hk
      have hk' : k ≤ maxTries := hk
      split
      · exact ⟨_, _, rfl, rfl, le_refl _, h1⟩
      · exact ⟨_, _, rfl, rfl, le_refl _, h1⟩
      · have hw : wrapInt (k + 1) = k + 1 := wrapInt_of_le (by omega) (by omega)
        show ∃ c' e,
          calculateLoop maxTries f { c with counter := wrapInt (k + 1) } = some (c', e) ∧ _
        rw [hw]
        obtain ⟨c', e, hr, e1, e2, e3⟩ := ih (k + 1) (by omega) (by omega) (by omega)
        exact ⟨c', e, hr, e1, by omega, e3⟩
    · exact ⟨_, _, rfl, rfl, le_refl _, h1⟩

end hashcash

namespace message

/-- A message that `NewMessageFromString` returns has one of the five types. -/
theorem NewMessageFromString_type {raw : Bytes} {m : Message}
    (h : NewMessageFromString raw = .ok m) :
    m.Type' = MessageError ∨ m.Type' = MessageTypeRequestTask ∨
      m.Type' = MessageTypeResponseTask ∨ m.Type' = MessageTypeRequestWisdom ∨
      m.Type' = MessageTypeResponseWisdom := by
  unfold NewMessageFromString at h
  simp only [] at h
  split at h
  · cases h
  · split at h
    · cases h
    · split at h
      · rename_i ht
        simp only [Except.ok.injEq] at h
        subst h
        exact ht
      · cases h

end message

namespace server

open hashcash message

/-- Every run of `handleMessages` calls `ReadString` at least once. -/
theorem handleMessages_reads_pos (key : HashCash → Bytes) (clientID : Bytes) (s : Server)
    (turns : List Turn) : 1 ≤ (Server.handleMessages key clientID s turns).2.2 := by
  cases turns with
  | nil => exact le_refl _
  | cons t rest =>
    unfold Server.handleMessages
    split
    · exact Nat.le_add_left _ _
    · exact le_refl _

theorem handleMessages_again (key : HashCash → Bytes) (clientID : Bytes) (s s1 : Server)
    (t : Turn) (rest : List Turn) (h : s.handleLine key clientID t = (s1, .again)) :
    Server.handleMessages key clientID s (t :: rest) =
      ((Server.handleMessages key clientID s1 rest).1,
        (Server.handleMessages key clientID s1 rest).2.1,
        (Server.handleMessages key clientID s1 rest).2.2 + 1) := by
  rw [Server.handleMessages, h]

theorem handleMessages_returned (key : HashCash → Bytes) (clientID : Bytes) (s s1 : Server)
    (t : Turn) (rest : List Turn) (err : Option String)
    (h : s.handleLine key clientID t = (s1, .returned err)) :
    Server.handleMessages key clientID s (t :: rest) = (s1, err, 1) := by
  rw [Server.handleMessages, h]

theorem handleLine_RequestTask (key : HashCash → Bytes) (s : Server) (clientID : Bytes)
    (t : Turn) (p : Bytes)
    (h : NewMessageFromString t.rawMessage = .ok { Type' := MessageTypeRequestTask, Payload := p }) :
    s.handleLine key clientID t = ((s.responseTask key t.now t.random clientID).1, .again) := by
  unfold Server.handleLine
  rw [h]
  rfl

theorem handleLine_RequestWisdom (key : HashCash → Bytes) (s : Server) (clientID : Bytes)
    (t : Turn) (p : Bytes)
    (h : NewMessageFromString t.rawMessage =
      .ok { Type' := MessageTypeRequestWisdom, Payload := p }) :
    s.handleLine key clientID t =
      ((s.responseWisdom key t.now t.getRandom clientID p).1,
        .returned (s.responseWisdom key t.now t.getRandom clientID p).2) := by
  unfold Server.handleLine
  rw [h]
  rfl

theorem handleLine_error (key : HashCash → Bytes) (s : Server) (clientID : Bytes)
    (t : Turn) (e : message.Error) (h : NewMessageFromString t.rawMessage = .error e) :
    s.handleLine key clientID t =
      (s.writeError ErrIncorrectMessageFormat, .returned (some "NewMessageFromString")) := by
  unfold Server.handleLine
  rw [h]

theorem handleLine_other (key : HashCash → Bytes) (s : Server) (clientID : Bytes)
    (t : Turn) (m : Message) (h : NewMessageFromString t.rawMessage = .ok m)
    (h1 : m.Type' ≠ MessageTypeRequestTask) (h3 : m.Type' ≠ MessageTypeRequestWisdom) :
    s.handleLine key clientID t =
      (s.writeError ErrUnknownMessageType, .returned (some "unknown message type")) := by
  unfold Server.handleLine
  rw [h]
  simp only [if_neg h1, if_neg h3]

/-- The turn goes again to `ReadString` exactly when the line decodes to a
RequestTask. -/
theorem handleLine_again_iff (key : HashCash → Bytes) (s : Server) (clientID : Bytes)
    (t : Turn) :
    (s.handleLine key clientID t).2 = .again ↔
      ∃ p, NewMessageFromString t.rawMessage =
        .ok { Type' := MessageTypeRequestTask, Payload := p } := by
  constructor
  · intro h
    cases hd : NewMessageFromString t.rawMessage with
    | error e => rw [handleLine_error key s clientID t e hd] at h; cases h
    | ok m =>
      by_cases h1 : m.Type' = MessageTypeRequestTask
      · refine ⟨m.Payload, ?_⟩
        rw [← h1]
      · by_cases h3 : m.Type' = MessageTypeRequestWisdom
        · have hm : m = { Type' := MessageTypeRequestWisdom, Payload := m.Payload } := by
            rw [← h3]
          rw [hm] at hd
          rw [handleLine_RequestWisdom key s clientID t _ hd] at h
          cases h
        · rw [handleLine_other key s clientID t m hd h1 h3] at h
          cases h
  · rintro ⟨p, hp⟩
    rw [handleLine_RequestTask key s clientID t p hp]

end server

/-! ## The claims -/

open hashcash message server in
/-- C1, what the code does instead. When the submitted challenge parses, is
bound to the connection identity, is not expired and satisfies `Validate`, and
the store holds a resource, but the registry has no entry under its key,
`responseWisdom` writes two messages: the Error `client not found` and then the
`ResponseWisdom` with the resource. -/
theorem responseWisdom_absent_key (key : HashCash → Bytes) (now : time.Time)
    (getRandom : Bytes × Bool) (s : Server) (clientID payload : Bytes) (hc : HashCash)
    (hparse : NewHashCashFromString payload = .ok hc)
    (hsender : hc.senderData = clientID)
    (habsent : s.hashCashPool.GetHashCash (key hc) = none)
    (hfresh : hc.Expired s.hashCashTTL now = false)
    (hvalid : hc.Validate = .ok true)
    (hfound : getRandom.2 = true) :
    (Server.responseWisdom key now getRandom s clientID payload).1.written =
      s.written ++
        [Message.Bytes { Type' := MessageError, Payload := ErrClientNotFound },
          Message.Bytes { Type' := MessageTypeResponseWisdom, Payload := getRandom.1 }] := by
  simp [Server.responseWisdom, hparse, HashCash.CheckSender, hsender, habsent, hfresh, hvalid,
    hfound, Server.writeError, Server.writeMessage]

open hashcash message server in
/-- Witness for C1: the solved challenge of the test `TestHashCash_Calculate`,
submitted from its own address fifteen seconds after its issue to a server
with a ttl of one minute, an empty registry and a store that holds `wisdom`. -/
theorem responseWisdom_absent_key_witness :
    (Server.responseWisdom HashCash.Key ⟨2024, 9, 29, 8, 37, 0, 0⟩ (str "wisdom", true)
      { ZeroBits := 5, hashCashTTL := 60000000000, hashCashPool := NewHashCashPool,
        written := [], storeCalls := 0 }
      (str "127.0.0.1:5040")
      (str "1:5:20240929083645:127.0.0.1:5040::J+xOIQ==:NDE5ODgy")).1.written =
      [str "0#client not found in task requester list\n", str "4#wisdom\n"] :=
  responseWisdom_absent_key HashCash.Key ⟨2024, 9, 29, 8, 37, 0, 0⟩ (str "wisdom", true)
    { ZeroBits := 5, hashCashTTL := 60000000000, hashCashPool := NewHashCashPool,
      written := [], storeCalls := 0 }
    (str "127.0.0.1:5040") (str "1:5:20240929083645:127.0.0.1:5040::J+xOIQ==:NDE5ODgy")
    { zeroBits := 5, date := ⟨2024, 9, 29, 8, 36, 45, 0⟩, senderData := str "127.0.0.1:5040",
      extension := [], randomSeed := [39, 236, 78, 33], counter := 419882 }
    (by decide) (by decide) rfl (by decide) (by decide) rfl

open message in
/-- C2, as amended. Message round trip: for every `Message` whose type is one
of the five known values and whose payload holds no `#` and does not end in
white space (`strings.TrimRightFunc` with `unicode.IsSpace` leaves it as it
is), `NewMessageFromString(m.String())` succeeds and returns `m`. -/
theorem Message_String_roundtrip (m : Message)
    (ht0 : 0 ≤ m.Type') (ht4 : m.Type' ≤ 4)
    (hsep : DelimiterMessage ∉ m.Payload)
    (hsp : strings.TrimRightSpace m.Payload = m.Payload) :
    NewMessageFromString m.String = .ok m := by
  obtain ⟨t, p⟩ := m
  simp only [] at ht0 ht4 hsep hsp
  obtain ⟨n, rfl⟩ := Int.eq_ofNat_of_zero_le ht0
  have hn : n ≤ 4 := by omega
  have hItoa : strconv.Itoa (n : Int) = [48 + n] := by
    have : ¬ ((n : Int) < 0) := by omega
    simp only [strconv.Itoa, if_neg this, Int.toNat_ofNat]
    exact strconv.formatNat_lt (by omega)
  have hstr : Message.String ⟨(n : Int), p⟩ = (48 + n) :: 35 :: (p ++ [10]) := by
    simp [Message.String, hItoa, DelimiterMessage, DelimiterEndOfMessage]
  have hd35 : (35 : Nat) ∉ [48 + n] := by
    simp only [List.mem_singleton]; omega
  have hsplit : strings.Split DelimiterMessage ((48 + n) :: 35 :: p) = [[48 + n], p] := by
    have := strings.Split_append 35 [48 + n] p
    simp only [List.singleton_append] at this
    unfold DelimiterMessage at hsep ⊢
    rw [this, strings.Split_of_not_mem hd35, strings.Split_of_not_mem hsep]
    rfl
  have hAtoi : strconv.Atoi [48 + n] = some (n : Int) := by
    rw [← hItoa]
    exact strconv.Atoi_Itoa _ (by unfold strconv.minInt; omega) (by unfold strconv.maxInt; omega)
  have h8 : toInt8 (n : Int) = (n : Int) := by
    unfold toInt8; omega
  unfold NewMessageFromString
  simp only [hstr, strings.TrimSpace_line (48 + n) (by omega) p hsp, hsplit, List.length_cons,
    List.length_nil, List.getD_cons_zero, List.getD_cons_succ, hAtoi, h8]
  rw [if_neg (by omega), if_pos]
  unfold MessageError MessageTypeRequestTask MessageTypeResponseTask MessageTypeRequestWisdom
    MessageTypeResponseWisdom
  omega

open message in
/-- Counterexample to C2 as stated: a `RequestWisdom` message whose payload
`a ` holds no `#` comes back with payload `a`, and a message of type 7 is not
decoded at all. -/
theorem Message_String_roundtrip_counterexample :
    DelimiterMessage ∉ str "a " ∧
    NewMessageFromString (Message.String ⟨3, str "a "⟩) = .ok ⟨3, str "a"⟩ ∧
    (⟨3, str "a"⟩ : Message) ≠ ⟨3, str "a "⟩ ∧
    NewMessageFromString (Message.String ⟨7, str "a"⟩) = .error .ErrIncorrectMessageFormat := by
  decide

open message in
/-- Witness for C2 as amended: the message `NewTaskRequest` sends and a
`ResponseWisdom` with a payload that holds blanks inside. -/
theorem Message_String_roundtrip_witness :
    NewMessageFromString (Message.String ⟨1, []⟩) = .ok ⟨1, []⟩ ∧
    NewMessageFromString (Message.String ⟨4, str " be kind"⟩) = .ok ⟨4, str " be kind"⟩ :=
  ⟨Message_String_roundtrip ⟨1, []⟩ (by decide) (by decide) (by decide) (by decide),
    Message_String_roundtrip ⟨4, str " be kind"⟩ (by decide) (by decide) (by decide) (by decide)⟩

open message in
/-- C3, what the code does instead. A first field that is an integer outside
the five known type values is accepted when its low eight bits are one of
them: the line `256#x` decodes to an Error message and `257#` to a
RequestTask. -/
theorem NewMessageFromString_wraps_type :
    NewMessageFromString (str "256#x\n") = .ok ⟨MessageError, str "x"⟩ ∧
    NewMessageFromString (str "257#\n") = .ok ⟨MessageTypeRequestTask, []⟩ ∧
    NewMessageFromString (str "-252#x\n") = .ok ⟨MessageTypeResponseWisdom, str "x"⟩ := by
  decide

open hashcash in
/-- C4. Challenge round trip: a challenge with difficulty above zero, counter
at least zero, empty extension, an issue date that is a real UTC instant of
second precision with a four-digit year, any sender identity and any nonce
bytes is read back by `NewHashCashFromString` from its `String()` exactly as it
was: same difficulty, date, sender identity, nonce and counter. -/
theorem hashcash_String_roundtrip (c : HashCash)
    (hz : 0 < c.zeroBits) (hzmax : c.zeroBits ≤ strconv.maxInt)
    (hc : 0 ≤ c.counter) (hcmax : c.counter ≤ strconv.maxInt)
    (hext : c.extension = [])
    (hdate : c.date.Valid) (hsec : c.date.nsec = 0)
    (hy0 : 0 ≤ c.date.year) (hy : c.date.year ≤ 9999)
    (hseed : ∀ b ∈ c.randomSeed, b < 256) :
    NewHashCashFromString c.String = .ok c :=
  NewHashCashFromString_String c hz hzmax hc hcmax hext hdate hsec hy0 hy hseed

open hashcash in
/-- Witness for C4: the challenge of the test `TestNewFromString`. -/
theorem hashcash_String_roundtrip_witness :
    NewHashCashFromString
        (HashCash.String
          { zeroBits := 5, date := ⟨2024, 9, 28, 11, 0, 0, 0⟩, senderData := str "127.0.0.1:5040",
            extension := [], randomSeed := [96, 141, 143, 118], counter := 0 }) =
      .ok
        { zeroBits := 5, date := ⟨2024, 9, 28, 11, 0, 0, 0⟩, senderData := str "127.0.0.1:5040",
          extension := [], randomSeed := [96, 141, 143, 118], counter := 0 } :=
  hashcash_String_roundtrip _ (by decide) (by decide) (by decide) (by decide) rfl (by decide)
    rfl (by decide) (by decide) (by decide)

open hashcash in
/-- C5, as amended. For every text that `NewHashCashFromString` accepts, the
`String()` of the parsed challenge equals the text exactly when the text is in
canonical form: field 1 is the plain decimal of the difficulty, field 2 is
fourteen bytes long (no fraction of a second), the extension field is empty,
and the last two fields are the padded base64 of the nonce and of the plain
decimal counter. Whatever the text, that `String()` is accepted again and
parses to the same challenge with the extension emptied and the fraction of a
second dropped. -/
theorem hashcash_String_of_parsed (data : Bytes) (h : HashCash)
    (hok : NewHashCashFromString data = .ok h) :
    (h.String = data ↔
      (strings.Split delimiter data).getD 1 [] = strconv.Itoa h.zeroBits ∧
      ((strings.Split delimiter data).getD 2 []).length = 14 ∧
      (strings.Split delimiter data).getD ((strings.Split delimiter data).length - 3) [] = [] ∧
      (strings.Split delimiter data).getD ((strings.Split delimiter data).length - 2) [] =
        base64.EncodeToString h.randomSeed ∧
      (strings.Split delimiter data).getD ((strings.Split delimiter data).length - 1) [] =
        base64.EncodeToString (strconv.Itoa h.counter)) ∧
    NewHashCashFromString h.String =
      .ok { h with extension := [], date := h.date.truncateSecond } := by
  obtain ⟨A, B, C, S, E, F, G, hshape, hS, hA, hdate, hsplit⟩ := Split_String_of_ok hok
  obtain ⟨h0, h1, h2, h3, h4, h5, h6, h7⟩ := fields_index A B C E F G S
  obtain ⟨hvalid, hy0, hy9, hfmt, hl14, hns⟩ := time.ParseInLocation_some hdate
  have hflen := time.Format_length _ hvalid hy0 hy9
  constructor
  · rw [hshape, h0, h2, h3, h4, h5, h6]
    constructor
    · intro e
      rw [e, hshape] at hsplit
      simp only [List.cons.injEq, List.append_cancel_left_eq, and_true] at hsplit
      obtain ⟨_, hB, hC, hE, hF, hG⟩ := hsplit
      refine ⟨hB, ?_, hE, hF, hG⟩
      rw [hC, hflen]
    · rintro ⟨hB, hC, hE, hF, hG⟩
      have hC' : C = h.date.Format := by
        rw [hfmt, List.take_of_length_le (by omega)]
      have : strings.Split delimiter h.String = strings.Split delimiter data := by
        rw [hsplit, hshape, hA, hB, hC', hE, hF, hG]
      rw [← strings.Join_Split delimiter h.String, this, strings.Join_Split]
  · obtain ⟨_, _, hz, hzpos, _, ⟨cs, _, hctr⟩, hcpos, hseed, _, _⟩ :=
      NewHashCashFromString_ok hok
    have e : h.String = HashCash.String { h with extension := [], date := h.date.truncateSecond } :=
      rfl
    rw [e]
    exact NewHashCashFromString_String _ hzpos (strconv.Atoi_range hz).2 hcpos
      (strconv.Atoi_range hctr).2 rfl (time.Valid_truncateSecond hvalid) rfl hy0 hy9
      (base64.DecodeString_lt hseed)

open hashcash in
/-- Counterexample to C5 as stated: a text is accepted whose difficulty is
written `+5` and whose extension field is `x`, and the `String()` of the parsed
challenge is another text. -/
theorem hashcash_String_of_parsed_counterexample :
    NewHashCashFromString (str "1:+5:20240928110000:127.0.0.1:5040:x:YI2Pdg==:MA==") =
      .ok { zeroBits := 5, date := ⟨2024, 9, 28, 11, 0, 0, 0⟩, senderData := str "127.0.0.1:5040",
            extension := str "x", randomSeed := [96, 141, 143, 118], counter := 0 } ∧
    HashCash.String
      { zeroBits := 5, date := ⟨2024, 9, 28, 11, 0, 0, 0⟩, senderData := str "127.0.0.1:5040",
        extension := str "x", randomSeed := [96, 141, 143, 118], counter := 0 } =
      str "1:5:20240928110000:127.0.0.1:5040::YI2Pdg==:MA==" ∧
    str "1:5:20240928110000:127.0.0.1:5040::YI2Pdg==:MA==" ≠
      str "1:+5:20240928110000:127.0.0.1:5040:x:YI2Pdg==:MA==" := by
  decide

open hashcash in
/-- Witness for C5 as amended: the text of the test `TestNewFromString`, which
is canonical. -/
theorem hashcash_String_of_parsed_witness :
    HashCash.String
      { zeroBits := 5, date := ⟨2024, 9, 28, 11, 0, 0, 0⟩, senderData := str "127.0.0.1:5040",
        extension := [], randomSeed := [96, 141, 143, 118], counter := 0 } =
      str "1:5:20240928110000:127.0.0.1:5040::YI2Pdg==:MA==" :=
  (hashcash_String_of_parsed (str "1:5:20240928110000:127.0.0.1:5040::YI2Pdg==:MA==")
    { zeroBits := 5, date := ⟨2024, 9, 28, 11, 0, 0, 0⟩, senderData := str "127.0.0.1:5040",
      extension := [], randomSeed := [96, 141, 143, 118], counter := 0 } (by decide)).1.2
    (by decide)

open hashcash in
/-- C6. Validity predicate: for a challenge with difficulty above zero,
`Validate` returns true exactly when each of the first `difficulty` characters
of the hexadecimal digest `Hash(c)` exists and is `0`; when the digest is
shorter than the difficulty it returns `ErrHashLengthLessThanZeroBits`, never
true. `Validate` is a function of the challenge alone: it reads its fields and
writes none. -/
theorem Validate_iff_leading_zeros (c : HashCash) (hz : 0 < c.zeroBits) :
    c.Hash = .ok (sha1.hex (sha1.Sum c.String)) ∧
    (c.Validate = .ok true ↔
      ∀ i : Nat, (i : Int) < c.zeroBits → (sha1.hex (sha1.Sum c.String))[i]? = some zeroBit) ∧
    (((sha1.hex (sha1.Sum c.String)).length : Int) < c.zeroBits →
      c.Validate = .error .ErrHashLengthLessThanZeroBits) := by
  have hl := sha1.hex_Sum_length c.String
  refine ⟨rfl, ?_, ?_⟩
  · by_cases h40 : c.zeroBits ≤ 40
    · rw [Validate_eq c (by omega) h40]
      simp only [Except.ok.injEq]
      rw [take_all_iff]
      constructor
      · intro h i hi
        exact h i (by omega) (by omega)
      · intro h i hi _
        exact h i (by omega)
    · have hlt : ((sha1.hex (sha1.Sum c.String)).length : Int) < c.zeroBits := by
        rw [hl]; push_cast; omega
      constructor
      · intro h
        simp only [HashCash.Validate, HashCash.Hash, if_pos hlt] at h
        cases h
      · intro h
        have := h 40 (by omega)
        rw [List.getElem?_eq_none (by omega)] at this
        cases this
  · intro hlt
    simp only [HashCash.Validate, HashCash.Hash, if_pos hlt]

open hashcash in
/-- Witness for C6: the solved challenge of the test `TestHashCash_Calculate`,
difficulty 5 and counter 419882, whose digest starts with five zeros. -/
theorem Validate_iff_leading_zeros_witness :
    HashCash.Validate
      { zeroBits := 5, date := ⟨2024, 9, 29, 8, 36, 45, 0⟩, senderData := str "127.0.0.1:5040",
        extension := [], randomSeed := [39, 236, 78, 33], counter := 419882 } = .ok true :=
  (Validate_iff_leading_zeros _ (by decide)).2.1.2 (by
    intro i hi
    have hi' : i < 5 := by
      change (i : Int) < 5 at hi
      omega
    interval_cases i <;> decide)

open hashcash in
/-- C7, as amended. For a challenge with difficulty between 1 and the length
of the digest and `maxTries` from 0 to below the largest `int`, `Calculate`
with fuel for `maxTries + 2` iterations returns, and it returns
`ErrMaxTriesExceeded` exactly when `maxTries` is 0 (the guard `maxTries > 0`
skips the search, counter 0 is not tried) or no counter from 0 to `maxTries`
makes the challenge satisfy `Validate`. -/
theorem Calculate_exceeded_iff (c : HashCash) (maxTries : Int) (fuel : Nat)
    (hz1 : 1 ≤ c.zeroBits) (hz40 : c.zeroBits ≤ 40)
    (h0 : 0 ≤ maxTries) (hmax : maxTries < strconv.maxInt) (hfuel : maxTries + 2 ≤ fuel) :
    ∃ c' e, c.Calculate maxTries fuel = some (c', e) ∧
      (e = some .ErrMaxTriesExceeded ↔
        (maxTries = 0 ∨
          ¬ ∃ k, 0 ≤ k ∧ k ≤ maxTries ∧ HashCash.Validate { c with counter := k } = .ok true)) := by
  by_cases hm : maxTries = 0
  · subst hm
    exact ⟨c, some .ErrMaxTriesExceeded, by simp [HashCash.Calculate], by simp⟩
  · have hpos : maxTries > 0 := by omega
    obtain ⟨⟨c', e⟩, hr⟩ :=
      calculateLoop_total c maxTries hmax fuel 0 (le_refl _) (by omega) (by omega)
    refine ⟨c', e, by simp only [HashCash.Calculate, if_pos hpos]; exact hr, ?_⟩
    constructor
    · intro he
      subst he
      right
      rintro ⟨k, hk0, hk1, hv⟩
      have := (calculateLoop_exceeded c maxTries hmax (by omega) hz40 c' fuel 0 (le_refl _)
        (by omega) hr).2 k hk0 hk1
      rw [hv] at this
      cases this
    · rintro (h | h)
      · exact absurd h hm
      · rcases calculateLoop_result c maxTries (by omega) hz40 fuel 0 c' e hr with he | he
        · subst he
          obtain ⟨e1, e2, e3, e4, _⟩ := calculateLoop_nil c maxTries hmax c' fuel 0 (le_refl _) hr
          exact absurd ⟨c'.counter, e2, e3, by rw [← e1]; exact e4⟩ h
        · exact he

open hashcash in
/-- Counterexample to C7 as stated: a challenge of difficulty 1 that satisfies
`Validate` with counter 0, and for which `Calculate(0)` returns
`ErrMaxTriesExceeded` all the same. -/
theorem Calculate_exceeded_iff_counterexample :
    HashCash.Validate
      { zeroBits := 1, date := ⟨2024, 9, 29, 8, 36, 45, 0⟩, senderData := str "127.0.0.1:5040",
        extension := [], randomSeed := [10], counter := 0 } = .ok true ∧
    HashCash.Calculate
      { zeroBits := 1, date := ⟨2024, 9, 29, 8, 36, 45, 0⟩, senderData := str "127.0.0.1:5040",
        extension := [], randomSeed := [10], counter := 0 } 0 2 =
      some
        ({ zeroBits := 1, date := ⟨2024, 9, 29, 8, 36, 45, 0⟩,
           senderData := str "127.0.0.1:5040", extension := [], randomSeed := [10],
           counter := 0 }, some .ErrMaxTriesExceeded) := by
  decide

open hashcash in
/-- Witness for C7 as amended: a challenge of difficulty 1 with an empty nonce,
which no counter from 0 to 2 solves; `Calculate(2)` returns
`ErrMaxTriesExceeded` and leaves the counter at 3. -/
theorem Calculate_exceeded_iff_witness :
    HashCash.Calculate
      { zeroBits := 1, date := ⟨2024, 9, 29, 8, 36, 45, 0⟩, senderData := str "127.0.0.1:5040",
        extension := [], randomSeed := [], counter := 0 } 2 4 =
      some
        ({ zeroBits := 1, date := ⟨2024, 9, 29, 8, 36, 45, 0⟩,
           senderData := str "127.0.0.1:5040", extension := [], randomSeed := [],
           counter := 3 }, some .ErrMaxTriesExceeded) ∧
    ¬ ∃ k : Int, 0 ≤ k ∧ k ≤ 2 ∧
      HashCash.Validate
        { zeroBits := 1, date := ⟨2024, 9, 29, 8, 36, 45, 0⟩, senderData := str "127.0.0.1:5040",
          extension := [], randomSeed := [], counter := k } = .ok true := by
  have hcalc :
      HashCash.Calculate
        { zeroBits := 1, date := ⟨2024, 9, 29, 8, 36, 45, 0⟩, senderData := str "127.0.0.1:5040",
          extension := [], randomSeed := [], counter := 0 } 2 4 =
        some
          ({ zeroBits := 1, date := ⟨2024, 9, 29, 8, 36, 45, 0⟩,
             senderData := str "127.0.0.1:5040", extension := [], randomSeed := [],
             counter := 3 }, some .ErrMaxTriesExceeded) := by
    decide
  refine ⟨hcalc, ?_⟩
  obtain ⟨c', e, h, hiff⟩ :=
    Calculate_exceeded_iff
      { zeroBits := 1, date := ⟨2024, 9, 29, 8, 36, 45, 0⟩, senderData := str "127.0.0.1:5040",
        extension := [], randomSeed := [], counter := 0 } 2 4
      (by decide) (by decide) (by decide) (by decide) (by decide)
  rw [hcalc] at h
  simp only [Option.some.injEq, Prod.mk.injEq] at h
  rcases hiff.1 h.2.symm with h2 | h2
  · exact absurd h2 (by decide)
  · exact h2

open hashcash in
/-- C8. Solve success postcondition: for `maxTries` below the largest `int`,
`Calculate` with fuel for `maxTries + 2` iterations returns; and whenever it
returns `nil`, only the counter has changed, the counter is between 0 and
`maxTries`, the challenge it leaves satisfies `Validate`, and no smaller counter
from 0 on makes the challenge satisfy `Validate`. -/
theorem Calculate_nil_least (c : HashCash) (maxTries : Int)
    (hmax : maxTries < strconv.maxInt) :
    (∀ fuel : Nat, maxTries + 2 ≤ fuel → ∃ r, c.Calculate maxTries fuel = some r) ∧
    (∀ (fuel : Nat) (c' : HashCash), c.Calculate maxTries fuel = some (c', none) →
      c' = { c with counter := c'.counter } ∧ 0 ≤ c'.counter ∧ c'.counter ≤ maxTries ∧
      c'.Validate = .ok true ∧
      ∀ k, 0 ≤ k → k < c'.counter → HashCash.Validate { c with counter := k } ≠ .ok true) := by
  constructor
  · intro fuel hfuel
    unfold HashCash.Calculate
    split
    · exact calculateLoop_total c maxTries hmax fuel 0 (le_refl _) (by omega) (by omega)
    · exact ⟨_, rfl⟩
  · intro fuel c' h
    unfold HashCash.Calculate at h
    split at h
    · obtain ⟨e1, e2, e3, e4, e5⟩ := calculateLoop_nil c maxTries hmax c' fuel 0 (le_refl _) h
      refine ⟨e1, e2, e3, e4, fun k hk0 hk1 hv => ?_⟩
      rw [e5 k hk0 hk1] at hv
      cases hv
    · simp at h

open hashcash in
/-- Witness for C8: a challenge of difficulty 1 with nonce byte 19, which
counters 0 and 1 do not solve and counter 2 does; `Calculate(5)` returns `nil`
with counter 2. -/
theorem Calculate_nil_least_witness :
    HashCash.Calculate
      { zeroBits := 1, date := ⟨2024, 9, 29, 8, 36, 45, 0⟩, senderData := str "127.0.0.1:5040",
        extension := [], randomSeed := [19], counter := 0 } 5 7 =
      some
        ({ zeroBits := 1, date := ⟨2024, 9, 29, 8, 36, 45, 0⟩,
           senderData := str "127.0.0.1:5040", extension := [], randomSeed := [19],
           counter := 2 }, none) ∧
    ∀ k : Int, 0 ≤ k → k < 2 →
      HashCash.Validate
        { zeroBits := 1, date := ⟨2024, 9, 29, 8, 36, 45, 0⟩, senderData := str "127.0.0.1:5040",
          extension := [], randomSeed := [19], counter := k } ≠ .ok true :=
  ⟨by decide,
    ((Calculate_nil_least
      { zeroBits := 1, date := ⟨2024, 9, 29, 8, 36, 45, 0⟩, senderData := str "127.0.0.1:5040",
        extension := [], randomSeed := [19], counter := 0 } 5 (by decide)).2 7
      { zeroBits := 1, date := ⟨2024, 9, 29, 8, 36, 45, 0⟩, senderData := str "127.0.0.1:5040",
        extension := [], randomSeed := [19], counter := 2 } (by decide)).2.2.2.2⟩

open hashcash in
/-- C9, as amended. Challenge parse error kinds, in the order of the checks:
fewer than 7 fields between colons -> `ErrIncorrectHeaderFormat`; field 0 not
`1` -> `ErrIncorrectVersion`; field 1 not read by `Atoi` (no decimal integer
within the range of `int`) -> `ErrZeroBitsMustBeNumber`; field 1 at most 0 ->
`ErrZeroBitsMustBeMoreThanZero`; field 2 not read by `ParseInLocation` for the
layout `20060102150405`, as is every text shorter than fourteen bytes or with
another byte than a digit among its first fourteen -> `ErrIncorrectDate`; last
field not valid base64 -> the unnamed error `read counter error` made by
`fmt.Errorf`; last field decoding to no number or to a negative one ->
`ErrCounterMustBePositiveNumber`; field before the last not valid base64 ->
the unnamed error `read random seed error`; and a text that passes all these
checks is accepted. -/
theorem NewHashCashFromString_errors (data : Bytes) :
    ((strings.Split delimiter data).length < 7 →
      NewHashCashFromString data = .error .ErrIncorrectHeaderFormat) ∧
    (7 ≤ (strings.Split delimiter data).length →
      ((strings.Split delimiter data).getD 0 [] ≠ version1 →
        NewHashCashFromString data = .error .ErrIncorrectVersion) ∧
      ((strings.Split delimiter data).getD 0 [] = version1 →
        (strconv.Atoi ((strings.Split delimiter data).getD 1 []) = none →
          NewHashCashFromString data = .error .ErrZeroBitsMustBeNumber) ∧
        ∀ zeroBits, strconv.Atoi ((strings.Split delimiter data).getD 1 []) = some zeroBits →
          (zeroBits ≤ 0 → NewHashCashFromString data = .error .ErrZeroBitsMustBeMoreThanZero) ∧
          (0 < zeroBits →
            (time.ParseInLocation ((strings.Split delimiter data).getD 2 []) = none →
              NewHashCashFromString data = .error .ErrIncorrectDate) ∧
            ((((strings.Split delimiter data).getD 2 []).length < 14 ∨
                ∃ b ∈ ((strings.Split delimiter data).getD 2 []).take 14,
                  strconv.isDigit b = false) →
              NewHashCashFromString data = .error .ErrIncorrectDate) ∧
            ∀ date, time.ParseInLocation ((strings.Split delimiter data).getD 2 []) = some date →
              (base64.DecodeString ((strings.Split delimiter data).getD
                  ((strings.Split delimiter data).length - 1) []) = none →
                NewHashCashFromString data = .error (.unnamed "read counter error")) ∧
              ∀ counterString, base64.DecodeString ((strings.Split delimiter data).getD
                  ((strings.Split delimiter data).length - 1) []) = some counterString →
                (strconv.Atoi counterString = none →
                  NewHashCashFromString data = .error .ErrCounterMustBePositiveNumber) ∧
                ∀ counter, strconv.Atoi counterString = some counter →
                  (counter < 0 →
                    NewHashCashFromString data = .error .ErrCounterMustBePositiveNumber) ∧
                  (0 ≤ counter →
                    (base64.DecodeString ((strings.Split delimiter data).getD
                        ((strings.Split delimiter data).length - 2) []) = none →
                      NewHashCashFromString data =
                        .error (.unnamed "read random seed error")) ∧
                    ∀ randomSeed, base64.DecodeString ((strings.Split delimiter data).getD
                        ((strings.Split delimiter data).length - 2) []) = some randomSeed →
                      ∃ h, NewHashCashFromString data = .ok h)))) := by
  have hdate : ∀ v : Bytes, (v.length < 14 ∨ ∃ b ∈ v.take 14, strconv.isDigit b = false) →
      time.ParseInLocation v = none := by
    intro v hv
    cases hp : time.ParseInLocation v with
    | none => rfl
    | some t =>
      exfalso
      obtain ⟨hvalid, hy0, hy9, hfmt, hlen, _⟩ := time.ParseInLocation_some hp
      rcases hv with hv | ⟨b, hb, hd⟩
      · omega
      · rw [← hfmt] at hb
        have := time.Format_bytes t hvalid hy0 hy9 b hb
        rw [strconv.isDigit_iff.2 this] at hd
        cases hd
  unfold NewHashCashFromString
  refine ⟨fun h => by simp only [if_pos h], fun h7 => ?_⟩
  have h7' : ¬ (strings.Split delimiter data).length < 7 := by omega
  simp only [if_neg h7']
  refine ⟨fun h => by simp only [if_pos h], fun h0 => ?_⟩
  have h0' : ¬ (strings.Split delimiter data).getD 0 [] ≠ version1 := fun hne => hne h0
  simp only [if_neg h0']
  refine ⟨fun h => by simp only [h], fun zeroBits hz => ?_⟩
  simp only [hz]
  refine ⟨fun h => by simp only [if_pos h], fun hzpos => ?_⟩
  have hz' : ¬ zeroBits ≤ 0 := by omega
  simp only [if_neg hz']
  refine ⟨fun h => by simp only [h], fun h => by simp only [hdate _ h], fun date hd => ?_⟩
  simp only [hd]
  refine ⟨fun h => by simp only [h], fun counterString hcs => ?_⟩
  simp only [hcs]
  refine ⟨fun h => by simp only [h], fun counter hc => ?_⟩
  simp only [hc]
  refine ⟨fun h => by simp only [if_pos h], fun hcpos => ?_⟩
  have hc' : ¬ counter < 0 := by omega
  simp only [if_neg hc']
  refine ⟨fun h => by simp only [h], fun randomSeed hs => ?_⟩
  simp only [hs]
  exact ⟨_, rfl⟩

open hashcash in
/-- Counterexample to C9 as stated: a last field that is not valid base64 is
rejected with an error made by `fmt.Errorf`, which is none of the named error
values of the package; so is a field before the last that is not valid base64;
and a field 2 that is more than a 14-digit time, for having a fraction of a
second, is not rejected. -/
theorem NewHashCashFromString_errors_counterexample :
    NewHashCashFromString (str "1:5:20240928110000:127.0.0.1:5040::YI2Pdg==:!!!!") =
      .error (.unnamed "read counter error") ∧
    (Error.unnamed "read counter error").isNamed = false ∧
    NewHashCashFromString (str "1:5:20240928110000:127.0.0.1:5040::YI2Pdg=:MA==") =
      .error (.unnamed "read random seed error") ∧
    NewHashCashFromString (str "1:5:20240928110000.5:127.0.0.1:5040::YI2Pdg==:MA==") =
      .ok { zeroBits := 5, date := ⟨2024, 9, 28, 11, 0, 0, 500000000⟩,
            senderData := str "127.0.0.1:5040", extension := [],
            randomSeed := [96, 141, 143, 118], counter := 0 } := by
  decide

open hashcash in
/-- C10. Challenge parse field extraction: when `NewHashCashFromString` accepts
a text, the text has `n >= 7` fields between colons and the result has
difficulty = the integer `Atoi` reads in field 1, issuedAt = the UTC time that
`ParseInLocation` reads in field 2 (whose first fourteen bytes are the digits
of that time), counter = the integer `Atoi` reads in the base64-decoded last
field, nonce = the base64-decoded field `n-2`, extension = field `n-3` as it
is, and senderIdentity = the fields `3 .. n-4` joined with colons. -/
theorem NewHashCashFromString_extracts (data : Bytes) (h : HashCash)
    (hok : NewHashCashFromString data = .ok h) :
    7 ≤ (strings.Split delimiter data).length ∧
    strconv.Atoi ((strings.Split delimiter data).getD 1 []) = some h.zeroBits ∧
    time.ParseInLocation ((strings.Split delimiter data).getD 2 []) = some h.date ∧
    h.date.Format = ((strings.Split delimiter data).getD 2 []).take 14 ∧
    (∃ counterString,
      base64.DecodeString ((strings.Split delimiter data).getD
        ((strings.Split delimiter data).length - 1) []) = some counterString ∧
      strconv.Atoi counterString = some h.counter) ∧
    base64.DecodeString ((strings.Split delimiter data).getD
      ((strings.Split delimiter data).length - 2) []) = some h.randomSeed ∧
    h.extension = (strings.Split delimiter data).getD
      ((strings.Split delimiter data).length - 3) [] ∧
    h.senderData = strings.Join delimiter
      (((strings.Split delimiter data).take ((strings.Split delimiter data).length - 3)).drop 3)
    := by
  obtain ⟨h1, _, h3, _, h5, h6, _, h8, h9, h10⟩ := NewHashCashFromString_ok hok
  exact ⟨h1, h3, h5, (time.ParseInLocation_some h5).2.2.2.1, h6, h8, h9, h10⟩

open hashcash in
/-- Witness for C10: the text of the test `TestNewFromString` yields difficulty
5, date 2024-09-28T11:00:00Z, senderIdentity `127.0.0.1:5040`, counter 0 (and
the nonce bytes 96 141 143 118, with an empty extension). -/
theorem NewHashCashFromString_extracts_witness :
    NewHashCashFromString (str "1:5:20240928110000:127.0.0.1:5040::YI2Pdg==:MA==") =
      .ok { zeroBits := 5, date := ⟨2024, 9, 28, 11, 0, 0, 0⟩, senderData := str "127.0.0.1:5040",
            extension := [], randomSeed := [96, 141, 143, 118], counter := 0 } ∧
    strconv.Atoi ((strings.Split delimiter
      (str "1:5:20240928110000:127.0.0.1:5040::YI2Pdg==:MA==")).getD 1 []) = some 5 ∧
    time.ParseInLocation ((strings.Split delimiter
      (str "1:5:20240928110000:127.0.0.1:5040::YI2Pdg==:MA==")).getD 2 []) =
        some ⟨2024, 9, 28, 11, 0, 0, 0⟩ :=
  ⟨by decide,
    (NewHashCashFromString_extracts (str "1:5:20240928110000:127.0.0.1:5040::YI2Pdg==:MA==")
      { zeroBits := 5, date := ⟨2024, 9, 28, 11, 0, 0, 0⟩, senderData := str "127.0.0.1:5040",
        extension := [], randomSeed := [96, 141, 143, 118], counter := 0 } (by decide)).2.1,
    (NewHashCashFromString_extracts (str "1:5:20240928110000:127.0.0.1:5040::YI2Pdg==:MA==")
      { zeroBits := 5, date := ⟨2024, 9, 28, 11, 0, 0, 0⟩, senderData := str "127.0.0.1:5040",
        extension := [], randomSeed := [96, 141, 143, 118], counter := 0 } (by decide)).2.2.1⟩

open hashcash in
/-- C11, as amended. With the clock made explicit: the challenge that
`NewHashCash` issues at the instant `t` has issuedAt = `t` truncated to the
second; evaluated at that same instant, `Expired(ttl)` is false exactly when
`ttl` is at least the part of the second that the truncation dropped, hence for
every `ttl` of one second or more; and evaluated at any instant, `Expired(ttl)`
is true exactly when the instant is strictly after issuedAt + `ttl`. -/
theorem NewHashCash_Expired (zeroBits : Int) (sender : Bytes) (t : time.Time)
    (random : Option Nat) (h : HashCash) (ttl : Int)
    (hnew : NewHashCash zeroBits sender t random = .ok h) :
    h.date = t.truncateSecond ∧
    (h.Expired ttl t = false ↔ (t.nsec : Int) ≤ ttl) ∧
    (t.nsec < 1000000000 → 1000000000 ≤ ttl → h.Expired ttl t = false) ∧
    (∀ u : time.Time, h.Expired ttl u = true ↔ h.date.unixNano + ttl < u.unixNano) := by
  obtain ⟨_, rand, _, rfl⟩ := NewHashCash_ok hnew
  have hiff : HashCash.Expired
      { zeroBits := zeroBits, date := t.truncateSecond, senderData := sender,
        extension := [], randomSeed := big.IntBytes rand, counter := 0 } ttl t = false ↔
      (t.nsec : Int) ≤ ttl := by
    rw [← Bool.not_eq_true, Expired_iff]
    simp only [time.unixNano_truncateSecond]
    omega
  refine ⟨rfl, hiff, fun h1 h2 => hiff.2 (by omega), fun u => Expired_iff _ _ _⟩

open hashcash in
/-- Counterexample to C11 as stated: the challenge issued half a second after
08:36:45 carries 08:36:45, and with the positive ttl of one millisecond it is
expired at the very instant of its issue. -/
theorem NewHashCash_Expired_counterexample :
    NewHashCash 5 (str "127.0.0.1:5040") ⟨2024, 9, 29, 8, 36, 45, 500000000⟩ (some 669798945) =
      .ok { zeroBits := 5, date := ⟨2024, 9, 29, 8, 36, 45, 0⟩,
            senderData := str "127.0.0.1:5040", extension := [],
            randomSeed := [39, 236, 82, 33], counter := 0 } ∧
    (0 : Int) < 1000000 ∧
    HashCash.Expired
      { zeroBits := 5, date := ⟨2024, 9, 29, 8, 36, 45, 0⟩, senderData := str "127.0.0.1:5040",
        extension := [], randomSeed := [39, 236, 82, 33], counter := 0 }
      1000000 ⟨2024, 9, 29, 8, 36, 45, 500000000⟩ = true := by
  decide

open hashcash in
/-- Witness for C11 as amended: the same issue with a ttl of one minute; the
challenge is not expired at the instant of its issue. -/
theorem NewHashCash_Expired_witness :
    HashCash.Expired
      { zeroBits := 5, date := ⟨2024, 9, 29, 8, 36, 45, 0⟩, senderData := str "127.0.0.1:5040",
        extension := [], randomSeed := [39, 236, 82, 33], counter := 0 }
      60000000000 ⟨2024, 9, 29, 8, 36, 45, 500000000⟩ = false :=
  (NewHashCash_Expired 5 (str "127.0.0.1:5040") ⟨2024, 9, 29, 8, 36, 45, 500000000⟩
    (some 669798945) _ 60000000000 (by decide)).2.2.1 (by decide) (by decide)

open hashcash in
/-- C12, as amended. Solve determinism: for two challenges that agree on
difficulty, issuedAt, senderIdentity and nonce, whatever their counters before
the call, `Calculate(maxTries)` with the same fuel returns the same result on
both; when `maxTries` is above zero it leaves both with the same counter,
because the search restarts from counter 0; when `maxTries` is zero or less it
returns `ErrMaxTriesExceeded` without a search and each challenge keeps the
counter it had. -/
theorem Calculate_deterministic (c₁ c₂ : HashCash) (maxTries : Int) (fuel : Nat)
    (hz : c₁.zeroBits = c₂.zeroBits) (hd : c₁.date = c₂.date)
    (hs : c₁.senderData = c₂.senderData) (hr : c₁.randomSeed = c₂.randomSeed) :
    (c₁.Calculate maxTries fuel).map (fun r => r.2) =
      (c₂.Calculate maxTries fuel).map (fun r => r.2) ∧
    (0 < maxTries →
      (c₁.Calculate maxTries fuel).map (fun r => r.1.counter) =
        (c₂.Calculate maxTries fuel).map (fun r => r.1.counter)) ∧
    (maxTries ≤ 0 →
      c₁.Calculate maxTries fuel = some (c₁, some .ErrMaxTriesExceeded) ∧
      c₂.Calculate maxTries fuel = some (c₂, some .ErrMaxTriesExceeded)) := by
  by_cases hm : maxTries > 0
  · have h := calculateLoop_congr maxTries fuel { c₁ with counter := 0 } { c₂ with counter := 0 }
      hz hd hs hr rfl
    simp only [HashCash.Calculate, if_pos hm]
    refine ⟨?_, fun _ => ?_, fun hle => by omega⟩
    · have := congrArg (Option.map Prod.snd) h
      simpa [Option.map_map, Function.comp] using this
    · have := congrArg (Option.map Prod.fst) h
      simpa [Option.map_map, Function.comp] using this
  · have e₁ : c₁.Calculate maxTries fuel = some (c₁, some .ErrMaxTriesExceeded) := by
      simp only [HashCash.Calculate, if_neg hm]
    have e₂ : c₂.Calculate maxTries fuel = some (c₂, some .ErrMaxTriesExceeded) := by
      simp only [HashCash.Calculate, if_neg hm]
    rw [e₁, e₂]
    exact ⟨rfl, fun h => absurd h hm, fun _ => ⟨rfl, rfl⟩⟩

open hashcash in
/-- Counterexample to C12 as stated: two challenges that differ in the counter
only, 3 and 7; after `Calculate(0)` the one still has counter 3 and the other
counter 7. -/
theorem Calculate_deterministic_counterexample :
    HashCash.Calculate
      { zeroBits := 1, date := ⟨2024, 9, 29, 8, 36, 45, 0⟩, senderData := str "127.0.0.1:5040",
        extension := [], randomSeed := [19], counter := 3 } 0 2 =
      some
        ({ zeroBits := 1, date := ⟨2024, 9, 29, 8, 36, 45, 0⟩,
           senderData := str "127.0.0.1:5040", extension := [], randomSeed := [19],
           counter := 3 }, some .ErrMaxTriesExceeded) ∧
    HashCash.Calculate
      { zeroBits := 1, date := ⟨2024, 9, 29, 8, 36, 45, 0⟩, senderData := str "127.0.0.1:5040",
        extension := [], randomSeed := [19], counter := 7 } 0 2 =
      some
        ({ zeroBits := 1, date := ⟨2024, 9, 29, 8, 36, 45, 0⟩,
           senderData := str "127.0.0.1:5040", extension := [], randomSeed := [19],
           counter := 7 }, some .ErrMaxTriesExceeded) ∧
    (3 : Int) ≠ 7 := by
  decide

open hashcash in
/-- Witness for C12 as amended: the same two challenges with `Calculate(5)`;
both end with `nil` and counter 2. -/
theorem Calculate_deterministic_witness :
    (HashCash.Calculate
      { zeroBits := 1, date := ⟨2024, 9, 29, 8, 36, 45, 0⟩, senderData := str "127.0.0.1:5040",
        extension := [], randomSeed := [19], counter := 3 } 5 7).map (fun r => r.1.counter) =
      some 2 ∧
    (HashCash.Calculate
      { zeroBits := 1, date := ⟨2024, 9, 29, 8, 36, 45, 0⟩, senderData := str "127.0.0.1:5040",
        extension := [], randomSeed := [19], counter := 7 } 5 7).map (fun r => r.1.counter) =
      some 2 := by
  have h := (Calculate_deterministic
    { zeroBits := 1, date := ⟨2024, 9, 29, 8, 36, 45, 0⟩, senderData := str "127.0.0.1:5040",
      extension := [], randomSeed := [19], counter := 3 }
    { zeroBits := 1, date := ⟨2024, 9, 29, 8, 36, 45, 0⟩, senderData := str "127.0.0.1:5040",
      extension := [], randomSeed := [19], counter := 7 } 5 7 rfl rfl rfl rfl).2.1 (by decide)
  have h3 : (HashCash.Calculate
      { zeroBits := 1, date := ⟨2024, 9, 29, 8, 36, 45, 0⟩, senderData := str "127.0.0.1:5040",
        extension := [], randomSeed := [19], counter := 3 } 5 7).map (fun r => r.1.counter) =
      some 2 := by decide
  exact ⟨h3, by rw [← h]; exact h3⟩

open hashcash in
/-- C13. Issuance: given that the random source does not fail, `NewHashCash`
fails with `ErrZeroBitsMustBeMoreThanZero` if and only if the difficulty is
zero or less (and then it fails so whatever the random source does); otherwise
it returns the challenge with that difficulty, senderIdentity = sender, counter
0, empty extension, issuedAt = the current UTC time truncated to the second,
and the bytes of the random number as nonce. -/
theorem NewHashCash_issue (zeroBits : Int) (sender : Bytes) (now : time.Time) (rand : Nat) :
    (NewHashCash zeroBits sender now (some rand) = .error .ErrZeroBitsMustBeMoreThanZero ↔
      zeroBits ≤ 0) ∧
    (zeroBits ≤ 0 → ∀ random,
      NewHashCash zeroBits sender now random = .error .ErrZeroBitsMustBeMoreThanZero) ∧
    (0 < zeroBits →
      NewHashCash zeroBits sender now (some rand) =
        .ok { zeroBits := zeroBits, date := now.truncateSecond, senderData := sender,
              extension := [], randomSeed := big.IntBytes rand, counter := 0 }) := by
  by_cases hz : zeroBits ≤ 0
  · refine ⟨⟨fun _ => hz, fun _ => by simp [NewHashCash, hz]⟩,
      fun _ random => by simp [NewHashCash, hz], fun h => by omega⟩
  · refine ⟨⟨fun h => ?_, fun h => absurd h hz⟩, fun h => absurd h hz,
      fun _ => by simp [NewHashCash, hz]⟩
    simp [NewHashCash, hz] at h

open hashcash in
/-- Witness for C13: the two cases of the test `TestNew`, difficulty 5 and
difficulty 0 for the sender `127.0.0.1:5040`. -/
theorem NewHashCash_issue_witness :
    NewHashCash 5 (str "127.0.0.1:5040") ⟨2024, 9, 29, 8, 36, 45, 500000000⟩ (some 669798945) =
      .ok { zeroBits := 5, date := ⟨2024, 9, 29, 8, 36, 45, 0⟩,
            senderData := str "127.0.0.1:5040", extension := [],
            randomSeed := [39, 236, 82, 33], counter := 0 } ∧
    NewHashCash 0 (str "127.0.0.1:5040") ⟨2024, 9, 29, 8, 36, 45, 500000000⟩ (some 669798945) =
      .error .ErrZeroBitsMustBeMoreThanZero :=
  ⟨(NewHashCash_issue 5 (str "127.0.0.1:5040") ⟨2024, 9, 29, 8, 36, 45, 500000000⟩
      669798945).2.2 (by decide),
    (NewHashCash_issue 0 (str "127.0.0.1:5040") ⟨2024, 9, 29, 8, 36, 45, 500000000⟩
      669798945).1.2 (by decide)⟩

open hashcash message server in
/-- C14. Sender mismatch: when the payload parses to a challenge whose
senderIdentity is not the connection identity, `responseWisdom` writes exactly
one message, the Error `client not found`, which is no ResponseWisdom; it
returns `nil`, does not call the resource store and leaves the registry as it
was. -/
theorem responseWisdom_sender_mismatch (key : HashCash → Bytes) (now : time.Time)
    (getRandom : Bytes × Bool) (s : Server) (clientID payload : Bytes) (hc : HashCash)
    (hparse : NewHashCashFromString payload = .ok hc)
    (hsender : hc.senderData ≠ clientID) :
    (Server.responseWisdom key now getRandom s clientID payload).1.written =
      s.written ++ [Message.Bytes { Type' := MessageError, Payload := ErrClientNotFound }] ∧
    (∀ p, Message.Bytes { Type' := MessageError, Payload := ErrClientNotFound } ≠
      Message.Bytes { Type' := MessageTypeResponseWisdom, Payload := p }) ∧
    (Server.responseWisdom key now getRandom s clientID payload).1.storeCalls = s.storeCalls ∧
    (Server.responseWisdom key now getRandom s clientID payload).1.hashCashPool =
      s.hashCashPool ∧
    (Server.responseWisdom key now getRandom s clientID payload).2 = none := by
  have h : Server.responseWisdom key now getRandom s clientID payload =
      (s.writeError ErrClientNotFound, none) := by
    simp [Server.responseWisdom, hparse, HashCash.CheckSender, hsender]
  rw [h]
  exact ⟨rfl, fun p => errorBytes_ne_wisdomBytes _ p, rfl, rfl, rfl⟩

open hashcash message server in
/-- Witness for C14: the solved challenge of the test `TestHashCash_Calculate`,
submitted over a connection from another port, to a server that holds the
challenge in its registry. -/
theorem responseWisdom_sender_mismatch_witness :
    (Server.responseWisdom HashCash.Key ⟨2024, 9, 29, 8, 37, 0, 0⟩ (str "wisdom", true)
      { ZeroBits := 5, hashCashTTL := 60000000000,
        hashCashPool := NewHashCashPool.AddHashCash HashCash.Key
          { zeroBits := 5, date := ⟨2024, 9, 29, 8, 36, 45, 0⟩,
            senderData := str "127.0.0.1:5040", extension := [],
            randomSeed := [39, 236, 78, 33], counter := 0 },
        written := [], storeCalls := 0 }
      (str "127.0.0.1:5041")
      (str "1:5:20240929083645:127.0.0.1:5040::J+xOIQ==:NDE5ODgy")).1.written =
      [str "0#client not found in task requester list\n"] :=
  (responseWisdom_sender_mismatch HashCash.Key ⟨2024, 9, 29, 8, 37, 0, 0⟩ (str "wisdom", true)
    { ZeroBits := 5, hashCashTTL := 60000000000,
      hashCashPool := NewHashCashPool.AddHashCash HashCash.Key
        { zeroBits := 5, date := ⟨2024, 9, 29, 8, 36, 45, 0⟩,
          senderData := str "127.0.0.1:5040", extension := [],
          randomSeed := [39, 236, 78, 33], counter := 0 },
      written := [], storeCalls := 0 }
    (str "127.0.0.1:5041") (str "1:5:20240929083645:127.0.0.1:5040::J+xOIQ==:NDE5ODgy")
    { zeroBits := 5, date := ⟨2024, 9, 29, 8, 36, 45, 0⟩, senderData := str "127.0.0.1:5040",
      extension := [], randomSeed := [39, 236, 78, 33], counter := 419882 }
    (by decide) (by decide)).1

open hashcash message server in
/-- C15. Expired solution: when the payload parses to a challenge bound to the
connection identity, the registry holds an entry under its key and its own
issuedAt + the configured ttl is strictly before the current time,
`responseWisdom` writes exactly one message, the Error `hashcash expiration
exceeded`, which is no ResponseWisdom, does not call the resource store and
returns `nil` (whether or not the challenge is solved). -/
theorem responseWisdom_expired (key : HashCash → Bytes) (now : time.Time)
    (getRandom : Bytes × Bool) (s : Server) (clientID payload : Bytes) (hc e : HashCash)
    (hparse : NewHashCashFromString payload = .ok hc)
    (hsender : hc.senderData = clientID)
    (hpresent : s.hashCashPool.GetHashCash (key hc) = some e)
    (hexpired : hc.date.unixNano + s.hashCashTTL < now.unixNano) :
    (Server.responseWisdom key now getRandom s clientID payload).1.written =
      s.written ++
        [Message.Bytes { Type' := MessageError, Payload := ErrHashcashExpirationExceeded }] ∧
    ErrHashcashExpirationExceeded = str "hashcash expiration exceeded" ∧
    (∀ p, Message.Bytes { Type' := MessageError, Payload := ErrHashcashExpirationExceeded } ≠
      Message.Bytes { Type' := MessageTypeResponseWisdom, Payload := p }) ∧
    (Server.responseWisdom key now getRandom s clientID payload).1.storeCalls = s.storeCalls ∧
    (Server.responseWisdom key now getRandom s clientID payload).2 = none := by
  have hexp : hc.Expired s.hashCashTTL now = true := (Expired_iff _ _ _).2 hexpired
  have h : Server.responseWisdom key now getRandom s clientID payload =
      (Server.writeError
        { s with hashCashPool := s.hashCashPool.RemoveHashCash key e }
        ErrHashcashExpirationExceeded, none) := by
    simp [Server.responseWisdom, hparse, HashCash.CheckSender, hsender, hpresent, hexp]
  rw [h]
  exact ⟨rfl, rfl, fun p => errorBytes_ne_wisdomBytes _ p, rfl, rfl⟩

open hashcash message server in
/-- Witness for C15: the solved challenge of the test `TestHashCash_Calculate`,
issued at 08:36:45 and held in the registry, submitted from its own address at
08:38:00 to a server with a ttl of one minute. -/
theorem responseWisdom_expired_witness :
    (Server.responseWisdom HashCash.Key ⟨2024, 9, 29, 8, 38, 0, 0⟩ (str "wisdom", true)
      { ZeroBits := 5, hashCashTTL := 60000000000,
        hashCashPool := NewHashCashPool.AddHashCash HashCash.Key
          { zeroBits := 5, date := ⟨2024, 9, 29, 8, 36, 45, 0⟩,
            senderData := str "127.0.0.1:5040", extension := [],
            randomSeed := [39, 236, 78, 33], counter := 0 },
        written := [], storeCalls := 0 }
      (str "127.0.0.1:5040")
      (str "1:5:20240929083645:127.0.0.1:5040::J+xOIQ==:NDE5ODgy")).1.written =
      [str "0#hashcash expiration exceeded\n"] :=
  (responseWisdom_expired HashCash.Key ⟨2024, 9, 29, 8, 38, 0, 0⟩ (str "wisdom", true)
    { ZeroBits := 5, hashCashTTL := 60000000000,
      hashCashPool := NewHashCashPool.AddHashCash HashCash.Key
        { zeroBits := 5, date := ⟨2024, 9, 29, 8, 36, 45, 0⟩,
          senderData := str "127.0.0.1:5040", extension := [],
          randomSeed := [39, 236, 78, 33], counter := 0 },
      written := [], storeCalls := 0 }
    (str "127.0.0.1:5040") (str "1:5:20240929083645:127.0.0.1:5040::J+xOIQ==:NDE5ODgy")
    { zeroBits := 5, date := ⟨2024, 9, 29, 8, 36, 45, 0⟩, senderData := str "127.0.0.1:5040",
      extension := [], randomSeed := [39, 236, 78, 33], counter := 419882 }
    { zeroBits := 5, date := ⟨2024, 9, 29, 8, 36, 45, 0⟩, senderData := str "127.0.0.1:5040",
      extension := [], randomSeed := [39, 236, 78, 33], counter := 0 }
    (by decide) (by decide) (by decide) (by decide)).1

open hashcash message server in
/-- C16. Resource release: when the payload parses to a challenge that is bound
to the connection identity, has an entry under its key in the registry, is not
expired and satisfies `Validate`, `responseWisdom` calls the resource store
once and writes exactly one message: the ResponseWisdom whose payload is the
value `GetRandom` returned when `found` is true, and the Error `internal error`,
which is no ResponseWisdom, when `found` is false. -/
theorem responseWisdom_release (key : HashCash → Bytes) (now : time.Time)
    (getRandom : Bytes × Bool) (s : Server) (clientID payload : Bytes) (hc e : HashCash)
    (hparse : NewHashCashFromString payload = .ok hc)
    (hsender : hc.senderData = clientID)
    (hpresent : s.hashCashPool.GetHashCash (key hc) = some e)
    (hfresh : hc.Expired s.hashCashTTL now = false)
    (hvalid : hc.Validate = .ok true) :
    (getRandom.2 = true →
      (Server.responseWisdom key now getRandom s clientID payload).1.written =
        s.written ++
          [Message.Bytes { Type' := MessageTypeResponseWisdom, Payload := getRandom.1 }]) ∧
    (getRandom.2 = false →
      (Server.responseWisdom key now getRandom s clientID payload).1.written =
        s.written ++ [Message.Bytes { Type' := MessageError, Payload := ErrInternalError }] ∧
      ∀ p, Message.Bytes { Type' := MessageError, Payload := ErrInternalError } ≠
        Message.Bytes { Type' := MessageTypeResponseWisdom, Payload := p }) ∧
    (Server.responseWisdom key now getRandom s clientID payload).1.storeCalls =
      s.storeCalls + 1 := by
  refine ⟨fun hfound => ?_, fun hfound => ⟨?_, fun p => errorBytes_ne_wisdomBytes _ p⟩, ?_⟩
  · simp [Server.responseWisdom, hparse, HashCash.CheckSender, hsender, hpresent, hfresh,
      hvalid, hfound, Server.writeMessage]
  · simp [Server.responseWisdom, hparse, HashCash.CheckSender, hsender, hpresent, hfresh,
      hvalid, hfound, Server.writeError]
  · cases hfound : getRandom.2 <;>
      simp [Server.responseWisdom, hparse, HashCash.CheckSender, hsender, hpresent, hfresh,
        hvalid, hfound, Server.writeError, Server.writeMessage]

open hashcash message server in
/-- Witness for C16: the solved challenge of the test `TestHashCash_Calculate`,
held in the registry and submitted from its own address fifteen seconds after
its issue, to a server with a ttl of one minute and a store that holds
`wisdom`. -/
theorem responseWisdom_release_witness :
    (Server.responseWisdom HashCash.Key ⟨2024, 9, 29, 8, 37, 0, 0⟩ (str "wisdom", true)
      { ZeroBits := 5, hashCashTTL := 60000000000,
        hashCashPool := NewHashCashPool.AddHashCash HashCash.Key
          { zeroBits := 5, date := ⟨2024, 9, 29, 8, 36, 45, 0⟩,
            senderData := str "127.0.0.1:5040", extension := [],
            randomSeed := [39, 236, 78, 33], counter := 0 },
        written := [], storeCalls := 0 }
      (str "127.0.0.1:5040")
      (str "1:5:20240929083645:127.0.0.1:5040::J+xOIQ==:NDE5ODgy")).1.written =
      [str "4#wisdom\n"] :=
  (responseWisdom_release HashCash.Key ⟨2024, 9, 29, 8, 37, 0, 0⟩ (str "wisdom", true)
    { ZeroBits := 5, hashCashTTL := 60000000000,
      hashCashPool := NewHashCashPool.AddHashCash HashCash.Key
        { zeroBits := 5, date := ⟨2024, 9, 29, 8, 36, 45, 0⟩,
          senderData := str "127.0.0.1:5040", extension := [],
          randomSeed := [39, 236, 78, 33], counter := 0 },
      written := [], storeCalls := 0 }
    (str "127.0.0.1:5040") (str "1:5:20240929083645:127.0.0.1:5040::J+xOIQ==:NDE5ODgy")
    { zeroBits := 5, date := ⟨2024, 9, 29, 8, 36, 45, 0⟩, senderData := str "127.0.0.1:5040",
      extension := [], randomSeed := [39, 236, 78, 33], counter := 419882 }
    { zeroBits := 5, date := ⟨2024, 9, 29, 8, 36, 45, 0⟩, senderData := str "127.0.0.1:5040",
      extension := [], randomSeed := [39, 236, 78, 33], counter := 0 }
    (by decide) (by decide) (by decide) (by decide) (by decide)).1 rfl

open hashcash in
/-- C17. The registry behaves as a map keyed by `Key`, an arbitrary fixed
function of the challenge: after any sequence of `AddHashCash` and
`RemoveHashCash` calls on an empty `HashCashPool`, `GetHashCash(k)` returns what
the spec says, the challenge of the most recent `AddHashCash` whose key is `k`
if no `RemoveHashCash` of a challenge with key `k` came after it, and absent
otherwise. In particular, on any pool, after `put(c)` then `remove(c)`,
`get(Key(c))` is absent, and after `put(c₁)` then `put(c₂)` under the same key
`get` returns `c₂`, no longer `c₁`. -/
theorem HashCashPool_refines_registrySpec (key : HashCash → Bytes) :
    (∀ (cs : List PoolCall) (k : Bytes),
      (NewHashCashPool.calls key cs).GetHashCash k = registrySpec key cs k) ∧
    (∀ (cp : HashCashPool) (c : HashCash),
      ((cp.AddHashCash key c).RemoveHashCash key c).GetHashCash (key c) = none) ∧
    (∀ (cp : HashCashPool) (c₁ c₂ : HashCash), key c₁ = key c₂ →
      ((cp.AddHashCash key c₁).AddHashCash key c₂).GetHashCash (key c₁) = some c₂) := by
  refine ⟨fun cs => ?_, fun cp c => ?_, fun cp c₁ c₂ h => ?_⟩
  · induction cs using List.reverseRecOn with
    | nil => intro k; rfl
    | append_singleton cs c ih =>
      intro k
      rw [calls_append]
      simp only [registrySpec, List.reverse_append, List.reverse_cons, List.reverse_nil,
        List.nil_append, List.singleton_append]
      cases c with
      | add a =>
        simp only [HashCashPool.call, HashCashPool.AddHashCash, HashCashPool.GetHashCash,
          registrySpecNewestFirst]
        by_cases e : k = key a
        · rw [if_pos e, if_pos e.symm]
        · rw [if_neg e, if_neg (fun e' => e e'.symm)]
          exact ih k
      | remove a =>
        simp only [HashCashPool.call, HashCashPool.RemoveHashCash, HashCashPool.GetHashCash,
          registrySpecNewestFirst]
        by_cases e : k = key a
        · rw [if_pos e, if_pos e.symm]
        · rw [if_neg e, if_neg (fun e' => e e'.symm)]
          exact ih k
  · simp [HashCashPool.AddHashCash, HashCashPool.RemoveHashCash, HashCashPool.GetHashCash]
  · simp [HashCashPool.AddHashCash, HashCashPool.GetHashCash, h]

open config in
/-- C18, what the code does instead. `NewServerConfig` returns a configuration
exactly when the address is not empty and the difficulty and the shutdown
timeout are not zero: the time-to-live is never tested (the fourth test reads
`shutdownTimeout` again), so with a time-to-live of zero or absent it returns a
configuration whose `HashCashTTL` is 0. -/
theorem NewServerConfig_skips_ttl :
    NewServerConfig (str "0.0.0.0:8080") 5 1000 0 =
      .ok { ZeroBits := 5, Address := str "0.0.0.0:8080", ShutdownTimeout := 1000,
            HashCashTTL := 0 } ∧
    ∀ (serverAddr : Bytes) (zeroBits shutdownTimeout hashCashTTL : Int),
      (∃ cfg, NewServerConfig serverAddr zeroBits shutdownTimeout hashCashTTL = .ok cfg) ↔
        (serverAddr ≠ [] ∧ zeroBits ≠ 0 ∧ shutdownTimeout ≠ 0) := by
  refine ⟨by decide, fun serverAddr zeroBits shutdownTimeout hashCashTTL => ?_⟩
  unfold NewServerConfig
  constructor
  · rintro ⟨cfg, h⟩
    split at h
    · cases h
    · split at h
      · cases h
      · split at h
        · cases h
        · rename_i h1 h2 h3
          exact ⟨h1, h2, h3⟩
  · rintro ⟨h1, h2, h3⟩
    rw [if_neg h1, if_neg h2, if_neg h3, if_neg h3]
    exact ⟨_, rfl⟩

open hashcash message server in
/-- C19, as amended. For every RequestWisdom handled by `responseWisdom`, a
ResponseWisdom message is written only if the submitted challenge parses, is
bound to the connection identity, is not expired by its own issuedAt, satisfies
`Validate` at its own difficulty, and the store returned the resource written.
The registry entry under the challenge's key is looked up and consumed, and
compared with nothing: when the registry holds any entry under that key and
those conditions hold, the ResponseWisdom is the one message written, whatever
the difficulty, issuedAt and nonce of the entry. -/
theorem responseWisdom_releases_only_if (key : HashCash → Bytes) (now : time.Time)
    (getRandom : Bytes × Bool) (s : Server) (clientID payload : Bytes) :
    (∀ p, Message.Bytes { Type' := MessageTypeResponseWisdom, Payload := p } ∈
        (Server.responseWisdom key now getRandom s clientID payload).1.written.drop
          s.written.length →
      ∃ hc, NewHashCashFromString payload = .ok hc ∧ hc.senderData = clientID ∧
        hc.Expired s.hashCashTTL now = false ∧ hc.Validate = .ok true ∧
        getRandom = (p, true)) ∧
    (∀ hc e, NewHashCashFromString payload = .ok hc → hc.senderData = clientID →
      s.hashCashPool.GetHashCash (key hc) = some e →
      hc.Expired s.hashCashTTL now = false → hc.Validate = .ok true → getRandom.2 = true →
      (Server.responseWisdom key now getRandom s clientID payload).1.written =
        s.written ++
          [Message.Bytes { Type' := MessageTypeResponseWisdom, Payload := getRandom.1 }]) := by
  refine ⟨fun p h => responseWisdom_wisdom_written key now getRandom s clientID payload p h,
    fun hc e hparse hsender hpresent hfresh hvalid hfound => ?_⟩
  simp [Server.responseWisdom, hparse, HashCash.CheckSender, hsender, hpresent, hfresh,
    hvalid, hfound, Server.writeMessage]

open hashcash message server in
/-- Counterexample to C19 as stated: the server issues a task of difficulty 5 at
08:30:00 to `127.0.0.1:5040`; at 08:37:00, with a ttl of one minute, that
client submits a challenge it made itself, of difficulty 1, dated 08:36:45,
with another nonce and solved by counter 0. The registry holds the issued
challenge under the client's key, the submitted one agrees with it on neither
difficulty nor issuedAt nor nonce, and the ResponseWisdom is written. -/
theorem responseWisdom_releases_only_if_counterexample :
    (Server.responseTask HashCash.Key ⟨2024, 9, 29, 8, 30, 0, 0⟩ (some 669798945)
      { ZeroBits := 5, hashCashTTL := 60000000000, hashCashPool := NewHashCashPool,
        written := [], storeCalls := 0 }
      (str "127.0.0.1:5040")).1.hashCashPool.GetHashCash (str "127.0.0.1:5040") =
      some { zeroBits := 5, date := ⟨2024, 9, 29, 8, 30, 0, 0⟩,
             senderData := str "127.0.0.1:5040", extension := [],
             randomSeed := [39, 236, 82, 33], counter := 0 } ∧
    NewHashCashFromString (str "1:1:20240929083645:127.0.0.1:5040::Cg==:MA==") =
      .ok { zeroBits := 1, date := ⟨2024, 9, 29, 8, 36, 45, 0⟩,
            senderData := str "127.0.0.1:5040", extension := [], randomSeed := [10],
            counter := 0 } ∧
    (Server.responseWisdom HashCash.Key ⟨2024, 9, 29, 8, 37, 0, 0⟩ (str "wisdom", true)
      (Server.responseTask HashCash.Key ⟨2024, 9, 29, 8, 30, 0, 0⟩ (some 669798945)
        { ZeroBits := 5, hashCashTTL := 60000000000, hashCashPool := NewHashCashPool,
          written := [], storeCalls := 0 }
        (str "127.0.0.1:5040")).1
      (str "127.0.0.1:5040")
      (str "1:1:20240929083645:127.0.0.1:5040::Cg==:MA==")).1.written =
      [str "2#1:5:20240929083000:127.0.0.1:5040::J+xSIQ==:MA==\n", str "4#wisdom\n"] := by
  decide

open hashcash message server in
/-- C20. Consume on lookup: when the payload parses to a challenge bound to the
connection identity and the registry, each of whose entries is stored under its
own key, holds an entry under the challenge's key, then after `responseWisdom`
the registry has no entry under that key, whether the challenge is expired,
invalid or accepted and whatever the resource store returns, and the entry
under every other key is as before. -/
theorem responseWisdom_consumes (key : HashCash → Bytes) (now : time.Time)
    (getRandom : Bytes × Bool) (s : Server) (clientID payload : Bytes) (hc e : HashCash)
    (hparse : NewHashCashFromString payload = .ok hc)
    (hsender : hc.senderData = clientID)
    (hpresent : s.hashCashPool.GetHashCash (key hc) = some e)
    (hcons : s.hashCashPool.Consistent key) :
    (Server.responseWisdom key now getRandom s clientID payload).1.hashCashPool.GetHashCash
      (key hc) = none ∧
    ∀ k, k ≠ key hc →
      (Server.responseWisdom key now getRandom s clientID payload).1.hashCashPool.GetHashCash k =
        s.hashCashPool.GetHashCash k := by
  have hk : key e = key hc := hcons (key hc) e hpresent
  rw [responseWisdom_pool key now getRandom s clientID payload hc e hparse hsender hpresent]
  simp only [HashCashPool.RemoveHashCash, HashCashPool.GetHashCash, hk]
  exact ⟨by simp, fun k hne => by simp [hne]⟩

open hashcash message server in
/-- Witness for C20: the registry after the server issued a task to
`127.0.0.1:5040`; the client submits the solved challenge of the test
`TestHashCash_Calculate` from that address, and the registry has no entry
under the address afterwards. -/
theorem responseWisdom_consumes_witness :
    (Server.responseWisdom HashCash.Key ⟨2024, 9, 29, 8, 37, 0, 0⟩ (str "wisdom", true)
      { ZeroBits := 5, hashCashTTL := 60000000000,
        hashCashPool := NewHashCashPool.calls HashCash.Key
          [.add { zeroBits := 5, date := ⟨2024, 9, 29, 8, 36, 45, 0⟩,
                  senderData := str "127.0.0.1:5040", extension := [],
                  randomSeed := [39, 236, 78, 33], counter := 0 }],
        written := [], storeCalls := 0 }
      (str "127.0.0.1:5040")
      (str "1:5:20240929083645:127.0.0.1:5040::J+xOIQ==:NDE5ODgy")).1.hashCashPool.GetHashCash
        (str "127.0.0.1:5040") = none :=
  (responseWisdom_consumes HashCash.Key ⟨2024, 9, 29, 8, 37, 0, 0⟩ (str "wisdom", true)
    { ZeroBits := 5, hashCashTTL := 60000000000,
      hashCashPool := NewHashCashPool.calls HashCash.Key
        [.add { zeroBits := 5, date := ⟨2024, 9, 29, 8, 36, 45, 0⟩,
                senderData := str "127.0.0.1:5040", extension := [],
                randomSeed := [39, 236, 78, 33], counter := 0 }],
      written := [], storeCalls := 0 }
    (str "127.0.0.1:5040") (str "1:5:20240929083645:127.0.0.1:5040::J+xOIQ==:NDE5ODgy")
    { zeroBits := 5, date := ⟨2024, 9, 29, 8, 36, 45, 0⟩, senderData := str "127.0.0.1:5040",
      extension := [], randomSeed := [39, 236, 78, 33], counter := 419882 }
    { zeroBits := 5, date := ⟨2024, 9, 29, 8, 36, 45, 0⟩, senderData := str "127.0.0.1:5040",
      extension := [], randomSeed := [39, 236, 78, 33], counter := 0 }
    (by decide) (by decide) (by decide)
    (Consistent_calls HashCash.Key _ _ (Consistent_NewHashCashPool HashCash.Key))).1

open hashcash message server in
/-- C21. Handler state machine, for `handleMessages` run over the lines that its
calls of `ReadString` return. The turn that handled a line goes on to another
`ReadString` if and only if the line decoded to a RequestTask (the handler then
makes more than one read, and continues from the server as `responseTask` left
it). A line that decoded to a RequestWisdom ends the loop with what
`responseWisdom` did and returned; a line that fails to decode ends it after
the one Error `incorrect message format`; a line that decoded to a message of
type Error, ResponseTask or ResponseWisdom ends it after the one Error
`unknown message type`; and a decoded message has no type but these five. -/
theorem handleMessages_state_machine (key : HashCash → Bytes) (s : Server) (clientID : Bytes)
    (t : Turn) (rest : List Turn) :
    ((s.handleLine key clientID t).2 = .again ↔
      ∃ p, NewMessageFromString t.rawMessage =
        .ok { Type' := MessageTypeRequestTask, Payload := p }) ∧
    (1 < (Server.handleMessages key clientID s (t :: rest)).2.2 ↔
      ∃ p, NewMessageFromString t.rawMessage =
        .ok { Type' := MessageTypeRequestTask, Payload := p }) ∧
    (∀ p, NewMessageFromString t.rawMessage =
        .ok { Type' := MessageTypeRequestTask, Payload := p } →
      Server.handleMessages key clientID s (t :: rest) =
        ((Server.handleMessages key clientID
            (s.responseTask key t.now t.random clientID).1 rest).1,
          (Server.handleMessages key clientID
            (s.responseTask key t.now t.random clientID).1 rest).2.1,
          (Server.handleMessages key clientID
            (s.responseTask key t.now t.random clientID).1 rest).2.2 + 1)) ∧
    (∀ p, NewMessageFromString t.rawMessage =
        .ok { Type' := MessageTypeRequestWisdom, Payload := p } →
      Server.handleMessages key clientID s (t :: rest) =
        ((s.responseWisdom key t.now t.getRandom clientID p).1,
          (s.responseWisdom key t.now t.getRandom clientID p).2, 1)) ∧
    (∀ e, NewMessageFromString t.rawMessage = .error e →
      Server.handleMessages key clientID s (t :: rest) =
        (s.writeError ErrIncorrectMessageFormat, some "NewMessageFromString", 1) ∧
      (s.writeError ErrIncorrectMessageFormat).written =
        s.written ++ [str "0#incorrect message format\n"]) ∧
    (∀ m, NewMessageFromString t.rawMessage = .ok m →
      m.Type' = MessageError ∨ m.Type' = MessageTypeResponseTask ∨
        m.Type' = MessageTypeResponseWisdom →
      Server.handleMessages key clientID s (t :: rest) =
        (s.writeError ErrUnknownMessageType, some "unknown message type", 1) ∧
      (s.writeError ErrUnknownMessageType).written =
        s.written ++ [str "0#unknown message type\n"]) ∧
    (∀ m, NewMessageFromString t.rawMessage = .ok m →
      m.Type' = MessageError ∨ m.Type' = MessageTypeRequestTask ∨
        m.Type' = MessageTypeResponseTask ∨ m.Type' = MessageTypeRequestWisdom ∨
        m.Type' = MessageTypeResponseWisdom) := by
  refine ⟨handleLine_again_iff key s clientID t, ⟨fun h => ?_, fun h => ?_⟩, fun p hp => ?_,
    fun p hp => ?_, fun e he => ⟨?_, rfl⟩, fun m hm ht => ⟨?_, rfl⟩,
    fun m hm => NewMessageFromString_type hm⟩
  · by_contra hno
    have hstep : (s.handleLine key clientID t).2 ≠ .again :=
      fun h2 => hno ((handleLine_again_iff key s clientID t).1 h2)
    cases hl : s.handleLine key clientID t with
    | mk s1 step =>
      cases step with
      | again => rw [hl] at hstep; exact hstep rfl
      | returned err =>
        rw [handleMessages_returned key clientID s s1 t rest err hl] at h
        exact absurd h (Nat.lt_irrefl 1)
  · obtain ⟨p, hp⟩ := h
    rw [handleMessages_again key clientID s _ t rest (handleLine_RequestTask key s clientID t p hp)]
    have := handleMessages_reads_pos key clientID (s.responseTask key t.now t.random clientID).1
      rest
    show 1 < _ + 1
    omega
  · exact handleMessages_again key clientID s _ t rest
      (handleLine_RequestTask key s clientID t p hp)
  · exact handleMessages_returned key clientID s _ t rest _
      (handleLine_RequestWisdom key s clientID t p hp)
  · exact handleMessages_returned key clientID s _ t rest _
      (handleLine_error key s clientID t e he)
  · refine handleMessages_returned key clientID s _ t rest _
      (handleLine_other key s clientID t m hm ?_ ?_)
    · rcases ht with h | h | h <;> rw [h] <;> decide
    · rcases ht with h | h | h <;> rw [h] <;> decide

open hashcash message server in
/-- Witness for C21: a connection from `127.0.0.1:5040` to a server of
difficulty 1 on which `1#`, then `3#` with the solved challenge, then `1#`
arrive. The first line is answered with the task and the handler reads on; the
second is answered with the resource and ends the loop; the third is not read:
two reads, two messages written, `nil` returned. -/
theorem handleMessages_state_machine_witness :
    1 < (Server.handleMessages HashCash.Key (str "127.0.0.1:5040")
      { ZeroBits := 1, hashCashTTL := 60000000000, hashCashPool := NewHashCashPool,
        written := [], storeCalls := 0 }
      [{ rawMessage := str "1#\n", now := ⟨2024, 9, 29, 8, 36, 45, 500000000⟩,
         random := some 19, getRandom := (str "wisdom", true) },
       { rawMessage := str "3#1:1:20240929083645:127.0.0.1:5040::Ew==:Mg==\n",
         now := ⟨2024, 9, 29, 8, 36, 50, 0⟩, random := some 20,
         getRandom := (str "wisdom", true) },
       { rawMessage := str "1#\n", now := ⟨2024, 9, 29, 8, 36, 55, 0⟩, random := some 21,
         getRandom := (str "wisdom", true) }]).2.2 ∧
    (Server.handleMessages HashCash.Key (str "127.0.0.1:5040")
      { ZeroBits := 1, hashCashTTL := 60000000000, hashCashPool := NewHashCashPool,
        written := [], storeCalls := 0 }
      [{ rawMessage := str "1#\n", now := ⟨2024, 9, 29, 8, 36, 45, 500000000⟩,
         random := some 19, getRandom := (str "wisdom", true) },
       { rawMessage := str "3#1:1:20240929083645:127.0.0.1:5040::Ew==:Mg==\n",
         now := ⟨2024, 9, 29, 8, 36, 50, 0⟩, random := some 20,
         getRandom := (str "wisdom", true) },
       { rawMessage := str "1#\n", now := ⟨2024, 9, 29, 8, 36, 55, 0⟩, random := some 21,
         getRandom := (str "wisdom", true) }]).2 = (none, 2) ∧
    (Server.handleMessages HashCash.Key (str "127.0.0.1:5040")
      { ZeroBits := 1, hashCashTTL := 60000000000, hashCashPool := NewHashCashPool,
        written := [], storeCalls := 0 }
      [{ rawMessage := str "1#\n", now := ⟨2024, 9, 29, 8, 36, 45, 500000000⟩,
         random := some 19, getRandom := (str "wisdom", true) },
       { rawMessage := str "3#1:1:20240929083645:127.0.0.1:5040::Ew==:Mg==\n",
         now := ⟨2024, 9, 29, 8, 36, 50, 0⟩, random := some 20,
         getRandom := (str "wisdom", true) },
       { rawMessage := str "1#\n", now := ⟨2024, 9, 29, 8, 36, 55, 0⟩, random := some 21,
         getRandom := (str "wisdom", true) }]).1.written =
      [str "2#1:1:20240929083645:127.0.0.1:5040::Ew==:MA==\n", str "4#wisdom\n"] :=
  ⟨(handleMessages_state_machine HashCash.Key
      { ZeroBits := 1, hashCashTTL := 60000000000, hashCashPool := NewHashCashPool,
        written := [], storeCalls := 0 }
      (str "127.0.0.1:5040")
      { rawMessage := str "1#\n", now := ⟨2024, 9, 29, 8, 36, 45, 500000000⟩,
        random := some 19, getRandom := (str "wisdom", true) }
      [{ rawMessage := str "3#1:1:20240929083645:127.0.0.1:5040::Ew==:Mg==\n",
         now := ⟨2024, 9, 29, 8, 36, 50, 0⟩, random := some 20,
         getRandom := (str "wisdom", true) },
       { rawMessage := str "1#\n", now := ⟨2024, 9, 29, 8, 36, 55, 0⟩, random := some 21,
         getRandom := (str "wisdom", true) }]).2.1.2 ⟨[], by decide⟩,
    by decide, by decide⟩

open hashcash in
/-- C22, as amended. Bounded search: for every challenge and every `maxTries`
from 0 to below the largest `int`, `Calculate` with fuel for `maxTries + 2`
iterations returns after at most `maxTries + 1` calls of `Validate`. When it
returns `ErrMaxTriesExceeded` and `maxTries` is above 0, it has made exactly
`maxTries + 1` calls and the counter is `maxTries + 1`; when `maxTries` is 0 the
guard `maxTries > 0` skips the search, no call is made and the counter is the
one the challenge had before. -/
theorem Calculate_bounded (c : HashCash) (maxTries : Int) (fuel : Nat)
    (h0 : 0 ≤ maxTries) (hmax : maxTries < strconv.maxInt) (hfuel : maxTries + 2 ≤ fuel) :
    ∃ c' e n, c.CalculateEvals maxTries fuel = some (c', e, n) ∧
      c.Calculate maxTries fuel = some (c', e) ∧
      (n : Int) ≤ maxTries + 1 ∧
      (e = some .ErrMaxTriesExceeded →
        (0 < maxTries → c'.counter = maxTries + 1 ∧ (n : Int) = maxTries + 1) ∧
        (maxTries = 0 → c'.counter = c.counter ∧ n = 0)) := by
  by_cases hm : maxTries = 0
  · subst hm
    refine ⟨c, some .ErrMaxTriesExceeded, 0, by simp [HashCash.CalculateEvals],
      by simp [HashCash.Calculate], by simp,
      fun _ => ⟨fun h => absurd h (by decide), fun _ => ⟨rfl, rfl⟩⟩⟩
  · have hpos : maxTries > 0 := by omega
    obtain ⟨c', e, n, hr, _, _, _, e4, e5⟩ :=
      calculateLoopEvals_spec c maxTries hmax fuel 0 0 (le_refl _) (by omega) (by omega)
    have hev : c.CalculateEvals maxTries fuel = some (c', e, n) := by
      simp only [HashCash.CalculateEvals, if_pos hpos]; exact hr
    have hcalc : c.Calculate maxTries fuel = some (c', e) := by
      rw [← CalculateEvals_fst, hev]; rfl
    refine ⟨c', e, n, hev, hcalc, ?_, fun he => ⟨fun _ => ?_, fun h => absurd h hm⟩⟩
    · by_cases he : e = some .ErrMaxTriesExceeded
      · have := (e4 he).2
        push_cast at this
        omega
      · have := e5 he
        push_cast at this
        omega
    · have := e4 he
      push_cast at this
      exact ⟨this.1, by omega⟩

open hashcash in
/-- Counterexample to C22 as stated: the challenge of the test
`TestHashCash_Calculate` as issued, with counter 0. `Calculate(0)` returns
`ErrMaxTriesExceeded` without a call of `Validate` and leaves the counter at 0,
which is not `maxTries + 1`. -/
theorem Calculate_bounded_counterexample :
    HashCash.CalculateEvals
      { zeroBits := 5, date := ⟨2024, 9, 29, 8, 36, 45, 0⟩, senderData := str "127.0.0.1:5040",
        extension := [], randomSeed := [39, 236, 78, 33], counter := 0 } 0 2 =
      some
        ({ zeroBits := 5, date := ⟨2024, 9, 29, 8, 36, 45, 0⟩,
           senderData := str "127.0.0.1:5040", extension := [],
           randomSeed := [39, 236, 78, 33], counter := 0 }, some .ErrMaxTriesExceeded, 0) ∧
    (HashCash.Calculate
      { zeroBits := 5, date := ⟨2024, 9, 29, 8, 36, 45, 0⟩, senderData := str "127.0.0.1:5040",
        extension := [], randomSeed := [39, 236, 78, 33], counter := 0 } 0 2).map
      (fun r => (r.2, r.1.counter)) = some (some .ErrMaxTriesExceeded, 0) ∧
    (0 : Int) ≠ 0 + 1 := by
  decide

open hashcash in
/-- Witness for C22 as amended: a challenge of difficulty 1 with an empty nonce,
which no counter from 0 to 2 solves; `Calculate(2)` calls `Validate` three times,
returns `ErrMaxTriesExceeded` and leaves the counter at 3. -/
theorem Calculate_bounded_witness :
    HashCash.CalculateEvals
      { zeroBits := 1, date := ⟨2024, 9, 29, 8, 36, 45, 0⟩, senderData := str "127.0.0.1:5040",
        extension := [], randomSeed := [], counter := 0 } 2 4 =
      some
        ({ zeroBits := 1, date := ⟨2024, 9, 29, 8, 36, 45, 0⟩,
           senderData := str "127.0.0.1:5040", extension := [], randomSeed := [],
           counter := 3 }, some .ErrMaxTriesExceeded, 3) ∧
    ∃ c' e n,
      HashCash.CalculateEvals
        { zeroBits := 1, date := ⟨2024, 9, 29, 8, 36, 45, 0⟩, senderData := str "127.0.0.1:5040",
          extension := [], randomSeed := [], counter := 0 } 2 4 = some (c', e, n) ∧
      HashCash.Calculate
        { zeroBits := 1, date := ⟨2024, 9, 29, 8, 36, 45, 0⟩, senderData := str "127.0.0.1:5040",
          extension := [], randomSeed := [], counter := 0 } 2 4 = some (c', e) ∧
      (n : Int) ≤ 2 + 1 ∧
      (e = some .ErrMaxTriesExceeded →
        ((0 : Int) < 2 → c'.counter = 2 + 1 ∧ (n : Int) = 2 + 1) ∧
        ((2 : Int) = 0 →
          c'.counter =
            HashCash.counter
              { zeroBits := 1, date := ⟨2024, 9, 29, 8, 36, 45, 0⟩,
                senderData := str "127.0.0.1:5040", extension := [], randomSeed := [],
                counter := 0 } ∧ n = 0)) :=
  ⟨by decide,
    Calculate_bounded
      { zeroBits := 1, date := ⟨2024, 9, 29, 8, 36, 45, 0⟩, senderData := str "127.0.0.1:5040",
        extension := [], randomSeed := [], counter := 0 } 2 4
      (by decide) (by decide) (by decide)⟩

open hashcash in
/-- C23. Challenge invariants and frame: a challenge returned by `NewHashCash`
or by `NewHashCashFromString` has difficulty above 0 and counter at least 0; and
for `maxTries` below the largest `int`, `Calculate` with fuel for
`maxTries + 2` iterations returns and leaves difficulty, issuedAt,
senderIdentity, extension and nonce as they were, so a difficulty above 0 stays
above 0, and a counter that was at least 0 is at least 0 afterwards. -/
theorem HashCash_invariants (c : HashCash) (maxTries : Int) (fuel : Nat)
    (hmax : maxTries < strconv.maxInt) (hfuel : maxTries + 2 ≤ fuel) :
    (∀ zeroBits sender now random,
      NewHashCash zeroBits sender now random = .ok c → 0 < c.zeroBits ∧ 0 ≤ c.counter) ∧
    (∀ data, NewHashCashFromString data = .ok c → 0 < c.zeroBits ∧ 0 ≤ c.counter) ∧
    ∃ c' e, c.Calculate maxTries fuel = some (c', e) ∧
      c'.zeroBits = c.zeroBits ∧ c'.date = c.date ∧ c'.senderData = c.senderData ∧
      c'.extension = c.extension ∧ c'.randomSeed = c.randomSeed ∧
      (0 < c.zeroBits → 0 < c'.zeroBits) ∧ (0 ≤ c.counter → 0 ≤ c'.counter) := by
  refine ⟨fun zeroBits sender now random h => ?_, fun data h => ?_, ?_⟩
  · obtain ⟨hz, rand, _, e⟩ := NewHashCash_ok h
    subst e
    exact ⟨hz, le_refl _⟩
  · have := NewHashCashFromString_ok h
    exact ⟨this.2.2.2.1, this.2.2.2.2.2.2.1⟩
  · by_cases hpos : maxTries > 0
    · obtain ⟨c', e, hr, e1, e2, _⟩ :=
        calculateLoop_frame c maxTries hmax fuel 0 (le_refl _) (by omega) (by omega)
      refine ⟨c', e, by simp only [HashCash.Calculate, if_pos hpos]; exact hr, ?_⟩
      rw [e1]
      exact ⟨rfl, rfl, rfl, rfl, rfl, fun h => h, fun _ => e2⟩
    · exact ⟨c, some .ErrMaxTriesExceeded, by simp only [HashCash.Calculate, if_neg hpos],
        rfl, rfl, rfl, rfl, rfl, fun h => h, fun h => h⟩

open hashcash in
/-- Witness for C23: the challenge decoded from
`1:1:20240929083645:127.0.0.1:5040::Ew==:Nw==` (difficulty 1, nonce byte 19,
counter 7); `Calculate(5)` returns `nil` with counter 2 and the other fields as
they were. -/
theorem HashCash_invariants_witness :
    NewHashCashFromString (str "1:1:20240929083645:127.0.0.1:5040::Ew==:Nw==") =
      .ok { zeroBits := 1, date := ⟨2024, 9, 29, 8, 36, 45, 0⟩,
            senderData := str "127.0.0.1:5040", extension := [], randomSeed := [19],
            counter := 7 } ∧
    HashCash.Calculate
      { zeroBits := 1, date := ⟨2024, 9, 29, 8, 36, 45, 0⟩, senderData := str "127.0.0.1:5040",
        extension := [], randomSeed := [19], counter := 7 } 5 7 =
      some
        ({ zeroBits := 1, date := ⟨2024, 9, 29, 8, 36, 45, 0⟩,
           senderData := str "127.0.0.1:5040", extension := [], randomSeed := [19],
           counter := 2 }, none) ∧
    ((0 : Int) < 1 ∧ (0 : Int) ≤ 7) ∧
    ∃ c' e,
      HashCash.Calculate
        { zeroBits := 1, date := ⟨2024, 9, 29, 8, 36, 45, 0⟩, senderData := str "127.0.0.1:5040",
          extension := [], randomSeed := [19], counter := 7 } 5 7 = some (c', e) ∧
      c'.zeroBits = 1 ∧ c'.date = ⟨2024, 9, 29, 8, 36, 45, 0⟩ ∧
      c'.senderData = str "127.0.0.1:5040" ∧ c'.extension = [] ∧ c'.randomSeed = [19] ∧
      ((0 : Int) < 1 → 0 < c'.zeroBits) ∧ ((0 : Int) ≤ 7 → 0 ≤ c'.counter) :=
  have hparse :
      NewHashCashFromString (str "1:1:20240929083645:127.0.0.1:5040::Ew==:Nw==") =
        .ok { zeroBits := 1, date := ⟨2024, 9, 29, 8, 36, 45, 0⟩,
              senderData := str "127.0.0.1:5040", extension := [], randomSeed := [19],
              counter := 7 } := by decide
  have hall :=
    HashCash_invariants
      { zeroBits := 1, date := ⟨2024, 9, 29, 8, 36, 45, 0⟩, senderData := str "127.0.0.1:5040",
        extension := [], randomSeed := [19], counter := 7 } 5 7 (by decide) (by decide)
  ⟨hparse, by decide, hall.2.1 _ hparse, hall.2.2⟩
